import Mathlib

/-!
# skeletonRetriever: a shallow embedding of `modules/skeletonRetriever/src/main.cpp`

The module turns 2D keypoint detections plus a depth image into 3D skeleton
candidates, matches them against a set of live tracks, merges matched
candidates into their track with a per-keypoint miss budget, and evicts tracks
whose timer has run out.

Numbers of type `double` are elements of a linearly ordered field `α` with a
floor function (`ℚ` for evaluation, `ℝ` for the mathematical reading).  The
expressions the module evaluates once per call are read in exact arithmetic.
The statement `s.timer-=period` of `gc` is executed on the same variable cycle
after cycle, so its rounding errors add up; it is read as the rounding `fl` of
the exact difference, where `fl` is a field of the `Retriever` record (the
identity for the exact reading, the rounding of binary64 arithmetic for the
reading in doubles).  Library functions the module calls but does not define
(`tan`, `norm`) are fields of the record too.
-/

set_option autoImplicit false

namespace SkeletonRetriever

/-! ## Vectors -/

/-- A `yarp::sig::Vector` of size three. -/
structure Vector3 (α : Type) where
  x : α
  y : α
  z : α
deriving DecidableEq, Repr

namespace Vector3

variable {α : Type} [LinearOrderedField α]

/-- Componentwise sum, `a+b`. -/
def add (a b : Vector3 α) : Vector3 α := ⟨a.x + b.x, a.y + b.y, a.z + b.z⟩

/-- Componentwise difference, `a-b`. -/
def sub (a b : Vector3 α) : Vector3 α := ⟨a.x - b.x, a.y - b.y, a.z - b.z⟩

/-- Scalar multiple, `c*a`. -/
def smul (c : α) (a : Vector3 α) : Vector3 α := ⟨c * a.x, c * a.y, c * a.z⟩

/-- Division by a scalar, `a/=n`. -/
def sdiv (a : Vector3 α) (n : α) : Vector3 α := ⟨a.x / n, a.y / n, a.z / n⟩

/-- The cross product `cross(a,b)` of `yarp::math`. -/
def cross (a b : Vector3 α) : Vector3 α :=
  ⟨a.y * b.z - a.z * b.y, a.z * b.x - a.x * b.z, a.x * b.y - a.y * b.x⟩

/-- The vector `ones(3)`. -/
def ones : Vector3 α := ⟨1, 1, 1⟩

/-- The zero vector. -/
def zero : Vector3 α := ⟨0, 0, 0⟩

end Vector3

/-! ## The depth image and the module's configuration -/

/-- The depth image `ImageOf<PixelFloat>`: its size and its pixel accessor
`depth(u,v)`. -/
structure ImageOf (α : Type) where
  width : Nat
  height : Nat
  pixel : Int → Int → α

/-- The configuration fields of the class `Retriever`, its cached depth image,
and the library functions `tan`, `M_PI` and `norm` its methods call.  The live
set `skeletons` is passed explicitly to the methods that touch it, and the
table `keysRemap`, which `configure` fills with constants, is a definition of
its own. -/
structure Retriever (α : Type) [LinearOrderedField α] where
  depth : ImageOf α
  period : α
  fov_h : α
  keys_recognition_confidence : α
  keys_recognition_percentage : α
  keys_acceptable_misses : Int
  tracking_threshold : α
  time_to_live : α
  tan : α → α
  M_PI : α
  norm : Vector3 α → α
  /-- The rounding of the exact result of a `double` operation to the `double`
  the operation returns. -/
  fl : α → α
  /-- Rounding keeps the sign: the difference of two doubles is a multiple of
  the smallest subnormal number, so `a-b` is positive in double arithmetic
  exactly when `a > b`. -/
  fl_pos : ∀ x : α, 0 < fl x ↔ 0 < x

/-! ## Key points and skeletons (`AssistiveRehab/skeleton.h`) -/

/-- Modelled from the spec: the tags of namespace `KeyPointTag` (skeleton.h is
not among the sources), one per anatomical slot; these are the tags the module
names.  The header declares pairwise distinct string constants; they are read
here as the constructors of an enumeration. -/
inductive KeyPointTag where
  | shoulder_center
  | head
  | shoulder_left
  | elbow_left
  | hand_left
  | shoulder_right
  | elbow_right
  | hand_right
  | hip_center
  | hip_left
  | knee_left
  | ankle_left
  | hip_right
  | knee_right
  | ankle_right
deriving DecidableEq, Repr

/-- Modelled from the spec: the fixed, ordered slots of a `SkeletonWaist`
(skeleton.cpp is not among the sources), one per anatomical tag. -/
def KeyPointTag.all : List KeyPointTag :=
  [.shoulder_center, .head, .shoulder_left, .elbow_left, .hand_left,
   .shoulder_right, .elbow_right, .hand_right, .hip_center, .hip_left,
   .knee_left, .ankle_left, .hip_right, .knee_right, .ankle_right]

/-- Modelled from the spec: a `KeyPoint` (skeleton.h is not among the sources),
a named 3D-point slot with its "updated" flag. -/
structure KeyPoint (α : Type) where
  tag : KeyPointTag
  updated : Bool
  point : Vector3 α
deriving DecidableEq, Repr

/-- Modelled from the spec: a `Skeleton` (skeleton.h is not among the sources),
the ordered key-point slots and the three planes. -/
structure Skeleton (α : Type) where
  keypoints : List (KeyPoint α)
  sagittal : Vector3 α
  transverse : Vector3 α
  coronal : Vector3 α
deriving DecidableEq, Repr

section SkeletonModel

variable {α : Type} [LinearOrderedField α]

/-- Modelled from the spec: `isUpdated()` through a key-point pointer.  A null
pointer (a slot or tag the skeleton does not have, which the fixed
`SkeletonWaist` layout rules out) reads as a key point that is not updated. -/
def isUpdated (k : Option (KeyPoint α)) : Bool :=
  match k with
  | some k => k.updated
  | none => false

/-- Modelled from the spec: `getPoint()` through a key-point pointer (zero for a
null pointer). -/
def getPoint (k : Option (KeyPoint α)) : Vector3 α :=
  match k with
  | some k => k.point
  | none => Vector3.zero

/-- Modelled from the spec: `getTag()` through a key-point pointer; `none` is a
tag that names no key point. -/
def getTag (k : Option (KeyPoint α)) : Option KeyPointTag :=
  match k with
  | some k => some k.tag
  | none => none

/-- Modelled from the spec: `Skeleton::getNumKeyPoints`, the number of slots. -/
def Skeleton.getNumKeyPoints (sk : Skeleton α) : Nat := sk.keypoints.length

/-- Modelled from the spec: `Skeleton::operator[](i)`, the key point of slot
`i`. -/
def Skeleton.atIndex (sk : Skeleton α) (i : Nat) : Option (KeyPoint α) :=
  sk.keypoints[i]?

/-- Modelled from the spec: `Skeleton::operator[](tag)`, the key point carrying
`tag`. -/
def Skeleton.atTag (sk : Skeleton α) (tag : KeyPointTag) : Option (KeyPoint α) :=
  sk.keypoints.find? (fun k => decide (k.tag = tag))

/-- The slot tags of a skeleton, in slot order. -/
def Skeleton.tags (sk : Skeleton α) : List KeyPointTag := sk.keypoints.map KeyPoint.tag

/-- The number of slots of a skeleton that are flagged updated. -/
def Skeleton.numUpdated (sk : Skeleton α) : Nat := sk.keypoints.countP (fun k => k.updated)

/-- Modelled from the spec: `KeyPoint::stale` over all slots, the first half of
`Skeleton::update` (skeleton.cpp is not among the sources): every slot loses its
"updated" flag and keeps its point. -/
def Skeleton.stale (sk : Skeleton α) : Skeleton α :=
  { sk with keypoints := sk.keypoints.map (fun k => { k with updated := false }) }

/-- Modelled from the spec: `KeyPoint::setPoint` reached through the tag, the
second half of `Skeleton::update` (skeleton.cpp is not among the sources): the
slot carrying `tag` receives the point and is flagged updated; a tag that names
no slot changes nothing. -/
def Skeleton.setPoint (sk : Skeleton α) (tag : Option KeyPointTag) (p : Vector3 α) :
    Skeleton α :=
  let write := fun (k : KeyPoint α) =>
    if some k.tag = tag then { k with updated := true, point := p } else k
  { sk with keypoints := sk.keypoints.map write }

/-- Modelled from the spec: `Skeleton::update(unordered)`, the "update from a
set of (tag, 3D point) pairs" of the skeleton model (skeleton.cpp is not among
the sources): exactly the supplied tags end up flagged updated, each with the
point of its last pair; the planes are left alone. -/
def Skeleton.update (sk : Skeleton α) (unordered : List (Option KeyPointTag × Vector3 α)) :
    Skeleton α :=
  unordered.foldl (fun acc e => acc.setPoint e.1 e.2) sk.stale

/-- The effect of `Skeleton::update` on a single key point. -/
def KeyPoint.refresh (l : List (Option KeyPointTag × Vector3 α)) (k : KeyPoint α) : KeyPoint α :=
  l.foldl (fun k e => if some k.tag = e.1 then { k with updated := true, point := e.2 } else k)
    { k with updated := false }

/-- Modelled from the spec: the constructor `SkeletonWaist()` (skeleton.cpp is
not among the sources): one slot per anatomical tag, none updated, planes
zero. -/
def SkeletonWaist (α : Type) [LinearOrderedField α] : Skeleton α :=
  { keypoints :=
      KeyPointTag.all.map (fun t => { tag := t, updated := false, point := Vector3.zero })
    sagittal := Vector3.zero
    transverse := Vector3.zero
    coronal := Vector3.zero }

/-- The struct `MetaSkeleton`: a skeleton with its timer, its registry
identifier and its per-slot miss budget. -/
structure MetaSkeleton (α : Type) where
  timer : α
  opc_id : Int
  skeleton : Skeleton α
  keys_acceptable_misses : List Int
deriving DecidableEq, Repr

/-- The constructor `MetaSkeleton(t)`. -/
def MetaSkeleton.new (t : α) : MetaSkeleton α :=
  { timer := t
    opc_id := -1
    skeleton := SkeletonWaist α
    keys_acceptable_misses := List.replicate (SkeletonWaist α).getNumKeyPoints 0 }

end SkeletonModel

section Projection

variable {α : Type} [LinearOrderedField α]

/-- The focal length `f` computed on the first line of `getPoint3D`. -/
def Retriever.focal (r : Retriever α) : α :=
  (r.depth.width : α) / (2 * r.tan (r.fov_h * (r.M_PI / 180) / 2))

/-- `Retriever::getPoint3D`: `none` is the `false` return (no point written),
`some p` the `true` return with the point written to `p`. -/
def Retriever.getPoint3D (r : Retriever α) (u v : Int) : Option (Vector3 α) :=
  let f := r.focal
  let d := r.depth.pixel u v
  if d > 0 then
    let x := (u : α) - 0.5 * ((r.depth.width : α) - 1)
    let y := (v : α) - 0.5 * ((r.depth.height : α) - 1)
    let p := Vector3.smul d Vector3.ones
    let p := { p with x := p.x * (x / f) }
    let p := { p with y := p.y * (y / f) }
    some p
  else
    none

/-- The pinhole re-projection of a camera-frame point to pixel coordinates, as
the round-trip property words it: `u = f*x/z + 0.5*(width-1)` and
`v = f*y/z + 0.5*(height-1)`.  The module itself never re-projects. -/
def Retriever.reproject (r : Retriever α) (p : Vector3 α) : α × α :=
  (r.focal * p.x / p.z + 0.5 * ((r.depth.width : α) - 1),
   r.focal * p.y / p.z + 0.5 * ((r.depth.height : α) - 1))

end Projection

/-! ## Detections (`yarp::os::Bottle`) -/

/-- A `yarp::os::Value` as the module reads it: a string, a number, or a nested
list (a `Bottle`). -/
inductive Value (α : Type) where
  | string (s : String)
  | double (d : α)
  | list (items : List (Value α))

section Detections

variable {α : Type} [LinearOrderedField α] [FloorRing α]

/-- `Value::asList`: the nested list, or a null pointer. -/
def Value.asList (w : Value α) : Option (List (Value α)) :=
  match w with
  | .list items => some items
  | _ => none

/-- `Value::asString`: the string, or the empty string. -/
def Value.asString (w : Value α) : String :=
  match w with
  | .string s => s
  | _ => ""

/-- `Value::asDouble`: the number, or zero. -/
def Value.asDouble (w : Value α) : α :=
  match w with
  | .double d => d
  | _ => 0

/-- The conversion `(int)x` of a `double`: truncation toward zero. -/
def toInt (x : α) : Int := if 0 ≤ x then Int.floor x else Int.ceil x

/-- The table `keysRemap` filled by `configure`.  A label outside the table is
mapped by `operator[]` to the empty string, which names no key point: `none`. -/
def keysRemap (label : String) : Option KeyPointTag :=
  if label = "Nose" then some .head
  else if label = "Neck" then some .shoulder_center
  else if label = "RShoulder" then some .shoulder_right
  else if label = "RElbow" then some .elbow_right
  else if label = "RWrist" then some .hand_right
  else if label = "LShoulder" then some .shoulder_left
  else if label = "LElbow" then some .elbow_left
  else if label = "LWrist" then some .hand_left
  else if label = "RHip" then some .hip_right
  else if label = "RKnee" then some .knee_right
  else if label = "RAnkle" then some .ankle_right
  else if label = "LHip" then some .hip_left
  else if label = "LKnee" then some .knee_left
  else if label = "LAnkle" then some .ankle_left
  else none

end Detections

/-! ## The methods of `Retriever` -/

section Methods

variable {α : Type} [LinearOrderedField α]

/-- `Retriever::updatePlanes`.  The setters `setSagittal`, `setTransverse` and
`setCoronal` of `Skeleton` (skeleton.cpp is not among the sources) are read as
storing the vector they are given. -/
def Retriever.updatePlanes (r : Retriever α) (s : MetaSkeleton α) : MetaSkeleton α :=
  let sk := s.skeleton
  let sk :=
    if isUpdated (sk.atTag .shoulder_left) && isUpdated (sk.atTag .shoulder_right) then
      let sagittal := Vector3.sub (getPoint (sk.atTag .shoulder_left))
        (getPoint (sk.atTag .shoulder_right))
      let n := r.norm sagittal
      if n > 0 then { sk with sagittal := Vector3.sdiv sagittal n } else sk
    else sk
  let sk :=
    if isUpdated (sk.atTag .shoulder_center) && isUpdated (sk.atTag .hip_center) then
      let transverse := Vector3.sub (getPoint (sk.atTag .shoulder_center))
        (getPoint (sk.atTag .hip_center))
      let n := r.norm transverse
      if n > 0 then { sk with transverse := Vector3.sdiv transverse n } else sk
    else sk
  { s with skeleton := { sk with coronal := Vector3.cross sk.sagittal sk.transverse } }

/-- One pass of the loop of `Retriever::update` for slot `i`: the state is the
list `unordered` and the miss budget of `dest`.  A budget entry out of range
reads as 0 and is not written. -/
def Retriever.updateStep (r : Retriever α) (src dest : MetaSkeleton α)
    (acc : List (Option KeyPointTag × Vector3 α) × List Int) (i : Nat) :
    List (Option KeyPointTag × Vector3 α) × List Int :=
  let key := src.skeleton.atIndex i
  if isUpdated key then
    (acc.1 ++ [(getTag key, getPoint key)], acc.2.set i r.keys_acceptable_misses)
  else if acc.2.getD i 0 > 0 then
    (acc.1 ++ [(getTag key, getPoint (dest.skeleton.atIndex i))],
      acc.2.set i (acc.2.getD i 0 - 1))
  else acc

/-- The pair that slot `i` contributes to the list `unordered` of
`Retriever::update`, if any: the reading of `updateStep` slot by slot. -/
def Retriever.updateEntry (_r : Retriever α) (src dest : MetaSkeleton α) (i : Nat) :
    Option (Option KeyPointTag × Vector3 α) :=
  let key := src.skeleton.atIndex i
  if isUpdated key then some (getTag key, getPoint key)
  else if dest.keys_acceptable_misses.getD i 0 > 0 then
    some (getTag key, getPoint (dest.skeleton.atIndex i))
  else none

/-- The miss budget of slot `i` after `Retriever::update`: the reading of
`updateStep` slot by slot. -/
def Retriever.updateMiss (r : Retriever α) (src dest : MetaSkeleton α) (i : Nat) : Int :=
  if isUpdated (src.skeleton.atIndex i) then r.keys_acceptable_misses
  else if dest.keys_acceptable_misses.getD i 0 > 0 then dest.keys_acceptable_misses.getD i 0 - 1
  else dest.keys_acceptable_misses.getD i 0

/-- `Retriever::update`: the candidate `src` is merged into the track `dest`;
the result is the new state of `dest`. -/
def Retriever.update (r : Retriever α) (src dest : MetaSkeleton α) : MetaSkeleton α :=
  let acc := (List.range src.skeleton.getNumKeyPoints).foldl (r.updateStep src dest)
    ([], dest.keys_acceptable_misses)
  let dest := { dest with skeleton := dest.skeleton.update acc.1
                          keys_acceptable_misses := acc.2 }
  let dest := r.updatePlanes dest
  { dest with timer := r.time_to_live }

/-- `Retriever::isValid`. -/
def Retriever.isValid (r : Retriever α) (s : MetaSkeleton α) : Bool :=
  let n : Nat := (List.range s.skeleton.getNumKeyPoints).foldl
    (fun n i => if isUpdated (s.skeleton.atIndex i) then n + 1 else n) 0
  let perc : α := (n : α) / (s.skeleton.getNumKeyPoints : α)
  decide (perc ≥ r.keys_recognition_percentage)

/-- A `std::map<double,int>`: the entries in strictly ascending key order. -/
abbrev ScoreMap (α : Type) := List (α × Nat)

/-- The assignment `scores[key]=value` of a `std::map`: a new key is inserted
at its place in the order, an existing key has its value overwritten. -/
def ScoreMap.assign (m : ScoreMap α) (key : α) (value : Nat) : ScoreMap α :=
  match m with
  | [] => [(key, value)]
  | e :: rest =>
    if key < e.1 then (key, value) :: e :: rest
    else if e.1 < key then e :: ScoreMap.assign rest key value
    else (key, value) :: rest

/-- The inner loop of `Retriever::isTracked` for the track skeleton `sk` and the
candidate `s`: the pair `(mean, num)` after the last slot. -/
def Retriever.distanceSum (r : Retriever α) (sk s : Skeleton α) : α × Nat :=
  (List.range sk.getNumKeyPoints).foldl
    (fun acc j =>
      (if isUpdated (sk.atIndex j) && isUpdated (s.atIndex j) then
          acc.1 + r.norm (Vector3.sub (getPoint (sk.atIndex j)) (getPoint (s.atIndex j)))
        else acc.1,
       acc.2 + 1))
    (0, 0)

/-- The body of the outer loop of `Retriever::isTracked` for track `i`. -/
def Retriever.isTrackedStep (r : Retriever α) (s : MetaSkeleton α) (scores : ScoreMap α)
    (i : Nat) (track : MetaSkeleton α) : ScoreMap α :=
  let acc := r.distanceSum track.skeleton s.skeleton
  if acc.2 > 0 then
    let mean := acc.1 / (acc.2 : α)
    if mean ≤ r.tracking_threshold then scores.assign mean i else scores
  else scores

/-- The outer loop of `Retriever::isTracked` from index `i` on. -/
def Retriever.isTrackedLoop (r : Retriever α) (s : MetaSkeleton α) :
    Nat → List (MetaSkeleton α) → ScoreMap α → ScoreMap α
  | _, [], scores => scores
  | i, track :: rest, scores =>
    Retriever.isTrackedLoop r s (i + 1) rest (r.isTrackedStep s scores i track)

/-- `Retriever::isTracked`: the index in `skeletons` of the track the returned
pointer designates, `none` for `nullptr`. -/
def Retriever.isTracked (r : Retriever α) (skeletons : List (MetaSkeleton α))
    (s : MetaSkeleton α) : Option Nat :=
  let scores := r.isTrackedLoop s 0 skeletons []
  match scores with
  | [] => none
  | e :: _ => some e.2

/-- `Retriever::gc`: the new live set, and the registry identifiers of the
tracks handed to `opcDel`, in call order.  The statement `s.timer-=period`
stores the rounding `fl` of the exact difference. -/
def Retriever.gc (r : Retriever α) :
    List (MetaSkeleton α) → List (MetaSkeleton α) × List Int
  | [] => ([], [])
  | s :: rest =>
    let s := { s with timer := r.fl (s.timer - r.period) }
    let out := Retriever.gc r rest
    if s.timer > 0 then (s :: out.1, out.2) else (out.1, s.opc_id :: out.2)

/-- The value of `mean` after `mean/=num` in `Retriever::isTracked`: the mean
distance of the track to the candidate `s`. -/
def Retriever.meanDistance (r : Retriever α) (track s : MetaSkeleton α) : α :=
  (r.distanceSum track.skeleton s.skeleton).1 /
    ((r.distanceSum track.skeleton s.skeleton).2 : α)

/-- The two tests a track passes before `isTracked` enters it into `scores`. -/
def Retriever.eligible (r : Retriever α) (track s : MetaSkeleton α) : Prop :=
  (r.distanceSum track.skeleton s.skeleton).2 > 0 ∧
    r.meanDistance track s ≤ r.tracking_threshold

/-- The keys of a `ScoreMap` are strictly ascending. -/
def ScoreMap.Ordered (m : ScoreMap α) : Prop := m.Pairwise (fun a b => a.1 < b.1)

end Methods

section Creation

variable {α : Type} [LinearOrderedField α] [FloorRing α]

/-- One pass of the loop of `Retriever::create` for the element `key` of the
detection list: the state is the list `unordered` and the list `hips`. -/
def Retriever.createStep (r : Retriever α)
    (acc : List (Option KeyPointTag × Vector3 α) × List (Vector3 α)) (key : Value α) :
    List (Option KeyPointTag × Vector3 α) × List (Vector3 α) :=
  match key.asList with
  | some (k0 :: k1 :: k2 :: k3 :: _) =>
    let tag := k0.asString
    let u := toInt k1.asDouble
    let v := toInt k2.asDouble
    let confidence := k3.asDouble
    if confidence ≥ r.keys_recognition_confidence then
      match r.getPoint3D u v with
      | some p =>
        let unordered := acc.1 ++ [(keysRemap tag, p)]
        if keysRemap tag = some .hip_left ∨ keysRemap tag = some .hip_right then
          (unordered, acc.2 ++ [p])
        else (unordered, acc.2)
      | none => acc
    else acc
  | _ => acc

/-- The list `unordered` of `Retriever::create` when it is handed to the
skeleton: the pairs of the loop, and the hip centre when `hips` has two
entries. -/
def Retriever.createUnordered (r : Retriever α) (keys : List (Value α)) :
    List (Option KeyPointTag × Vector3 α) :=
  let acc := keys.foldl r.createStep ([], [])
  match acc.2 with
  | [h0, h1] =>
    acc.1 ++ [(some KeyPointTag.hip_center, Vector3.smul 0.5 (Vector3.add h0 h1))]
  | _ => acc.1

/-- `Retriever::create`: the candidate assembled from the detection list
`keys`. -/
def Retriever.create (r : Retriever α) (keys : List (Value α)) : MetaSkeleton α :=
  let s : MetaSkeleton α := MetaSkeleton.new r.time_to_live
  let unordered := r.createUnordered keys
  let s := { s with skeleton := s.skeleton.update unordered }
  r.updatePlanes s

/-- Every detection of `keys` that `create` reads under the tag `w` has a
confidence below `keys_recognition_confidence`. -/
def Retriever.confidenceBelow (r : Retriever α) (w : KeyPointTag) (keys : List (Value α)) :
    Prop :=
  ∀ key ∈ keys, ∀ (k0 k1 k2 k3 : Value α) (rest : List (Value α)),
    key.asList = some (k0 :: k1 :: k2 :: k3 :: rest) → keysRemap k0.asString = some w →
    k3.asDouble < r.keys_recognition_confidence

end Creation

/-! ## A sample configuration and sample data over `ℚ` -/

/-- A 4x4 depth image: depth 2 everywhere but in column 3, where the sensor
reports no measurement. -/
def sampleDepth : ImageOf ℚ :=
  { width := 4, height := 4, pixel := fun u _ => if u = 3 then 0 else 2 }

/-- The default values of `configure`, the sample depth image and a field of
view of 90 degrees, for which `tan` is evaluated at 45 degrees only
(value 1).  The stand-in for `norm` is the sum of the absolute components, which
agrees with the Euclidean norm on axis-parallel vectors.  Arithmetic is exact
(`fl` is the identity). -/
def sampleRetriever : Retriever ℚ :=
  { depth := sampleDepth
    period := 0.01
    fov_h := 90
    keys_recognition_confidence := 0.3
    keys_recognition_percentage := 0.3
    keys_acceptable_misses := 3
    tracking_threshold := 0.3
    time_to_live := 0.5
    tan := fun _ => 1
    M_PI := 355 / 113
    norm := fun p => |p.x| + |p.y| + |p.z|
    fl := fun x => x
    fl_pos := fun _ => Iff.rfl }

/-- A `SkeletonWaist` in which exactly the listed tags are updated. -/
def sampleSkeleton (seen : List (KeyPointTag × Vector3 ℚ)) : Skeleton ℚ :=
  (SkeletonWaist ℚ).update (seen.map (fun e => (some e.1, e.2)))

/-- A track or candidate with the listed key points, budget and timer. -/
def sampleMeta (seen : List (KeyPointTag × Vector3 ℚ)) (budget : List Int) (t : ℚ)
    (id : Int) : MetaSkeleton ℚ :=
  { timer := t, opc_id := id, skeleton := sampleSkeleton seen, keys_acceptable_misses := budget }

/-- A track that has never carried a key point over: all budgets zero. -/
def sampleTrack : MetaSkeleton ℚ :=
  sampleMeta [(.head, ⟨0, 0, 2⟩), (.hand_left, ⟨1, 0, 2⟩)] (List.replicate 15 0) 0.5 7

/-- A candidate in which head and left hand are fresh. -/
def sampleSeen : MetaSkeleton ℚ :=
  sampleMeta [(.head, ⟨0, 0, 2⟩), (.hand_left, ⟨1, 1, 2⟩)] (List.replicate 15 0) 0.5 (-1)

/-- A candidate in which the head is fresh and the left hand is not. -/
def sampleMissed : MetaSkeleton ℚ :=
  sampleMeta [(.head, ⟨0, 0, 2⟩)] (List.replicate 15 0) 0.5 (-1)

/-- A second track: as `sampleTrack`, with the left hand elsewhere. -/
def sampleTrackB : MetaSkeleton ℚ :=
  sampleMeta [(.head, ⟨0, 0, 2⟩), (.hand_left, ⟨1, 2, 2⟩)] (List.replicate 15 0) 0.5 8

/-- A track at mean distance 0.1 from `sampleSeen`. -/
def sampleTrackNear : MetaSkeleton ℚ :=
  sampleMeta [(.head, ⟨0, 0, 2⟩), (.hand_left, ⟨1, 2.5, 2⟩)] (List.replicate 15 0) 0.5 9

/-- A track at mean distance 0.3 from `sampleSeen`. -/
def sampleTrackFar : MetaSkeleton ℚ :=
  sampleMeta [(.head, ⟨0, 0, 2⟩), (.hand_left, ⟨1, 5.5, 2⟩)] (List.replicate 15 0) 0.5 10

/-- The sample configuration with the admission percentage set to 2/15. -/
def sampleAdmission : Retriever ℚ :=
  { sampleRetriever with keys_recognition_percentage := 2 / 15 }

/-- The sample track with sagittal and transverse planes from an earlier
cycle. -/
def samplePlanes : MetaSkeleton ℚ :=
  { sampleTrack with
    skeleton := { sampleTrack.skeleton with sagittal := ⟨1, 0, 0⟩, transverse := ⟨0, 1, 0⟩ } }

/-- A detection `(label u v confidence)` as the detector sends it. -/
def sampleDetection (label : String) (u v confidence : ℚ) : Value ℚ :=
  .list [.string label, .double u, .double v, .double confidence]

/-- A frame in which the left wrist and the nose are detected with confidence. -/
def sampleFrameSeen : List (Value ℚ) :=
  [sampleDetection "LWrist" 1 1 0.9, sampleDetection "Nose" 2 2 0.8]

/-- A frame in which the confidence of the left wrist is below the threshold. -/
def sampleFrameLow : List (Value ℚ) :=
  [sampleDetection "LWrist" 1 1 0.2, sampleDetection "Nose" 2 2 0.8]

/-! ## The cycle (`Retriever::updateModule`) -/

/-- What `updateModule` does with one candidate of the frame. -/
inductive Outcome where
  /-- `isTracked` returned `&skeletons[i]`: `update` and `opcSet`. -/
  | tracked (i : Nat)
  /-- no match and `isValid` held: `opcAdd` and `push_back`. -/
  | admitted
  /-- no match and `isValid` failed: the candidate is dropped. -/
  | rejected
  /-- the depth image is empty or the element is not a list. -/
  | skipped
deriving DecidableEq, Repr

/-- The result of one cycle: the live set, the identifiers handed to `opcDel`,
what happened to each candidate, and the flag `doViewerUpdate`. -/
structure Cycle (α : Type) where
  skeletons : List (MetaSkeleton α)
  deleted : List Int
  outcomes : List Outcome
  doViewerUpdate : Bool

section CycleModel

variable {α : Type} [LinearOrderedField α] [FloorRing α]

/-- `Retriever::opcAdd` as far as the track is concerned: `reply` is the
identifier of an acknowledged add request, `none` when the port is not
connected, the write fails or the registry does not acknowledge.  The name the
skeleton receives through `setTag` is not part of the model. -/
def Retriever.opcAdd (_r : Retriever α) (s : MetaSkeleton α) (reply : Option Int) :
    MetaSkeleton α :=
  match reply with
  | some id => { s with opc_id := id }
  | none => s

/-- The body of the loop of `updateModule` for the element `b3` of the frame:
the new live set and what happened.  `reply` is the answer the registry gives
to an add request for this candidate. -/
def Retriever.handle (r : Retriever α) (skeletons : List (MetaSkeleton α)) (b3 : Value α)
    (reply : Option Int) : List (MetaSkeleton α) × Outcome :=
  if r.depth.width > 0 ∧ r.depth.height > 0 then
    match b3.asList with
    | some keys =>
      let s := r.create keys
      match r.isTracked skeletons s with
      | some i =>
        match skeletons[i]? with
        | some s1 => (skeletons.set i (r.update s s1), .tracked i)
        | none => (skeletons, .tracked i)
      | none =>
        if r.isValid s then (skeletons ++ [r.opcAdd s reply], .admitted)
        else (skeletons, .rejected)
    | none => (skeletons, .skipped)
  else (skeletons, .skipped)

/-- The loop of `updateModule` over the elements of the frame from index `i`
on; `opc i` is the registry's answer for candidate `i`. -/
def Retriever.handleLoop (r : Retriever α) (opc : Nat → Option Int) :
    Nat → List (Value α) → List (MetaSkeleton α) → List Outcome →
    List (MetaSkeleton α) × List Outcome
  | _, [], skeletons, outcomes => (skeletons, outcomes)
  | i, b3 :: rest, skeletons, outcomes =>
    let step := r.handle skeletons b3 (opc i)
    Retriever.handleLoop r opc (i + 1) rest step.1 (outcomes ++ [step.2])

/-- `Retriever::updateModule` on the live set, with the depth image and the
camera options already in `r`: `b1` is the bottle read from the detector port,
if any. -/
def Retriever.updateModule (r : Retriever α) (skeletons : List (MetaSkeleton α))
    (b1 : Option (List (Value α))) (opc : Nat → Option Int) : Cycle α :=
  let swept := r.gc skeletons
  let idle : Cycle α :=
    { skeletons := swept.1, deleted := swept.2, outcomes := [], doViewerUpdate := false }
  match b1 with
  | some b1 =>
    match b1.head? with
    | some first =>
      match first.asList with
      | some b2 =>
        let done := r.handleLoop opc 0 b2 swept.1 []
        { skeletons := done.1
          deleted := swept.2
          outcomes := done.2
          doViewerUpdate := done.2.any
            (fun o => match o with
              | .tracked _ => true
              | .admitted => true
              | _ => false) }
      | none => idle
    | none => idle
  | none => idle

end CycleModel

section LifetimeModel

variable {α : Type} [LinearOrderedField α]

/-- The states a track goes through while it is in the live set: matched
updates and the sweeps of `gc` it survives. -/
inductive Retriever.Lifetime (r : Retriever α) : MetaSkeleton α → MetaSkeleton α → Prop where
  | start (a : MetaSkeleton α) : Retriever.Lifetime r a a
  | matched (a b src : MetaSkeleton α) :
    Retriever.Lifetime r a b → Retriever.Lifetime r a (r.update src b)
  | swept (a b : MetaSkeleton α) :
    Retriever.Lifetime r a b →
      Retriever.Lifetime r a { b with timer := r.fl (b.timer - r.period) }

end LifetimeModel

/-- The sample configuration with a period of 0.3 seconds. -/
def sampleSlow : Retriever ℚ := { sampleRetriever with period := 0.3 }

section HipModel

variable {α : Type} [LinearOrderedField α] [FloorRing α]

/-- The pair that the element `key` of the detection list contributes to the
list `unordered` of `Retriever::create`, if it passes the confidence filter and
the depth filter: the reading of `createStep` element by element. -/
def Retriever.createEntry (r : Retriever α) (key : Value α) :
    Option (Option KeyPointTag × Vector3 α) :=
  match key.asList with
  | some (k0 :: k1 :: k2 :: k3 :: _) =>
    if k3.asDouble ≥ r.keys_recognition_confidence then
      match r.getPoint3D (toInt k1.asDouble) (toInt k2.asDouble) with
      | some p => some (keysRemap k0.asString, p)
      | none => none
    else none
  | _ => none

/-- The entries of the detection list that pass the filters under the tag
`tag`. -/
def Retriever.passed (r : Retriever α) (keys : List (Value α)) (tag : KeyPointTag) :
    List (Option KeyPointTag × Vector3 α) :=
  (keys.filterMap r.createEntry).filter (fun e => decide (e.1 = some tag))

/-- The entries of the detection list that pass the filters under one of the
two hip tags, in the order of the list: the points of `hips`. -/
def Retriever.passedHips (r : Retriever α) (keys : List (Value α)) :
    List (Option KeyPointTag × Vector3 α) :=
  (keys.filterMap r.createEntry).filter
    (fun e => decide (e.1 = some .hip_left ∨ e.1 = some .hip_right))

end HipModel

/-- A frame in which the detector reports the left hip twice and no right
hip. -/
def sampleFrameTwoLeft : List (Value ℚ) :=
  [sampleDetection "LHip" 1 1 0.9, sampleDetection "LHip" 2 2 0.9]

/-- A frame with one left hip and one right hip. -/
def sampleFrameHips : List (Value ℚ) :=
  [sampleDetection "LHip" 1 1 0.9, sampleDetection "RHip" 2 2 0.9]

/-- The scalar product of two vectors; `dot a a` is the square of the Euclidean
norm of `a`. -/
def Vector3.dot {α : Type} [LinearOrderedField α] (a b : Vector3 α) : α :=
  a.x * b.x + a.y * b.y + a.z * b.z

/-- The sample configuration with the Euclidean norm, exact on every vector of
rational length. -/
def sampleEuclid : Retriever ℚ :=
  { sampleRetriever with norm := fun p => Rat.sqrt (Vector3.dot p p) }

/-- A track of a person leaning sideways: the shoulders 0.4 apart along the
x axis, the hips 0.2 apart, and the hip centre (their midpoint) 0.4 below the
shoulder centre and 0.3 to the side. -/
def sampleLeaning : MetaSkeleton ℚ :=
  sampleMeta
    [(.shoulder_left, ⟨1 / 5, 0, 2⟩), (.shoulder_right, ⟨-1 / 5, 0, 2⟩),
     (.shoulder_center, ⟨0, 0, 2⟩), (.hip_left, ⟨-1 / 5, 2 / 5, 2⟩),
     (.hip_right, ⟨-2 / 5, 2 / 5, 2⟩), (.hip_center, ⟨-3 / 10, 2 / 5, 2⟩)]
    (List.replicate 15 0) 0.5 11

/-- A frame in which every detection is below the confidence threshold or
falls on a pixel without depth. -/
def sampleFrameNothing : List (Value ℚ) :=
  [sampleDetection "LWrist" 1 1 0.2, sampleDetection "Nose" 3 2 0.8]

section ReachableModel

variable {α : Type} [LinearOrderedField α] [FloorRing α]

/-- Every track of the live set has one budget entry per key-point slot, each
between 0 and `K`. -/
def BudgetInRange (K : Int) (skeletons : List (MetaSkeleton α)) : Prop :=
  ∀ t ∈ skeletons, t.keys_acceptable_misses.length = t.skeleton.getNumKeyPoints ∧
    ∀ b ∈ t.keys_acceptable_misses, 0 ≤ b ∧ b ≤ K

/-- The live sets reachable from the empty one by sweeps of `gc` and by the
handling of candidates (matched updates and admissions), under configurations
whose miss budget is `K`; depth image and camera options may change from step
to step. -/
inductive Reachable (K : Int) : List (MetaSkeleton α) → Prop where
  | empty : Reachable K []
  | sweep (r : Retriever α) (skeletons : List (MetaSkeleton α)) :
    r.keys_acceptable_misses = K → Reachable K skeletons → Reachable K (r.gc skeletons).1
  | candidate (r : Retriever α) (skeletons : List (MetaSkeleton α)) (b3 : Value α)
      (reply : Option Int) :
    r.keys_acceptable_misses = K → Reachable K skeletons →
    Reachable K (r.handle skeletons b3 reply).1

end ReachableModel

section RefreshedModel

variable {α : Type} [LinearOrderedField α]

/-- The states a track goes through within one cycle: zero or more matched
updates. -/
inductive Retriever.Refreshed (r : Retriever α) : MetaSkeleton α → MetaSkeleton α → Prop where
  | same (a : MetaSkeleton α) : Retriever.Refreshed r a a
  | again (a b src : MetaSkeleton α) :
    Retriever.Refreshed r a b → Retriever.Refreshed r a (r.update src b)

end RefreshedModel

section CycleInvariant

variable {α : Type} [LinearOrderedField α] [FloorRing α]

/-- The shape of the live set during the handling of a frame, relative to the
survivors `swept` of the sweep that opened the cycle: the first positions hold
the survivors, each after zero or more matched updates, and the `n` positions
after them hold the tracks admitted in this cycle. -/
def Retriever.CycleShape (r : Retriever α) (swept skeletons : List (MetaSkeleton α))
    (n : Nat) : Prop :=
  skeletons.length = swept.length + n ∧
  (∀ (i : Nat) (t : MetaSkeleton α), skeletons[i]? = some t → i < swept.length →
    ∃ s, swept[i]? = some s ∧ r.Refreshed s t) ∧
  (∀ (i : Nat) (t : MetaSkeleton α), skeletons[i]? = some t → swept.length ≤ i →
    ∃ (keys : List (Value α)) (reply : Option Int),
      r.Refreshed (r.opcAdd (r.create keys) reply) t)

/-- Every candidate that was matched was matched with a survivor of the sweep
or with a track admitted earlier in the same cycle: the index `isTracked`
returned for candidate `k` is below the number of survivors plus the number of
admissions before `k`. -/
def matchedWithin (m : Nat) (outcomes : List Outcome) : Prop :=
  ∀ (k i : Nat), outcomes[k]? = some (.tracked i) →
    i < m + (outcomes.take k).count .admitted

end CycleInvariant

/-! ## A run of cycles -/

/-- What one cycle reads: the depth image and the field of view in force, the
bottle read from the detector port, if any, and the registry's answers to the
add requests of the cycle. -/
structure Frame (α : Type) where
  depth : ImageOf α
  fov_h : α
  b1 : Option (List (Value α))
  opc : Nat → Option Int

section RunModel

variable {α : Type} [LinearOrderedField α] [FloorRing α]

/-- One cycle of a run: `updateModule` on the live set, with the depth image
and the field of view of the frame. -/
def Retriever.cycle (r : Retriever α) (skeletons : List (MetaSkeleton α)) (f : Frame α) :
    Cycle α :=
  ({ r with depth := f.depth, fov_h := f.fov_h }).updateModule skeletons f.b1 f.opc

/-- The live set after the cycles of a run. -/
def Retriever.liveAfter (r : Retriever α) :
    List (Frame α) → List (MetaSkeleton α) → List (MetaSkeleton α)
  | [], skeletons => skeletons
  | f :: rest, skeletons => Retriever.liveAfter r rest (r.cycle skeletons f).skeletons

/-- The value of `timer` after `n` executions of `s.timer-=period`, starting
from `t`. -/
def Retriever.timerAfter (r : Retriever α) (t : α) : Nat → α
  | 0 => t
  | n + 1 => r.fl (Retriever.timerAfter r t n - r.period)

/-- Where the sweep of `gc` puts the track at position `i` of the live set: its
position in `skeletons_`, which is the number of tracks before it that the
sweep keeps, or `none` if the sweep hands it to `opcDel`. -/
def Retriever.sweepPosition (r : Retriever α) (skeletons : List (MetaSkeleton α)) (i : Nat) :
    Option Nat :=
  match skeletons[i]? with
  | some s =>
    if r.fl (s.timer - r.period) > 0 then some (r.gc (skeletons.take i)).1.length else none
  | none => none

/-- The position, after the cycles of a run, of the track that is at position
`i` of the live set at the start; `none` once a sweep has evicted it. -/
def Retriever.positionAfter (r : Retriever α) :
    List (Frame α) → List (MetaSkeleton α) → Nat → Option Nat
  | [], _, i => some i
  | f :: rest, skeletons, i =>
    match r.sweepPosition skeletons i with
    | some j => Retriever.positionAfter r rest (r.cycle skeletons f).skeletons j
    | none => none

/-- No candidate of the run is matched with the track that is at position `i`
of the live set at the start, for as long as the track is in the live set. -/
def Retriever.neverMatched (r : Retriever α) :
    List (Frame α) → List (MetaSkeleton α) → Nat → Prop
  | [], _, _ => True
  | f :: rest, skeletons, i =>
    match r.sweepPosition skeletons i with
    | some j =>
      Outcome.tracked j ∉ (r.cycle skeletons f).outcomes ∧
        Retriever.neverMatched r rest (r.cycle skeletons f).skeletons j
    | none => True

/-- The number of `opcDel` calls the sweeps of a run make for the track that is
at position `i` of the live set at the start: cycle by cycle, the calls of the
sweep less the calls for the tracks before and after the track, for as long as
the track is in the live set. -/
def Retriever.requests (r : Retriever α) :
    List (Frame α) → List (MetaSkeleton α) → Nat → Nat
  | [], _, _ => 0
  | f :: rest, skeletons, i =>
    ((r.cycle skeletons f).deleted.length - (r.gc (skeletons.take i)).2.length -
        (r.gc (skeletons.drop (i + 1))).2.length) +
      match r.sweepPosition skeletons i with
      | some j => Retriever.requests r rest (r.cycle skeletons f).skeletons j
      | none => 0

end RunModel

/-! ## Arithmetic in doubles -/

/-- Rounding to the nearest integer, ties to the even one. -/
def roundHalfEven (y : ℚ) : ℤ :=
  if y - ⌊y⌋ < 1 / 2 then ⌊y⌋
  else if 1 / 2 < y - ⌊y⌋ then ⌊y⌋ + 1
  else if ⌊y⌋ % 2 = 0 then ⌊y⌋ else ⌊y⌋ + 1

/-- Rounding to the nearest number with a significand of 53 bits, ties to even:
the rounding of IEEE 754 binary64 arithmetic in its default mode, for results
in the range of the normal numbers (the exponent is not bounded here). -/
def binary64 (x : ℚ) : ℚ :=
  if x = 0 then 0
  else (roundHalfEven (x / 2 ^ (Int.log 2 |x| - 52)) : ℚ) * 2 ^ (Int.log 2 |x| - 52)

/-- The sample configuration in double arithmetic, with the period set to 0.1:
the period is the double nearest to 1/10, the time to live 0.5 is a double, and
`timer-=period` rounds to binary64. -/
def sampleDouble : Retriever ℚ :=
  { sampleRetriever with
    period := binary64 (1 / 10)
    fl := binary64
    fl_pos := by
      intro x
      unfold binary64
      by_cases hx : x = 0
      · simp [hx]
      · rw [if_neg hx]
        have habs : (2 : ℚ) ^ (Int.log 2 |x|) ≤ |x| := by
          have := @Int.zpow_log_le_self ℚ _ _ 2 |x| (by norm_num) (abs_pos.mpr hx)
          simpa using this
        generalize Int.log 2 |x| = L at habs ⊢
        have hu : (0 : ℚ) < 2 ^ (L - 52) := zpow_pos (by norm_num) _
        have hy : (1 : ℚ) ≤ |x| / 2 ^ (L - 52) := by
          rw [le_div_iff₀ hu, one_mul]
          refine le_trans ?_ habs
          exact zpow_le_zpow_right₀ (by norm_num) (by omega)
        have hb : ⌊x / 2 ^ (L - 52)⌋ ≤ roundHalfEven (x / 2 ^ (L - 52)) ∧
            roundHalfEven (x / 2 ^ (L - 52)) ≤ ⌊x / 2 ^ (L - 52)⌋ + 1 := by
          unfold roundHalfEven
          split_ifs <;> constructor <;> omega
        rcases lt_or_gt_of_ne hx with hneg | hpos
        · have h1 : x / 2 ^ (L - 52) ≤ -1 := by
            rw [abs_of_neg hneg, neg_div] at hy
            linarith
          have h2 : ⌊x / 2 ^ (L - 52)⌋ ≤ -1 := by
            have := Int.floor_le (x / 2 ^ (L - 52))
            have h3 : ((⌊x / 2 ^ (L - 52)⌋ : ℤ) : ℚ) ≤ ((-1 : ℤ) : ℚ) := by
              push_cast; linarith
            exact_mod_cast h3
          have h4 : ((roundHalfEven (x / 2 ^ (L - 52)) : ℤ) : ℚ) ≤ 0 := by
            have : roundHalfEven (x / 2 ^ (L - 52)) ≤ 0 := by omega
            exact_mod_cast this
          constructor
          · intro h
            exact absurd h (not_lt.mpr (mul_nonpos_of_nonpos_of_nonneg h4 (le_of_lt hu)))
          · intro h
            exact absurd h (not_lt.mpr (le_of_lt hneg))
        · have h1 : 1 ≤ x / 2 ^ (L - 52) := by
            rw [abs_of_pos hpos] at hy
            exact hy
          have h2 : 1 ≤ ⌊x / 2 ^ (L - 52)⌋ := by
            rw [Int.le_floor]
            exact_mod_cast h1
          have h4 : (0 : ℚ) < ((roundHalfEven (x / 2 ^ (L - 52)) : ℤ) : ℚ) := by
            have : 0 < roundHalfEven (x / 2 ^ (L - 52)) := by omega
            exact_mod_cast this
          exact ⟨fun _ => hpos, fun _ => mul_pos h4 hu⟩ }

/-- A cycle whose frame holds one candidate with nothing usable. -/
def sampleBusy : Frame ℚ :=
  { depth := sampleDepth, fov_h := 90, b1 := some [.list [.list sampleFrameNothing]],
    opc := fun _ => none }

/-- A cycle in which the detector port has nothing to read. -/
def sampleIdle : Frame ℚ :=
  { depth := sampleDepth, fov_h := 90, b1 := none, opc := fun _ => none }

/-! ## Theorems -/

section ProjectionTheorems

variable {α : Type} [LinearOrderedField α]

/-- The point `getPoint3D` writes at a pixel with a positive depth sample, in
the order of operations of the source: the depth is multiplied by the quotient
of the pixel offset and the focal length. -/
theorem Retriever.getPoint3D_some (r : Retriever α) (u v : Int)
    (hd : 0 < r.depth.pixel u v) :
    r.getPoint3D u v = some
      ⟨r.depth.pixel u v * (((u : α) - 0.5 * ((r.depth.width : α) - 1)) / r.focal),
       r.depth.pixel u v * (((v : α) - 0.5 * ((r.depth.height : α) - 1)) / r.focal),
       r.depth.pixel u v⟩ := by
  simp [Retriever.getPoint3D, hd, Vector3.smul, Vector3.ones]

/-- C1: let `f` be the focal length `width/(2*tan(fov_h/2))`, the field of view
converted from degrees to radians as in the source, and let `f` be nonzero.
Then `getPoint3D` fails when the depth sample `d` at `(u,v)` is `<= 0`; when
`d > 0` it succeeds and returns exactly the point
`(d*(u-0.5*(width-1))/f, d*(v-0.5*(height-1))/f, d)`, which the source computes
as `d*((u-0.5*(width-1))/f)` and `d*((v-0.5*(height-1))/f)`; and the point it
returns, multiplied by `f`, gives back the pixel offsets scaled by `d`. -/
theorem getPoint3D_contract (r : Retriever α) (u v : Int) (f : α)
    (hfocal : f = (r.depth.width : α) / (2 * r.tan (r.fov_h * (r.M_PI / 180) / 2)))
    (hf : f ≠ 0) :
    (r.depth.pixel u v ≤ 0 → r.getPoint3D u v = none) ∧
    (0 < r.depth.pixel u v →
      r.getPoint3D u v = some
        ⟨r.depth.pixel u v * ((u : α) - 0.5 * ((r.depth.width : α) - 1)) / f,
         r.depth.pixel u v * ((v : α) - 0.5 * ((r.depth.height : α) - 1)) / f,
         r.depth.pixel u v⟩ ∧
      r.getPoint3D u v = some
        ⟨r.depth.pixel u v * (((u : α) - 0.5 * ((r.depth.width : α) - 1)) / f),
         r.depth.pixel u v * (((v : α) - 0.5 * ((r.depth.height : α) - 1)) / f),
         r.depth.pixel u v⟩ ∧
      ∀ p, r.getPoint3D u v = some p →
        f * p.x = r.depth.pixel u v * ((u : α) - 0.5 * ((r.depth.width : α) - 1)) ∧
        f * p.y = r.depth.pixel u v * ((v : α) - 0.5 * ((r.depth.height : α) - 1)) ∧
        p.z = r.depth.pixel u v) := by
  have hfr : r.focal = f := by rw [hfocal]; rfl
  constructor
  · intro hd
    simp [Retriever.getPoint3D, not_lt.mpr hd]
  · intro hd
    have hsome := Retriever.getPoint3D_some r u v hd
    rw [hfr] at hsome
    refine ⟨?_, hsome, ?_⟩
    · rw [hsome, mul_div_assoc, mul_div_assoc]
    · intro p hp
      rw [hsome] at hp
      cases hp
      refine ⟨?_, ?_, rfl⟩
      · show f * (r.depth.pixel u v * (((u : α) - 0.5 * ((r.depth.width : α) - 1)) / f)) = _
        field_simp
      · show f * (r.depth.pixel u v * (((v : α) - 0.5 * ((r.depth.height : α) - 1)) / f)) = _
        field_simp

/-- C1 at the sample configuration (width 4, `tan` of half the field of view 1,
so `f = 2`): pixel `(1,1)` has depth 2 and gives the point `(-1/2, -1/2, 2)`;
pixel `(3,1)` has depth 0 and the call fails. -/
theorem getPoint3D_contract_witness :
    ((2 : ℚ) = (sampleRetriever.depth.width : ℚ) /
        (2 * sampleRetriever.tan (sampleRetriever.fov_h * (sampleRetriever.M_PI / 180) / 2)) ∧
      (2 : ℚ) ≠ 0) ∧
    (sampleRetriever.depth.pixel 1 1 = 2 ∧
      sampleRetriever.getPoint3D 1 1 = some ⟨-1 / 2, -1 / 2, 2⟩) ∧
    (sampleRetriever.depth.pixel 3 1 = 0 ∧ sampleRetriever.getPoint3D 3 1 = none) :=
  have h : (2 : ℚ) = (sampleRetriever.depth.width : ℚ) /
      (2 * sampleRetriever.tan (sampleRetriever.fov_h * (sampleRetriever.M_PI / 180) / 2)) := by
    norm_num [sampleRetriever, sampleDepth]
  have h0 : (2 : ℚ) ≠ 0 := by norm_num
  have hd1 : sampleRetriever.depth.pixel 1 1 = 2 := by simp [sampleRetriever, sampleDepth]
  have hd3 : sampleRetriever.depth.pixel 3 1 = 0 := by simp [sampleRetriever, sampleDepth]
  ⟨⟨h, h0⟩,
    ⟨hd1, by
      rw [((getPoint3D_contract sampleRetriever 1 1 2 h h0).2 (by rw [hd1]; norm_num)).1, hd1]
      norm_num [sampleRetriever, sampleDepth]⟩,
    ⟨hd3, (getPoint3D_contract sampleRetriever 3 1 2 h h0).1 (by rw [hd3])⟩⟩

/-- C2: with a nonzero focal length and a positive depth sample, `getPoint3D`
succeeds and the pinhole re-projection of its point is the pixel `(u,v)`
again. -/
theorem getPoint3D_roundtrip (r : Retriever α) (u v : Int) (hf : r.focal ≠ 0)
    (hd : 0 < r.depth.pixel u v) :
    ∃ p, r.getPoint3D u v = some p ∧ r.reproject p = ((u : α), (v : α)) := by
  have hd0 : r.depth.pixel u v ≠ 0 := ne_of_gt hd
  refine ⟨_, Retriever.getPoint3D_some r u v hd, ?_⟩
  simp only [Retriever.reproject, Prod.mk.injEq]
  constructor <;> field_simp

/-- C2 at the sample configuration and pixel `(1,2)`. -/
theorem getPoint3D_roundtrip_witness :
    sampleRetriever.focal ≠ 0 ∧ 0 < sampleRetriever.depth.pixel 1 2 ∧
    ∃ p, sampleRetriever.getPoint3D 1 2 = some p ∧
      sampleRetriever.reproject p = (((1 : Int) : ℚ), ((2 : Int) : ℚ)) :=
  have h : sampleRetriever.focal ≠ 0 := by
    norm_num [Retriever.focal, sampleRetriever, sampleDepth]
  have hd : 0 < sampleRetriever.depth.pixel 1 2 := by
    norm_num [sampleRetriever, sampleDepth]
  ⟨h, hd, getPoint3D_roundtrip sampleRetriever 1 2 h hd⟩

end ProjectionTheorems

section SkeletonUpdateLemmas
variable {α : Type}

theorem Skeleton.foldl_setPoint_keypoints (l : List (Option KeyPointTag × Vector3 α))
    (sk : Skeleton α) :
    (l.foldl (fun acc e => acc.setPoint e.1 e.2) sk).keypoints =
      sk.keypoints.map (fun k => l.foldl
        (fun k e => if some k.tag = e.1 then { k with updated := true, point := e.2 } else k) k) := by
  induction l generalizing sk with
  | nil => simp
  | cons e l ih =>
    rw [List.foldl_cons, ih]
    simp [Skeleton.setPoint, List.map_map, Function.comp_def]

theorem Skeleton.update_keypoints (sk : Skeleton α) (l : List (Option KeyPointTag × Vector3 α)) :
    (sk.update l).keypoints = sk.keypoints.map (KeyPoint.refresh l) := by
  unfold Skeleton.update
  rw [Skeleton.foldl_setPoint_keypoints]
  simp [Skeleton.stale, KeyPoint.refresh, List.map_map, Function.comp_def]

theorem Skeleton.foldl_setPoint_planes (l : List (Option KeyPointTag × Vector3 α))
    (sk : Skeleton α) :
    (l.foldl (fun acc e => acc.setPoint e.1 e.2) sk).sagittal = sk.sagittal ∧
    (l.foldl (fun acc e => acc.setPoint e.1 e.2) sk).transverse = sk.transverse ∧
    (l.foldl (fun acc e => acc.setPoint e.1 e.2) sk).coronal = sk.coronal := by
  induction l generalizing sk with
  | nil => simp
  | cons e l ih =>
    simp only [List.foldl_cons]
    have := ih (sk.setPoint e.1 e.2)
    simpa [Skeleton.setPoint] using this

theorem KeyPoint.foldl_write_tag (l : List (Option KeyPointTag × Vector3 α)) (k : KeyPoint α) :
    (l.foldl (fun k e => if some k.tag = e.1 then { k with updated := true, point := e.2 } else k)
      k).tag = k.tag := by
  induction l generalizing k with
  | nil => rfl
  | cons e l ih =>
    simp only [List.foldl_cons]
    rw [ih]
    split <;> rfl

theorem KeyPoint.foldl_write_none (l : List (Option KeyPointTag × Vector3 α)) (k : KeyPoint α)
    (h : ∀ e ∈ l, e.1 ≠ some k.tag) :
    l.foldl (fun k e => if some k.tag = e.1 then { k with updated := true, point := e.2 } else k)
      k = k := by
  induction l generalizing k with
  | nil => rfl
  | cons e l ih =>
    simp only [List.foldl_cons]
    have he : ¬ (some k.tag = e.1) := fun hh => h e (List.mem_cons_self _ _) hh.symm
    rw [if_neg he]
    exact ih k (fun e' he' => h e' (List.mem_cons_of_mem _ he'))

theorem KeyPoint.foldl_write_some (l : List (Option KeyPointTag × Vector3 α)) (k : KeyPoint α)
    (p : Vector3 α) (hp : ∀ e ∈ l, e.1 = some k.tag → e.2 = p)
    (hex : (∃ e ∈ l, e.1 = some k.tag) ∨ (k.updated = true ∧ k.point = p)) :
    l.foldl (fun k e => if some k.tag = e.1 then { k with updated := true, point := e.2 } else k)
      k = { tag := k.tag, updated := true, point := p } := by
  induction l generalizing k with
  | nil =>
    rcases hex with ⟨e, he, _⟩ | ⟨h1, h2⟩
    · cases he
    · cases k; simp_all
  | cons e l ih =>
    simp only [List.foldl_cons]
    by_cases he : some k.tag = e.1
    · rw [if_pos he]
      have := ih { k with updated := true, point := e.2 }
        (fun e' he' ht => hp e' (List.mem_cons_of_mem _ he') ht)
        (Or.inr ⟨rfl, hp e (List.mem_cons_self _ _) he.symm⟩)
      simpa using this
    · rw [if_neg he]
      apply ih k (fun e' he' ht => hp e' (List.mem_cons_of_mem _ he') ht)
      rcases hex with ⟨e', he', ht⟩ | h
      · rcases List.mem_cons.mp he' with rfl | hm
        · exact absurd ht.symm he
        · exact Or.inl ⟨e', hm, ht⟩
      · exact Or.inr h

theorem KeyPoint.refresh_tag (l : List (Option KeyPointTag × Vector3 α)) (k : KeyPoint α) :
    (KeyPoint.refresh l k).tag = k.tag := by
  unfold KeyPoint.refresh
  rw [KeyPoint.foldl_write_tag]

theorem KeyPoint.refresh_none (l : List (Option KeyPointTag × Vector3 α)) (k : KeyPoint α)
    (h : ∀ e ∈ l, e.1 ≠ some k.tag) :
    KeyPoint.refresh l k = { k with updated := false } := by
  unfold KeyPoint.refresh
  exact KeyPoint.foldl_write_none l _ h

theorem KeyPoint.refresh_some (l : List (Option KeyPointTag × Vector3 α)) (k : KeyPoint α)
    (p : Vector3 α) (hp : ∀ e ∈ l, e.1 = some k.tag → e.2 = p)
    (hex : ∃ e ∈ l, e.1 = some k.tag) :
    KeyPoint.refresh l k = { tag := k.tag, updated := true, point := p } := by
  unfold KeyPoint.refresh
  exact KeyPoint.foldl_write_some l _ p hp (Or.inl hex)

theorem Skeleton.update_tags (sk : Skeleton α) (l : List (Option KeyPointTag × Vector3 α)) :
    (sk.update l).tags = sk.tags := by
  simp [Skeleton.tags, Skeleton.update_keypoints, List.map_map, Function.comp_def,
    KeyPoint.refresh_tag]

end SkeletonUpdateLemmas

section UpdateLoopLemmas
variable {α : Type} [LinearOrderedField α]

theorem getD_set_int (l : List Int) (i j : Nat) (v : Int) :
    (l.set i v).getD j 0 = if j = i ∧ i < l.length then v else l.getD j 0 := by
  simp only [List.getD_eq_getElem?_getD, List.getElem?_set]
  by_cases hij : i = j
  · subst hij
    by_cases hi : i < l.length
    · simp [hi]
    · simp [hi, List.getElem?_eq_none (not_lt.mp hi)]
  · have : ¬ (j = i) := fun h => hij h.symm
    simp [hij, this]

theorem Retriever.updateStep_fst (r : Retriever α) (src dest : MetaSkeleton α)
    (acc : List (Option KeyPointTag × Vector3 α) × List Int) (i : Nat)
    (h : acc.2.getD i 0 = dest.keys_acceptable_misses.getD i 0) :
    (r.updateStep src dest acc i).1 = acc.1 ++ (r.updateEntry src dest i).toList := by
  unfold Retriever.updateStep Retriever.updateEntry
  dsimp only
  rw [h]
  by_cases hu : isUpdated (src.skeleton.atIndex i) = true
  · rw [if_pos hu, if_pos hu]; rfl
  · rw [if_neg hu, if_neg hu]
    by_cases hb : dest.keys_acceptable_misses.getD i 0 > 0
    · rw [if_pos hb, if_pos hb]; rfl
    · rw [if_neg hb, if_neg hb]; simp

theorem Retriever.updateStep_length (r : Retriever α) (src dest : MetaSkeleton α)
    (acc : List (Option KeyPointTag × Vector3 α) × List Int) (i : Nat) :
    (r.updateStep src dest acc i).2.length = acc.2.length := by
  unfold Retriever.updateStep
  dsimp only
  by_cases hu : isUpdated (src.skeleton.atIndex i) = true
  · rw [if_pos hu]; simp
  · rw [if_neg hu]
    by_cases hb : acc.2.getD i 0 > 0
    · rw [if_pos hb]; simp
    · rw [if_neg hb]

theorem Retriever.updateStep_getD (r : Retriever α) (src dest : MetaSkeleton α)
    (acc : List (Option KeyPointTag × Vector3 α) × List Int) (i j : Nat)
    (h : acc.2.getD i 0 = dest.keys_acceptable_misses.getD i 0) :
    (r.updateStep src dest acc i).2.getD j 0 =
      if j = i ∧ i < acc.2.length then r.updateMiss src dest i else acc.2.getD j 0 := by
  unfold Retriever.updateStep Retriever.updateMiss
  dsimp only
  rw [h]
  by_cases hu : isUpdated (src.skeleton.atIndex i) = true
  · rw [if_pos hu, if_pos hu]
    exact getD_set_int _ _ _ _
  · rw [if_neg hu, if_neg hu]
    by_cases hb : dest.keys_acceptable_misses.getD i 0 > 0
    · rw [if_pos hb, if_pos hb]
      exact getD_set_int _ _ _ _
    · rw [if_neg hb, if_neg hb]
      by_cases hj : j = i ∧ i < acc.2.length
      · rw [if_pos hj, hj.1, h]
      · rw [if_neg hj]

theorem Retriever.updateStep_fold (r : Retriever α) (src dest : MetaSkeleton α) (n : Nat) :
    ((List.range n).foldl (r.updateStep src dest) ([], dest.keys_acceptable_misses)).1 =
        (List.range n).filterMap (r.updateEntry src dest) ∧
    ((List.range n).foldl (r.updateStep src dest) ([], dest.keys_acceptable_misses)).2.length =
        dest.keys_acceptable_misses.length ∧
    ∀ j, ((List.range n).foldl (r.updateStep src dest)
        ([], dest.keys_acceptable_misses)).2.getD j 0 =
      if j < n ∧ j < dest.keys_acceptable_misses.length then r.updateMiss src dest j
      else dest.keys_acceptable_misses.getD j 0 := by
  induction n with
  | zero => simp
  | succ n ih =>
    obtain ⟨ih1, ih2, ih3⟩ := ih
    rw [List.range_succ, List.foldl_append, List.filterMap_append]
    simp only [List.foldl_cons, List.foldl_nil]
    generalize hacc : (List.range n).foldl (r.updateStep src dest)
      ([], dest.keys_acceptable_misses) = acc at ih1 ih2 ih3
    have hn : acc.2.getD n 0 = dest.keys_acceptable_misses.getD n 0 := by
      rw [ih3 n]; simp
    refine ⟨?_, ?_, ?_⟩
    · rw [Retriever.updateStep_fst r src dest acc n hn, ih1]
      cases he : r.updateEntry src dest n <;> simp [List.filterMap_cons, he]
    · rw [Retriever.updateStep_length, ih2]
    · intro j
      rw [Retriever.updateStep_getD r src dest acc n j hn, ih3 j, ih2]
      by_cases hj : j = n
      · subst hj
        by_cases hl : j < dest.keys_acceptable_misses.length
        · simp [hl]
        · simp [hl]
      · have : j < n + 1 ↔ j < n := by omega
        simp [hj, this]

/-- `updatePlanes` touches nothing but the planes. -/
theorem Retriever.updatePlanes_frame (r : Retriever α) (s : MetaSkeleton α) :
    (r.updatePlanes s).skeleton.keypoints = s.skeleton.keypoints ∧
    (r.updatePlanes s).timer = s.timer ∧
    (r.updatePlanes s).opc_id = s.opc_id ∧
    (r.updatePlanes s).keys_acceptable_misses = s.keys_acceptable_misses := by
  unfold Retriever.updatePlanes
  refine ⟨?_, rfl, rfl, rfl⟩
  dsimp only
  split_ifs <;> rfl

theorem Retriever.update_merge_keypoints (r : Retriever α) (src dest : MetaSkeleton α) :
    (r.update src dest).skeleton.keypoints = dest.skeleton.keypoints.map
      (KeyPoint.refresh ((List.range src.skeleton.getNumKeyPoints).filterMap
        (r.updateEntry src dest))) := by
  unfold Retriever.update
  simp only [(Retriever.updatePlanes_frame r _).1, Skeleton.update_keypoints,
    (Retriever.updateStep_fold r src dest _).1]

theorem Retriever.update_misses (r : Retriever α) (src dest : MetaSkeleton α) :
    (r.update src dest).keys_acceptable_misses.length = dest.keys_acceptable_misses.length ∧
    ∀ j, (r.update src dest).keys_acceptable_misses.getD j 0 =
      if j < src.skeleton.getNumKeyPoints ∧ j < dest.keys_acceptable_misses.length then
        r.updateMiss src dest j
      else dest.keys_acceptable_misses.getD j 0 := by
  unfold Retriever.update
  simp only [(Retriever.updatePlanes_frame r _).2.2.2]
  exact (Retriever.updateStep_fold r src dest _).2

theorem Retriever.update_merge_tags (r : Retriever α) (src dest : MetaSkeleton α) :
    (r.update src dest).skeleton.tags = dest.skeleton.tags := by
  simp [Skeleton.tags, Retriever.update_merge_keypoints, List.map_map, Function.comp_def,
    KeyPoint.refresh_tag]

theorem Retriever.update_timer (r : Retriever α) (src dest : MetaSkeleton α) :
    (r.update src dest).timer = r.time_to_live := rfl

end UpdateLoopLemmas

section TagLemmas
variable {α : Type}

theorem Skeleton.tags_get? (sk : Skeleton α) (i : Nat) :
    sk.tags[i]? = (sk.keypoints[i]?).map KeyPoint.tag := by
  simp [Skeleton.tags]

theorem Skeleton.index_of_tag (sk : Skeleton α) (hnodup : sk.tags.Nodup) (i k : Nat)
    (ki kk : KeyPoint α) (hi : sk.keypoints[i]? = some ki) (hk : sk.keypoints[k]? = some kk)
    (ht : ki.tag = kk.tag) : i = k := by
  have h1 : sk.tags[i]? = some ki.tag := by rw [Skeleton.tags_get?, hi]; rfl
  have h2 : sk.tags[k]? = some kk.tag := by rw [Skeleton.tags_get?, hk]; rfl
  have hkl : k < sk.tags.length := by
    by_contra hc
    rw [List.getElem?_eq_none (not_lt.mp hc)] at h2
    cases h2
  have hil : i < sk.tags.length := by
    by_contra hc
    rw [List.getElem?_eq_none (not_lt.mp hc)] at h1
    cases h1
  rcases Nat.lt_trichotomy i k with h | h | h
  · exact absurd (by rw [h1, h2, ht]) (List.nodup_iff_getElem?_ne_getElem?.mp hnodup i k h hkl)
  · exact h
  · exact absurd (by rw [h1, h2, ht]) (List.nodup_iff_getElem?_ne_getElem?.mp hnodup k i h hil)

theorem Skeleton.same_tags_get? (src dest : Skeleton α) (h : src.tags = dest.tags) (i : Nat) :
    (src.keypoints[i]?).map KeyPoint.tag = (dest.keypoints[i]?).map KeyPoint.tag := by
  rw [← Skeleton.tags_get?, ← Skeleton.tags_get?, h]

theorem Skeleton.atIndex_lt (sk : Skeleton α) (k : Nat) (kd : KeyPoint α)
    (h : sk.atIndex k = some kd) : k < sk.getNumKeyPoints := by
  by_contra hc
  unfold Skeleton.atIndex at h
  rw [List.getElem?_eq_none (not_lt.mp hc)] at h
  cases h

end TagLemmas

section UpdateSlotLemmas
variable {α : Type} [LinearOrderedField α]

theorem Retriever.updateEntry_tag (r : Retriever α) (src dest : MetaSkeleton α) (i : Nat)
    (e : Option KeyPointTag × Vector3 α) (h : r.updateEntry src dest i = some e) :
    e.1 = getTag (src.skeleton.atIndex i) := by
  unfold Retriever.updateEntry at h
  dsimp only at h
  split_ifs at h <;> cases h <;> rfl

/-- The slot `k` of the track after `update`, when slot `k` contributes a pair. -/
theorem Retriever.update_slot_some (r : Retriever α) (src dest : MetaSkeleton α) (k : Nat)
    (kd : KeyPoint α) (e : Option KeyPointTag × Vector3 α)
    (hnodup : dest.skeleton.tags.Nodup) (htags : src.skeleton.tags = dest.skeleton.tags)
    (hk : dest.skeleton.atIndex k = some kd) (he : r.updateEntry src dest k = some e) :
    (r.update src dest).skeleton.atIndex k =
      some { tag := kd.tag, updated := true, point := e.2 } := by
  have hlen : src.skeleton.getNumKeyPoints = dest.skeleton.getNumKeyPoints := by
    have := congrArg List.length htags
    simpa [Skeleton.tags, Skeleton.getNumKeyPoints] using this
  have hkl : k < dest.skeleton.keypoints.length := by
    by_contra hc
    unfold Skeleton.atIndex at hk
    rw [List.getElem?_eq_none (not_lt.mp hc)] at hk
    cases hk
  unfold Skeleton.atIndex at hk ⊢
  rw [Retriever.update_merge_keypoints, List.getElem?_map, hk, Option.map_some']
  congr 1
  apply KeyPoint.refresh_some
  · intro e1 he1 ht
    rw [List.mem_filterMap] at he1
    obtain ⟨i, _, hi⟩ := he1
    have htag := Retriever.updateEntry_tag r src dest i e1 hi
    rw [ht] at htag
    have hst := Skeleton.same_tags_get? src.skeleton dest.skeleton htags i
    unfold Skeleton.atIndex at htag
    cases hs : src.skeleton.keypoints[i]? with
    | none => rw [hs] at htag; cases htag
    | some ks =>
      rw [hs] at htag hst
      cases hd : dest.skeleton.keypoints[i]? with
      | none => rw [hd] at hst; cases hst
      | some kdi =>
        rw [hd] at hst
        have h1 : ks.tag = kdi.tag := by simpa using hst
        have h2 : kd.tag = ks.tag := by simpa [getTag] using htag
        have hik : i = k := Skeleton.index_of_tag dest.skeleton hnodup i k kdi kd hd hk
          (by rw [← h1, ← h2])
        subst hik
        rw [he] at hi
        cases hi
        rfl
  · refine ⟨e, ?_, ?_⟩
    · rw [List.mem_filterMap]
      exact ⟨k, by rw [List.mem_range, hlen]; exact hkl, he⟩
    · have htag := Retriever.updateEntry_tag r src dest k e he
      have hst := Skeleton.same_tags_get? src.skeleton dest.skeleton htags k
      rw [hk] at hst
      unfold Skeleton.atIndex at htag
      cases hs : src.skeleton.keypoints[k]? with
      | none => rw [hs] at hst; cases hst
      | some ks =>
        rw [hs] at hst htag
        have h1 : ks.tag = kd.tag := by simpa using hst
        rw [htag, ← h1]; rfl

/-- The slot `k` of the track after `update`, when slot `k` contributes no pair. -/
theorem Retriever.update_slot_none (r : Retriever α) (src dest : MetaSkeleton α) (k : Nat)
    (kd : KeyPoint α)
    (hnodup : dest.skeleton.tags.Nodup) (htags : src.skeleton.tags = dest.skeleton.tags)
    (hk : dest.skeleton.atIndex k = some kd) (he : r.updateEntry src dest k = none) :
    (r.update src dest).skeleton.atIndex k = some { kd with updated := false } := by
  unfold Skeleton.atIndex at hk ⊢
  rw [Retriever.update_merge_keypoints, List.getElem?_map, hk, Option.map_some']
  congr 1
  apply KeyPoint.refresh_none
  intro e1 he1 ht
  rw [List.mem_filterMap] at he1
  obtain ⟨i, _, hi⟩ := he1
  have htag := Retriever.updateEntry_tag r src dest i e1 hi
  rw [ht] at htag
  have hst := Skeleton.same_tags_get? src.skeleton dest.skeleton htags i
  unfold Skeleton.atIndex at htag
  cases hs : src.skeleton.keypoints[i]? with
  | none => rw [hs] at htag; cases htag
  | some ks =>
    rw [hs] at htag hst
    cases hd : dest.skeleton.keypoints[i]? with
    | none => rw [hd] at hst; cases hst
    | some kdi =>
      rw [hd] at hst
      have h1 : ks.tag = kdi.tag := by simpa using hst
      have h2 : kd.tag = ks.tag := by simpa [getTag] using htag
      have hik : i = k := Skeleton.index_of_tag dest.skeleton hnodup i k kdi kd hd hk
        (by rw [← h1, ← h2])
      subst hik
      rw [he] at hi
      cases hi

end UpdateSlotLemmas

section MissRunLemmas
variable {α : Type} [LinearOrderedField α]

/-- One matched update in which slot `k` of the candidate is fresh. -/
theorem Retriever.update_fresh (r : Retriever α) (src dest : MetaSkeleton α) (k : Nat)
    (kd ks : KeyPoint α)
    (hnodup : dest.skeleton.tags.Nodup) (htags : src.skeleton.tags = dest.skeleton.tags)
    (hk : dest.skeleton.atIndex k = some kd) (hlen : k < dest.keys_acceptable_misses.length)
    (hs : src.skeleton.atIndex k = some ks) (hf : ks.updated = true) :
    (r.update src dest).skeleton.atIndex k =
        some { tag := kd.tag, updated := true, point := ks.point } ∧
    (r.update src dest).keys_acceptable_misses.getD k 0 = r.keys_acceptable_misses := by
  have hu : isUpdated (src.skeleton.atIndex k) = true := by rw [hs]; exact hf
  constructor
  · have he : r.updateEntry src dest k = some (getTag (src.skeleton.atIndex k), ks.point) := by
      unfold Retriever.updateEntry
      dsimp only
      rw [if_pos hu, hs]
      rfl
    exact Retriever.update_slot_some r src dest k kd _ hnodup htags hk he
  · rw [(Retriever.update_misses r src dest).2 k,
      if_pos ⟨Skeleton.atIndex_lt _ k ks hs, hlen⟩]
    unfold Retriever.updateMiss
    rw [if_pos hu]

/-- One matched update in which slot `k` of the candidate is not fresh. -/
theorem Retriever.update_missed (r : Retriever α) (src dest : MetaSkeleton α) (k : Nat)
    (kd : KeyPoint α)
    (hnodup : dest.skeleton.tags.Nodup) (htags : src.skeleton.tags = dest.skeleton.tags)
    (hk : dest.skeleton.atIndex k = some kd) (hlen : k < dest.keys_acceptable_misses.length)
    (hs : isUpdated (src.skeleton.atIndex k) = false) :
    (0 < dest.keys_acceptable_misses.getD k 0 →
      (r.update src dest).skeleton.atIndex k =
          some { tag := kd.tag, updated := true, point := kd.point } ∧
      (r.update src dest).keys_acceptable_misses.getD k 0 =
          dest.keys_acceptable_misses.getD k 0 - 1) ∧
    (dest.keys_acceptable_misses.getD k 0 ≤ 0 →
      (r.update src dest).skeleton.atIndex k = some { kd with updated := false } ∧
      (r.update src dest).keys_acceptable_misses.getD k 0 =
          dest.keys_acceptable_misses.getD k 0) := by
  have hu : ¬ (isUpdated (src.skeleton.atIndex k) = true) := by rw [hs]; simp
  have hN : k < src.skeleton.getNumKeyPoints := by
    have h1 := Skeleton.atIndex_lt _ k kd hk
    have h2 := congrArg List.length htags
    simp only [Skeleton.tags, List.length_map] at h2
    unfold Skeleton.getNumKeyPoints at h1 ⊢
    omega
  constructor
  · intro hb
    constructor
    · have he : r.updateEntry src dest k =
          some (getTag (src.skeleton.atIndex k), getPoint (dest.skeleton.atIndex k)) := by
        unfold Retriever.updateEntry
        dsimp only
        rw [if_neg hu, if_pos hb]
      have := Retriever.update_slot_some r src dest k kd _ hnodup htags hk he
      rw [this, hk]
      rfl
    · rw [(Retriever.update_misses r src dest).2 k, if_pos ⟨hN, hlen⟩]
      unfold Retriever.updateMiss
      rw [if_neg hu, if_pos hb]
  · intro hb
    constructor
    · have he : r.updateEntry src dest k = none := by
        unfold Retriever.updateEntry
        dsimp only
        rw [if_neg hu, if_neg (not_lt.mpr hb)]
      exact Retriever.update_slot_none r src dest k kd hnodup htags hk he
    · rw [(Retriever.update_misses r src dest).2 k, if_pos ⟨hN, hlen⟩]
      unfold Retriever.updateMiss
      rw [if_neg hu, if_neg (not_lt.mpr hb)]

/-- A run of matched updates in none of which slot `k` is fresh, started with
slot `k` reported and a budget of `b` misses left. -/
theorem Retriever.update_miss_run (r : Retriever α) (tags : List KeyPointTag) (k : Nat)
    (t : KeyPointTag) (p : Vector3 α) (hnodup : tags.Nodup) :
    ∀ (misses : List (MetaSkeleton α)) (b : Nat) (d : MetaSkeleton α),
      d.skeleton.tags = tags →
      d.skeleton.atIndex k = some { tag := t, updated := true, point := p } →
      k < d.keys_acceptable_misses.length →
      d.keys_acceptable_misses.getD k 0 = (b : Int) →
      (∀ m ∈ misses, m.skeleton.tags = tags ∧ isUpdated (m.skeleton.atIndex k) = false) →
      (misses.length ≤ b →
        (misses.foldl (fun d m => r.update m d) d).skeleton.atIndex k =
          some { tag := t, updated := true, point := p }) ∧
      (misses.length = b + 1 →
        isUpdated ((misses.foldl (fun d m => r.update m d) d).skeleton.atIndex k) = false) := by
  intro misses
  induction misses with
  | nil =>
    intro b d _ hk _ _ _
    exact ⟨fun _ => hk, fun h => by simp at h⟩
  | cons m ms ih =>
    intro b d htags hk hlen hb hm
    have hm1 := hm m (List.mem_cons_self _ _)
    have hms : ∀ m1 ∈ ms, m1.skeleton.tags = tags ∧
        isUpdated (m1.skeleton.atIndex k) = false :=
      fun m1 h1 => hm m1 (List.mem_cons_of_mem _ h1)
    have hstep := Retriever.update_missed r m d k _ (htags ▸ hnodup)
      (hm1.1.trans htags.symm) hk hlen hm1.2
    have htags1 : (r.update m d).skeleton.tags = tags := by
      rw [Retriever.update_merge_tags, htags]
    have hlen1 : k < (r.update m d).keys_acceptable_misses.length := by
      rw [(Retriever.update_misses r m d).1]; exact hlen
    simp only [List.foldl_cons, List.length_cons]
    cases b with
    | zero =>
      have h0 := hstep.2 (by rw [hb]; simp)
      constructor
      · intro h; omega
      · intro h
        have : ms = [] := List.eq_nil_of_length_eq_zero (by omega)
        subst this
        simp only [List.foldl_nil]
        rw [h0.1]
        rfl
    | succ b =>
      have h1 := hstep.1 (by rw [hb]; push_cast; omega)
      have hb1 : (r.update m d).keys_acceptable_misses.getD k 0 = (b : Int) := by
        rw [h1.2, hb]; push_cast; omega
      have := ih b (r.update m d) htags1 h1.1 hlen1 hb1 hms
      constructor
      · intro h; exact this.1 (by omega)
      · intro h; exact this.2 (by omega)

end MissRunLemmas

/-! ## Miss tolerance -/

section MissTolerance

variable {α : Type} [LinearOrderedField α]

/-- C3: with a miss budget `K >= 0`, once slot `k` was fresh in the candidate
of a matched update, a run of matched updates in whose candidates slot `k` is
not fresh leaves slot `k` of the track reported, with the point of the last
fresh observation, as long as the run has at most `K` updates, and leaves it
absent when the run has `K+1` updates. -/
theorem miss_tolerance (r : Retriever α) (dest src0 : MetaSkeleton α)
    (misses : List (MetaSkeleton α)) (k : Nat) (ks : KeyPoint α)
    (hK : 0 ≤ r.keys_acceptable_misses)
    (hnodup : dest.skeleton.tags.Nodup)
    (hbudget : dest.keys_acceptable_misses.length = dest.skeleton.getNumKeyPoints)
    (hsrc : src0.skeleton.tags = dest.skeleton.tags)
    (hks : src0.skeleton.atIndex k = some ks) (hfresh : ks.updated = true)
    (hmiss : ∀ m ∈ misses, m.skeleton.tags = dest.skeleton.tags ∧
      isUpdated (m.skeleton.atIndex k) = false) :
    ((misses.length : Int) ≤ r.keys_acceptable_misses →
      (misses.foldl (fun d m => r.update m d) (r.update src0 dest)).skeleton.atIndex k =
        some { tag := ks.tag, updated := true, point := ks.point }) ∧
    ((misses.length : Int) = r.keys_acceptable_misses + 1 →
      isUpdated ((misses.foldl (fun d m => r.update m d)
        (r.update src0 dest)).skeleton.atIndex k) = false) := by
  have hkN : k < dest.skeleton.getNumKeyPoints := by
    have h1 := Skeleton.atIndex_lt _ k ks hks
    have h2 := congrArg List.length hsrc
    simp only [Skeleton.tags, List.length_map] at h2
    unfold Skeleton.getNumKeyPoints at h1 ⊢
    omega
  obtain ⟨kd, hkd⟩ : ∃ kd, dest.skeleton.atIndex k = some kd :=
    ⟨dest.skeleton.keypoints[k], by
      unfold Skeleton.atIndex; exact List.getElem?_eq_getElem hkN⟩
  have htag : kd.tag = ks.tag := by
    have := Skeleton.same_tags_get? src0.skeleton dest.skeleton hsrc k
    unfold Skeleton.atIndex at hks hkd
    rw [hks, hkd] at this
    simpa using this.symm
  have hlen : k < dest.keys_acceptable_misses.length := by rw [hbudget]; exact hkN
  have h0 := Retriever.update_fresh r src0 dest k kd ks hnodup hsrc hkd hlen hks hfresh
  rw [htag] at h0
  obtain ⟨b, hb⟩ : ∃ b : Nat, r.keys_acceptable_misses = (b : Int) :=
    ⟨r.keys_acceptable_misses.toNat, (Int.toNat_of_nonneg hK).symm⟩
  have hrun := Retriever.update_miss_run r dest.skeleton.tags k ks.tag ks.point hnodup misses b
    (r.update src0 dest) (Retriever.update_merge_tags r src0 dest) h0.1
    (by rw [(Retriever.update_misses r src0 dest).1]; exact hlen)
    (by rw [h0.2, hb]) hmiss
  rw [hb]
  exact ⟨fun h => hrun.1 (by exact_mod_cast h), fun h => hrun.2 (by exact_mod_cast h)⟩

/-- C3 at the sample configuration (`K = 3`): the left hand (slot 4) is fresh
once and then missed three times. -/
theorem miss_tolerance_witness :
    (0 ≤ sampleRetriever.keys_acceptable_misses ∧
     sampleTrack.skeleton.tags.Nodup ∧
     sampleTrack.keys_acceptable_misses.length = sampleTrack.skeleton.getNumKeyPoints ∧
     sampleSeen.skeleton.tags = sampleTrack.skeleton.tags ∧
     sampleSeen.skeleton.atIndex 4 = some ⟨.hand_left, true, ⟨1, 1, 2⟩⟩ ∧
     (∀ m ∈ [sampleMissed, sampleMissed, sampleMissed],
        m.skeleton.tags = sampleTrack.skeleton.tags ∧
        isUpdated (m.skeleton.atIndex 4) = false)) ∧
    ((([sampleMissed, sampleMissed, sampleMissed].length : Int) ≤
        sampleRetriever.keys_acceptable_misses →
      ([sampleMissed, sampleMissed, sampleMissed].foldl
        (fun d m => sampleRetriever.update m d)
        (sampleRetriever.update sampleSeen sampleTrack)).skeleton.atIndex 4 =
        some { tag := .hand_left, updated := true, point := ⟨1, 1, 2⟩ }) ∧
     (([sampleMissed, sampleMissed, sampleMissed].length : Int) =
        sampleRetriever.keys_acceptable_misses + 1 →
      isUpdated (([sampleMissed, sampleMissed, sampleMissed].foldl
        (fun d m => sampleRetriever.update m d)
        (sampleRetriever.update sampleSeen sampleTrack)).skeleton.atIndex 4) = false)) :=
  have h1 : 0 ≤ sampleRetriever.keys_acceptable_misses := by decide
  have h2 : sampleTrack.skeleton.tags.Nodup := by decide
  have h3 : sampleTrack.keys_acceptable_misses.length =
      sampleTrack.skeleton.getNumKeyPoints := by decide
  have h4 : sampleSeen.skeleton.tags = sampleTrack.skeleton.tags := by decide
  have h5 : sampleSeen.skeleton.atIndex 4 = some ⟨.hand_left, true, ⟨1, 1, 2⟩⟩ := by rfl
  have h6 : ∀ m ∈ [sampleMissed, sampleMissed, sampleMissed],
      m.skeleton.tags = sampleTrack.skeleton.tags ∧
      isUpdated (m.skeleton.atIndex 4) = false := by
    intro m hm
    simp only [List.mem_cons, List.mem_singleton, List.not_mem_nil, or_false, or_self] at hm
    subst hm
    exact ⟨by decide, by rfl⟩
  ⟨⟨h1, h2, h3, h4, h5, h6⟩,
    miss_tolerance sampleRetriever sampleTrack sampleSeen
      [sampleMissed, sampleMissed, sampleMissed] 4 ⟨.hand_left, true, ⟨1, 1, 2⟩⟩
      h1 h2 h3 h4 h5 rfl h6⟩

end MissTolerance

section GcLemmas
variable {α : Type} [LinearOrderedField α]

theorem Retriever.gc_append (r : Retriever α) (a b : List (MetaSkeleton α)) :
    r.gc (a ++ b) = ((r.gc a).1 ++ (r.gc b).1, (r.gc a).2 ++ (r.gc b).2) := by
  induction a with
  | nil => simp [Retriever.gc]
  | cons s a ih =>
    simp only [List.cons_append, Retriever.gc]
    split_ifs <;> simp [ih]

end GcLemmas

section ScoreMapLemmas
variable {α : Type} [LinearOrderedField α]

theorem ScoreMap.mem_assign (m : ScoreMap α) (key : α) (value : Nat) (hm : ScoreMap.Ordered m)
    (k : α) (v : Nat) :
    (k, v) ∈ ScoreMap.assign m key value ↔
      (k = key ∧ v = value) ∨ ((k, v) ∈ m ∧ k ≠ key) := by
  induction m with
  | nil => simp [ScoreMap.assign]
  | cons e rest ih =>
    have hrest : ScoreMap.Ordered rest := (List.pairwise_cons.mp hm).2
    have hhead : ∀ b ∈ rest, e.1 < b.1 := (List.pairwise_cons.mp hm).1
    unfold ScoreMap.assign
    by_cases h1 : key < e.1
    · rw [if_pos h1]
      simp only [List.mem_cons, Prod.mk.injEq]
      constructor
      · rintro (h | h | h)
        · exact Or.inl h
        · right
          refine ⟨Or.inl h, ?_⟩
          have : k = e.1 := congrArg Prod.fst h
          rw [this]; exact ne_of_gt h1
        · right
          refine ⟨Or.inr h, ?_⟩
          have := hhead (k, v) h
          exact ne_of_gt (lt_trans h1 this)
      · rintro (h | ⟨h | h, _⟩)
        · exact Or.inl h
        · exact Or.inr (Or.inl h)
        · exact Or.inr (Or.inr h)
    · rw [if_neg h1]
      by_cases h2 : e.1 < key
      · rw [if_pos h2]
        simp only [List.mem_cons, ih hrest]
        constructor
        · rintro (h | h | ⟨h, hne⟩)
          · right
            refine ⟨Or.inl h, ?_⟩
            have : k = e.1 := congrArg Prod.fst h
            rw [this]; exact ne_of_lt h2
          · exact Or.inl h
          · exact Or.inr ⟨Or.inr h, hne⟩
        · rintro (h | ⟨h | h, hne⟩)
          · exact Or.inr (Or.inl h)
          · exact Or.inl h
          · exact Or.inr (Or.inr ⟨h, hne⟩)
      · rw [if_neg h2]
        have heq : e.1 = key := le_antisymm (not_lt.mp h1) (not_lt.mp h2)
        simp only [List.mem_cons, Prod.mk.injEq]
        constructor
        · rintro (h | h)
          · exact Or.inl h
          · right
            refine ⟨Or.inr h, ?_⟩
            have := hhead (k, v) h
            rw [heq] at this
            exact ne_of_gt this
        · rintro (h | ⟨h | h, hne⟩)
          · exact Or.inl h
          · exfalso
            apply hne
            exact (congrArg Prod.fst h).trans heq
          · exact Or.inr h

theorem ScoreMap.assign_ordered (m : ScoreMap α) (key : α) (value : Nat)
    (hm : ScoreMap.Ordered m) : ScoreMap.Ordered (ScoreMap.assign m key value) := by
  induction m with
  | nil => simp [ScoreMap.assign, ScoreMap.Ordered]
  | cons e rest ih =>
    have hrest : ScoreMap.Ordered rest := (List.pairwise_cons.mp hm).2
    have hhead : ∀ b ∈ rest, e.1 < b.1 := (List.pairwise_cons.mp hm).1
    unfold ScoreMap.assign
    by_cases h1 : key < e.1
    · rw [if_pos h1]
      refine List.pairwise_cons.mpr ⟨?_, hm⟩
      intro b hb
      rcases List.mem_cons.mp hb with rfl | hb
      · exact h1
      · exact lt_trans h1 (hhead b hb)
    · rw [if_neg h1]
      by_cases h2 : e.1 < key
      · rw [if_pos h2]
        refine List.pairwise_cons.mpr ⟨?_, ih hrest⟩
        intro b hb
        rcases (ScoreMap.mem_assign rest key value hrest b.1 b.2).mp hb with h | h
        · rw [h.1]; exact h2
        · exact hhead b h.1
      · rw [if_neg h2]
        have heq : e.1 = key := le_antisymm (not_lt.mp h1) (not_lt.mp h2)
        refine List.pairwise_cons.mpr ⟨?_, hrest⟩
        intro b hb
        have := hhead b hb
        rw [heq] at this
        exact this

end ScoreMapLemmas

section MatcherLoopLemmas
variable {α : Type} [LinearOrderedField α]

theorem Retriever.isTrackedStep_spec (r : Retriever α) (s : MetaSkeleton α) (m : ScoreMap α)
    (i : Nat) (t : MetaSkeleton α) (hm : ScoreMap.Ordered m) :
    ScoreMap.Ordered (r.isTrackedStep s m i t) ∧
    ∀ k v, (k, v) ∈ r.isTrackedStep s m i t ↔
      ((r.eligible t s ∧ r.meanDistance t s = k) ∧ v = i) ∨
      ((k, v) ∈ m ∧ ¬ (r.eligible t s ∧ r.meanDistance t s = k)) := by
  unfold Retriever.isTrackedStep
  dsimp only
  by_cases h1 : (r.distanceSum t.skeleton s.skeleton).2 > 0
  · rw [if_pos h1]
    by_cases h2 : (r.distanceSum t.skeleton s.skeleton).1 /
        ((r.distanceSum t.skeleton s.skeleton).2 : α) ≤ r.tracking_threshold
    · rw [if_pos h2]
      have hel : r.eligible t s := ⟨h1, h2⟩
      refine ⟨ScoreMap.assign_ordered m _ i hm, ?_⟩
      intro k v
      rw [ScoreMap.mem_assign m _ i hm k v]
      constructor
      · rintro (⟨hk, hv⟩ | ⟨hmem, hne⟩)
        · exact Or.inl ⟨⟨hel, hk.symm⟩, hv⟩
        · exact Or.inr ⟨hmem, fun h => hne h.2.symm⟩
      · rintro (⟨⟨_, hk⟩, hv⟩ | ⟨hmem, hne⟩)
        · exact Or.inl ⟨hk.symm, hv⟩
        · exact Or.inr ⟨hmem, fun h => hne ⟨hel, h.symm⟩⟩
    · rw [if_neg h2]
      refine ⟨hm, ?_⟩
      intro k v
      constructor
      · intro h
        exact Or.inr ⟨h, fun hh => h2 hh.1.2⟩
      · rintro (⟨⟨hel, _⟩, _⟩ | ⟨hmem, _⟩)
        · exact absurd hel.2 h2
        · exact hmem
  · rw [if_neg h1]
    refine ⟨hm, ?_⟩
    intro k v
    constructor
    · intro h
      exact Or.inr ⟨h, fun hh => h1 hh.1.1⟩
    · rintro (⟨⟨hel, _⟩, _⟩ | ⟨hmem, _⟩)
      · exact absurd hel.1 h1
      · exact hmem

/-- The map `scores` after the outer loop of `isTracked`: ordered, and holding
for every key the index of the last track entered under it. -/
theorem Retriever.isTrackedLoop_spec (r : Retriever α) (s : MetaSkeleton α) :
    ∀ (tracks : List (MetaSkeleton α)) (i : Nat) (m : ScoreMap α), ScoreMap.Ordered m →
      ScoreMap.Ordered (r.isTrackedLoop s i tracks m) ∧
      ∀ k v, (k, v) ∈ r.isTrackedLoop s i tracks m ↔
        (∃ (j : Nat) (t : MetaSkeleton α), tracks[j]? = some t ∧ v = i + j ∧
          (r.eligible t s ∧ r.meanDistance t s = k) ∧
          ∀ (j1 : Nat) (t1 : MetaSkeleton α), j < j1 → tracks[j1]? = some t1 →
            ¬ (r.eligible t1 s ∧ r.meanDistance t1 s = k)) ∨
        ((k, v) ∈ m ∧ ∀ (j : Nat) (t : MetaSkeleton α), tracks[j]? = some t →
          ¬ (r.eligible t s ∧ r.meanDistance t s = k)) := by
  intro tracks
  induction tracks with
  | nil =>
    intro i m hm
    refine ⟨hm, ?_⟩
    intro k v
    simp [Retriever.isTrackedLoop]
  | cons t ts ih =>
    intro i m hm
    have hstep := Retriever.isTrackedStep_spec r s m i t hm
    have hrec := ih (i + 1) (r.isTrackedStep s m i t) hstep.1
    simp only [Retriever.isTrackedLoop]
    refine ⟨hrec.1, ?_⟩
    intro k v
    rw [hrec.2 k v, hstep.2 k v]
    constructor
    · rintro (⟨j, t1, hj, hv, hE, hlast⟩ | ⟨(⟨hE, hv⟩ | ⟨hmem, hnE⟩), hnone⟩)
      · left
        refine ⟨j + 1, t1, by simpa using hj, by omega, hE, ?_⟩
        intro j1 t2 hlt hj1
        cases j1 with
        | zero => omega
        | succ j1 => exact hlast j1 t2 (by omega) (by simpa using hj1)
      · left
        refine ⟨0, t, by simp, by omega, hE, ?_⟩
        intro j1 t2 hlt hj1
        cases j1 with
        | zero => omega
        | succ j1 => exact hnone j1 t2 (by simpa using hj1)
      · right
        refine ⟨hmem, ?_⟩
        intro j t2 hj
        cases j with
        | zero =>
          have : t = t2 := by simpa using hj
          rw [← this]; exact hnE
        | succ j => exact hnone j t2 (by simpa using hj)
    · rintro (⟨j, t1, hj, hv, hE, hlast⟩ | ⟨hmem, hnone⟩)
      · cases j with
        | zero =>
          right
          have : t = t1 := by simpa using hj
          subst this
          refine ⟨Or.inl ⟨hE, by omega⟩, ?_⟩
          intro j1 t2 hj1
          exact hlast (j1 + 1) t2 (by omega) (by simpa using hj1)
        | succ j =>
          left
          refine ⟨j, t1, by simpa using hj, by omega, hE, ?_⟩
          intro j1 t2 hlt hj1
          exact hlast (j1 + 1) t2 (by omega) (by simpa using hj1)
      · right
        refine ⟨Or.inr ⟨hmem, hnone 0 t (by simp)⟩, ?_⟩
        intro j t2 hj
        exact hnone (j + 1) t2 (by simpa using hj)

omit [LinearOrderedField α] in
theorem exists_last_index (P : MetaSkeleton α → Prop) :
    ∀ (l : List (MetaSkeleton α)) (j : Nat) (t : MetaSkeleton α), l[j]? = some t → P t →
      ∃ (j0 : Nat) (t0 : MetaSkeleton α), l[j0]? = some t0 ∧ P t0 ∧
        ∀ (j1 : Nat) (t1 : MetaSkeleton α), j0 < j1 → l[j1]? = some t1 → ¬ P t1 := by
  intro l
  induction l with
  | nil => intro j t hj; simp at hj
  | cons a l ih =>
    intro j t hj hP
    by_cases h : ∃ (j1 : Nat) (t1 : MetaSkeleton α), l[j1]? = some t1 ∧ P t1
    · obtain ⟨j1, t1, hj1, hP1⟩ := h
      obtain ⟨j0, t0, hj0, hP0, hlast⟩ := ih j1 t1 hj1 hP1
      refine ⟨j0 + 1, t0, by simpa using hj0, hP0, ?_⟩
      intro j2 t2 hlt hj2
      cases j2 with
      | zero => omega
      | succ j2 => exact hlast j2 t2 (by omega) (by simpa using hj2)
    · cases j with
      | zero =>
        refine ⟨0, t, hj, hP, ?_⟩
        intro j2 t2 hlt hj2 hP2
        cases j2 with
        | zero => omega
        | succ j2 => exact h ⟨j2, t2, by simpa using hj2, hP2⟩
      | succ j => exact absurd ⟨j, t, by simpa using hj, hP⟩ h

/-- What `isTracked` returns: no track when none is eligible, otherwise the
last one among the eligible tracks of least mean distance. -/
theorem Retriever.isTracked_spec (r : Retriever α) (skeletons : List (MetaSkeleton α))
    (s : MetaSkeleton α) :
    (r.isTracked skeletons s = none ↔
      ∀ (j : Nat) (t : MetaSkeleton α), skeletons[j]? = some t → ¬ r.eligible t s) ∧
    ∀ i, r.isTracked skeletons s = some i →
      ∃ t, skeletons[i]? = some t ∧ r.eligible t s ∧
        (∀ (j1 : Nat) (t1 : MetaSkeleton α), skeletons[j1]? = some t1 → r.eligible t1 s →
          r.meanDistance t s ≤ r.meanDistance t1 s) ∧
        (∀ (j1 : Nat) (t1 : MetaSkeleton α), skeletons[j1]? = some t1 → r.eligible t1 s →
          r.meanDistance t1 s = r.meanDistance t s → j1 ≤ i) := by
  have hspec := Retriever.isTrackedLoop_spec r s skeletons 0 [] List.Pairwise.nil
  unfold Retriever.isTracked
  generalize r.isTrackedLoop s 0 skeletons [] = scores at hspec
  obtain ⟨hord, hmem⟩ := hspec
  have hentry : ∀ (j : Nat) (t : MetaSkeleton α), skeletons[j]? = some t → r.eligible t s →
      ∃ v, (r.meanDistance t s, v) ∈ scores := by
    intro j t hj hel
    obtain ⟨j0, t0, hj0, hP0, hlast⟩ := exists_last_index
      (fun t1 => r.eligible t1 s ∧ r.meanDistance t1 s = r.meanDistance t s)
      skeletons j t hj ⟨hel, rfl⟩
    exact ⟨0 + j0, (hmem _ _).mpr (Or.inl ⟨j0, t0, hj0, rfl, hP0, hlast⟩)⟩
  cases scores with
  | nil =>
    dsimp only
    refine ⟨⟨fun _ => ?_, fun _ => rfl⟩, fun i h => by cases h⟩
    intro j t hj hel
    obtain ⟨v, hv⟩ := hentry j t hj hel
    cases hv
  | cons e rest =>
    dsimp only
    have he : (e.1, e.2) ∈ e :: rest := List.mem_cons_self _ _
    rcases (hmem e.1 e.2).mp he with ⟨j, t, hj, hv, hE, hlast⟩ | ⟨h, _⟩
    · have hji : j = e.2 := by omega
      subst hji
      refine ⟨⟨fun h => (by cases h), fun h => absurd hE.1 (h _ t hj)⟩, ?_⟩
      intro i hi
      have hi2 : e.2 = i := by simpa using hi
      subst hi2
      refine ⟨t, hj, hE.1, ?_, ?_⟩
      · intro j1 t1 hj1 hel1
        obtain ⟨v, hv1⟩ := hentry j1 t1 hj1 hel1
        rw [hE.2]
        rcases List.mem_cons.mp hv1 with h | h
        · exact le_of_eq (congrArg Prod.fst h).symm
        · exact le_of_lt ((List.pairwise_cons.mp hord).1 _ h)
      · intro j1 t1 hj1 hel1 heq
        by_contra hlt
        exact hlast j1 t1 (by omega) hj1 ⟨hel1, heq.trans hE.2⟩
    · cases h

end MatcherLoopLemmas

section DistanceLemmas
variable {α : Type} [LinearOrderedField α]

theorem Retriever.distanceSum_snd (r : Retriever α) (sk s : Skeleton α) :
    (r.distanceSum sk s).2 = sk.getNumKeyPoints := by
  unfold Retriever.distanceSum
  generalize sk.getNumKeyPoints = n
  induction n with
  | zero => rfl
  | succ n ih =>
    rw [List.range_succ, List.foldl_append]
    simp only [List.foldl_cons, List.foldl_nil]
    rw [ih]

theorem Retriever.eligible_iff (r : Retriever α) (t s : MetaSkeleton α)
    (h : 0 < t.skeleton.getNumKeyPoints) :
    r.eligible t s ↔ r.meanDistance t s ≤ r.tracking_threshold := by
  unfold Retriever.eligible
  rw [Retriever.distanceSum_snd]
  exact ⟨fun hh => hh.2, fun hh => ⟨h, hh⟩⟩

end DistanceLemmas

section MatcherSamples

theorem sample_meanDistance :
    sampleRetriever.meanDistance sampleTrack sampleSeen = 1 / 15 ∧
    sampleRetriever.meanDistance sampleTrackB sampleSeen = 1 / 15 ∧
    sampleRetriever.meanDistance sampleTrackNear sampleSeen = 0.1 ∧
    sampleRetriever.meanDistance sampleTrackFar sampleSeen = 0.3 := by
  refine ⟨?_, ?_, ?_, ?_⟩ <;>
  · simp +decide [Retriever.meanDistance, Retriever.distanceSum, Skeleton.getNumKeyPoints,
      sampleTrack, sampleTrackB, sampleTrackNear, sampleTrackFar, sampleSeen, sampleMeta,
      sampleSkeleton, SkeletonWaist, KeyPointTag.all, Skeleton.update, Skeleton.stale,
      Skeleton.setPoint, List.range_succ, Skeleton.atIndex, isUpdated, getPoint,
      sampleRetriever, Vector3.sub]
    try rw [abs_of_pos (by norm_num)]
    try norm_num

end MatcherSamples

/-! ## The matcher -/

section Matcher
variable {α : Type} [LinearOrderedField α]

/-- C5: on a live set whose skeletons have at least one slot, `isTracked`
returns no track iff no live track has mean distance `<= tracking_threshold`;
a track it returns is a live track whose mean distance is within the threshold
and least among all live tracks; and a track at 0.1 is returned when all other
tracks are at 0.3 and the threshold is 0.3. -/
theorem isTracked_selection (r : Retriever α) (skeletons : List (MetaSkeleton α))
    (s : MetaSkeleton α) (hN : ∀ t ∈ skeletons, 0 < t.skeleton.getNumKeyPoints) :
    (r.isTracked skeletons s = none ↔
      ∀ t ∈ skeletons, ¬ r.meanDistance t s ≤ r.tracking_threshold) ∧
    (∀ i, r.isTracked skeletons s = some i →
      ∃ t, skeletons[i]? = some t ∧ r.meanDistance t s ≤ r.tracking_threshold ∧
        ∀ t1 ∈ skeletons, r.meanDistance t s ≤ r.meanDistance t1 s) ∧
    (∀ (i0 : Nat) (a : MetaSkeleton α), skeletons[i0]? = some a →
      r.meanDistance a s = 0.1 →
      (∀ (j : Nat) (b : MetaSkeleton α), j ≠ i0 → skeletons[j]? = some b →
        r.meanDistance b s = 0.3) →
      r.tracking_threshold = 0.3 → r.isTracked skeletons s = some i0) := by
  have hspec := Retriever.isTracked_spec r skeletons s
  have hnone : r.isTracked skeletons s = none ↔
      ∀ t ∈ skeletons, ¬ r.meanDistance t s ≤ r.tracking_threshold := by
    rw [hspec.1]
    constructor
    · intro h t ht
      obtain ⟨j, hj⟩ := List.mem_iff_getElem?.mp ht
      rw [← Retriever.eligible_iff r t s (hN t ht)]
      exact h j t hj
    · intro h j t hj
      have ht := List.getElem?_mem hj
      rw [Retriever.eligible_iff r t s (hN t ht)]
      exact h t ht
  have hsome : ∀ i, r.isTracked skeletons s = some i →
      ∃ t, skeletons[i]? = some t ∧ r.meanDistance t s ≤ r.tracking_threshold ∧
        ∀ t1 ∈ skeletons, r.meanDistance t s ≤ r.meanDistance t1 s := by
    intro i hi
    obtain ⟨t, hti, hel, hmin, _⟩ := hspec.2 i hi
    refine ⟨t, hti, hel.2, ?_⟩
    intro t1 ht1
    obtain ⟨j, hj⟩ := List.mem_iff_getElem?.mp ht1
    by_cases h1 : r.meanDistance t1 s ≤ r.tracking_threshold
    · exact hmin j t1 hj ((Retriever.eligible_iff r t1 s (hN t1 ht1)).mpr h1)
    · exact le_of_lt (lt_of_le_of_lt hel.2 (not_le.mp h1))
  refine ⟨hnone, hsome, ?_⟩
  intro i0 a ha hma hothers hthr
  have hamem := List.getElem?_mem ha
  cases hres : r.isTracked skeletons s with
  | none =>
    exfalso
    apply hnone.mp hres a hamem
    rw [hma, hthr]
    norm_num
  | some i =>
    obtain ⟨t, hti, _, hmin⟩ := hsome i hres
    by_cases hi : i = i0
    · rw [hi]
    · exfalso
      have h1 := hothers i t hi hti
      have h2 := hmin a hamem
      rw [h1, hma] at h2
      norm_num at h2

/-- C6, as amended: when several live tracks share the least eligible mean
distance, `isTracked` returns the one entered last: no track with the same mean
distance as the returned one has a higher index. -/
theorem isTracked_tie_last (r : Retriever α) (skeletons : List (MetaSkeleton α))
    (s : MetaSkeleton α) (i : Nat) (hi : r.isTracked skeletons s = some i) :
    ∃ t, skeletons[i]? = some t ∧ r.eligible t s ∧
      (∀ (j : Nat) (t1 : MetaSkeleton α), skeletons[j]? = some t1 → r.eligible t1 s →
        r.meanDistance t s ≤ r.meanDistance t1 s) ∧
      (∀ (j : Nat) (t1 : MetaSkeleton α), skeletons[j]? = some t1 → r.eligible t1 s →
        r.meanDistance t1 s = r.meanDistance t s → j ≤ i) :=
  (Retriever.isTracked_spec r skeletons s).2 i hi

end Matcher

section MatcherSampleClaims

theorem sample_isTracked_tie :
    sampleRetriever.isTracked [sampleTrack, sampleTrackB] sampleSeen = some 1 := by
  simp +decide [Retriever.isTracked, Retriever.isTrackedLoop, Retriever.isTrackedStep,
    Retriever.distanceSum, Skeleton.getNumKeyPoints, sampleTrack, sampleTrackB, sampleSeen,
    sampleMeta, sampleSkeleton, SkeletonWaist, KeyPointTag.all, Skeleton.update,
    Skeleton.stale, Skeleton.setPoint, List.range_succ, Skeleton.atIndex, isUpdated, getPoint,
    sampleRetriever, Vector3.sub]
  norm_num [ScoreMap.assign]

theorem sample_eligible :
    sampleRetriever.eligible sampleTrack sampleSeen ∧
    sampleRetriever.eligible sampleTrackB sampleSeen := by
  constructor
  · rw [Retriever.eligible_iff _ _ _ (by decide), sample_meanDistance.1]
    norm_num [sampleRetriever]
  · rw [Retriever.eligible_iff _ _ _ (by decide), sample_meanDistance.2.1]
    norm_num [sampleRetriever]

/-- C5 at the sample configuration: of a track at mean distance 0.1 and one at
0.3, with threshold 0.3, the first is returned. -/
theorem isTracked_selection_witness :
    (∀ t ∈ [sampleTrackNear, sampleTrackFar], 0 < t.skeleton.getNumKeyPoints) ∧
    sampleRetriever.meanDistance sampleTrackNear sampleSeen = 0.1 ∧
    sampleRetriever.meanDistance sampleTrackFar sampleSeen = 0.3 ∧
    sampleRetriever.isTracked [sampleTrackNear, sampleTrackFar] sampleSeen = some 0 :=
  have h : ∀ t ∈ [sampleTrackNear, sampleTrackFar], 0 < t.skeleton.getNumKeyPoints := by
    decide
  ⟨h, sample_meanDistance.2.2.1, sample_meanDistance.2.2.2,
    (isTracked_selection sampleRetriever [sampleTrackNear, sampleTrackFar] sampleSeen h).2.2
      0 sampleTrackNear rfl sample_meanDistance.2.2.1
      (fun j b hj hb => by
        cases j with
        | zero => exact absurd rfl hj
        | succ j =>
          cases j with
          | zero =>
            have : sampleTrackFar = b := by simpa using hb
            rw [← this]; exact sample_meanDistance.2.2.2
          | succ j => simp at hb)
      rfl⟩

/-- C6 as stated fails: two live tracks tie at the least mean distance 1/15,
both within the threshold, and `isTracked` returns the second (index 1), not the
first-seen one (index 0). -/
theorem isTracked_tie_first_counterexample :
    sampleRetriever.eligible sampleTrack sampleSeen ∧
    sampleRetriever.eligible sampleTrackB sampleSeen ∧
    sampleRetriever.meanDistance sampleTrack sampleSeen =
      sampleRetriever.meanDistance sampleTrackB sampleSeen ∧
    sampleRetriever.isTracked [sampleTrack, sampleTrackB] sampleSeen = some 1 ∧
    sampleRetriever.isTracked [sampleTrack, sampleTrackB] sampleSeen ≠ some 0 :=
  ⟨sample_eligible.1, sample_eligible.2,
    sample_meanDistance.1.trans sample_meanDistance.2.1.symm,
    sample_isTracked_tie, by rw [sample_isTracked_tie]; decide⟩

/-- C6, as amended, at the sample tie. -/
theorem isTracked_tie_last_witness :
    sampleRetriever.isTracked [sampleTrack, sampleTrackB] sampleSeen = some 1 ∧
    ∃ t, [sampleTrack, sampleTrackB][1]? = some t ∧ sampleRetriever.eligible t sampleSeen ∧
      (∀ (j : Nat) (t1 : MetaSkeleton ℚ), [sampleTrack, sampleTrackB][j]? = some t1 →
        sampleRetriever.eligible t1 sampleSeen →
        sampleRetriever.meanDistance t sampleSeen ≤
          sampleRetriever.meanDistance t1 sampleSeen) ∧
      (∀ (j : Nat) (t1 : MetaSkeleton ℚ), [sampleTrack, sampleTrackB][j]? = some t1 →
        sampleRetriever.eligible t1 sampleSeen →
        sampleRetriever.meanDistance t1 sampleSeen = sampleRetriever.meanDistance t sampleSeen →
        j ≤ 1) :=
  ⟨sample_isTracked_tie,
    isTracked_tie_last sampleRetriever [sampleTrack, sampleTrackB] sampleSeen 1
      sample_isTracked_tie⟩

end MatcherSampleClaims

section AdmissionLemmas
variable {α : Type} [LinearOrderedField α]

omit [LinearOrderedField α] in
theorem Skeleton.count_loop (sk : Skeleton α) (n : Nat) (hn : n ≤ sk.keypoints.length) :
    (List.range n).foldl (fun c i => if isUpdated (sk.atIndex i) then c + 1 else c) 0 =
      (sk.keypoints.take n).countP (fun k => k.updated) := by
  induction n with
  | zero => simp
  | succ n ih =>
    have hlt : n < sk.keypoints.length := hn
    rw [List.range_succ, List.foldl_append, ih (Nat.le_of_lt hlt), List.take_succ,
      List.countP_append]
    simp only [List.foldl_cons, List.foldl_nil, Skeleton.atIndex, List.getElem?_eq_getElem hlt,
      isUpdated, Option.toList, List.countP_cons, List.countP_nil]
    split_ifs <;> simp

theorem Retriever.isValid_eq (r : Retriever α) (s : MetaSkeleton α) :
    r.isValid s = decide ((s.skeleton.numUpdated : α) / (s.skeleton.getNumKeyPoints : α) ≥
      r.keys_recognition_percentage) := by
  have h := Skeleton.count_loop s.skeleton s.skeleton.keypoints.length (le_refl _)
  rw [List.take_length] at h
  unfold Retriever.isValid Skeleton.numUpdated Skeleton.getNumKeyPoints
  dsimp only
  rw [h]

end AdmissionLemmas

/-! ## Admission -/

section Admission
variable {α : Type} [LinearOrderedField α]

/-- C7: for a candidate with `n` of its `N > 0` slots flagged updated,
`isValid` holds iff `n/N >= keys_recognition_percentage`; so a candidate whose
fraction equals the percentage is admitted, and then every candidate with one
updated slot less (out of as many slots) is rejected. -/
theorem isValid_admission (r : Retriever α) (s : MetaSkeleton α)
    (hN : 0 < s.skeleton.getNumKeyPoints) :
    (r.isValid s = true ↔
      (s.skeleton.numUpdated : α) / (s.skeleton.getNumKeyPoints : α) ≥
        r.keys_recognition_percentage) ∧
    ((s.skeleton.numUpdated : α) / (s.skeleton.getNumKeyPoints : α) =
        r.keys_recognition_percentage → r.isValid s = true) ∧
    (∀ s1 : MetaSkeleton α, s1.skeleton.getNumKeyPoints = s.skeleton.getNumKeyPoints →
      s1.skeleton.numUpdated + 1 = s.skeleton.numUpdated →
      (s.skeleton.numUpdated : α) / (s.skeleton.getNumKeyPoints : α) =
        r.keys_recognition_percentage → r.isValid s1 = false) := by
  have hiff : ∀ s0 : MetaSkeleton α, r.isValid s0 = true ↔
      (s0.skeleton.numUpdated : α) / (s0.skeleton.getNumKeyPoints : α) ≥
        r.keys_recognition_percentage := by
    intro s0
    rw [Retriever.isValid_eq, decide_eq_true_iff]
  refine ⟨hiff s, fun h => (hiff s).mpr (le_of_eq h.symm), ?_⟩
  intro s1 hN1 hn1 hq
  have hpos : (0 : α) < (s.skeleton.getNumKeyPoints : α) := by exact_mod_cast hN
  have hlt : (s1.skeleton.numUpdated : α) / (s1.skeleton.getNumKeyPoints : α) <
      r.keys_recognition_percentage := by
    rw [← hq, hN1]
    apply div_lt_div_of_pos_right _ hpos
    rw [← hn1]
    push_cast
    linarith
  cases hv : r.isValid s1 with
  | false => rfl
  | true => exact absurd ((hiff s1).mp hv) (not_le.mpr hlt)

/-- C7 at the percentage 2/15: a candidate with 2 of 15 slots updated is
admitted, one with 1 of 15 is rejected. -/
theorem isValid_admission_witness :
    0 < sampleSeen.skeleton.getNumKeyPoints ∧
    (sampleSeen.skeleton.numUpdated : ℚ) / (sampleSeen.skeleton.getNumKeyPoints : ℚ) =
      sampleAdmission.keys_recognition_percentage ∧
    sampleAdmission.isValid sampleSeen = true ∧
    sampleAdmission.isValid sampleMissed = false :=
  have hN : 0 < sampleSeen.skeleton.getNumKeyPoints := by decide
  have hn : sampleSeen.skeleton.numUpdated = 2 := by decide
  have hl : sampleSeen.skeleton.getNumKeyPoints = 15 := by decide
  have hq : (sampleSeen.skeleton.numUpdated : ℚ) / (sampleSeen.skeleton.getNumKeyPoints : ℚ) =
      sampleAdmission.keys_recognition_percentage := by
    rw [hn, hl]; norm_num [sampleAdmission]
  ⟨hN, hq, (isValid_admission sampleAdmission sampleSeen hN).2.1 hq,
    (isValid_admission sampleAdmission sampleSeen hN).2.2 sampleMissed (by decide) (by decide)
      hq⟩

end Admission

section CreateLemmas
variable {α : Type} [LinearOrderedField α] [FloorRing α]

theorem Retriever.createStep_mem (r : Retriever α)
    (acc : List (Option KeyPointTag × Vector3 α) × List (Vector3 α)) (key : Value α)
    (e : Option KeyPointTag × Vector3 α) (he : e ∈ (r.createStep acc key).1) :
    e ∈ acc.1 ∨ ∃ (k0 k1 k2 k3 : Value α) (rest : List (Value α)),
      key.asList = some (k0 :: k1 :: k2 :: k3 :: rest) ∧ e.1 = keysRemap k0.asString ∧
      k3.asDouble ≥ r.keys_recognition_confidence := by
  unfold Retriever.createStep at he
  split at he
  · rename_i k0 k1 k2 k3 rest hkey
    dsimp only at he
    split_ifs at he with hc hh
    · split at he
      · rename_i p hp
        rcases List.mem_append.mp he with h | h
        · exact Or.inl h
        · right
          refine ⟨k0, k1, k2, k3, rest, hkey, ?_, hc⟩
          rw [List.mem_singleton.mp h]
      · exact Or.inl he
    · split at he
      · rename_i p hp
        rcases List.mem_append.mp he with h | h
        · exact Or.inl h
        · right
          refine ⟨k0, k1, k2, k3, rest, hkey, ?_, hc⟩
          rw [List.mem_singleton.mp h]
      · exact Or.inl he
    · exact Or.inl he
  · exact Or.inl he

theorem Retriever.createStep_fold_mem (r : Retriever α) (keys : List (Value α)) :
    ∀ (acc : List (Option KeyPointTag × Vector3 α) × List (Vector3 α))
      (e : Option KeyPointTag × Vector3 α), e ∈ (keys.foldl r.createStep acc).1 →
      e ∈ acc.1 ∨ ∃ key ∈ keys, ∃ (k0 k1 k2 k3 : Value α) (rest : List (Value α)),
        key.asList = some (k0 :: k1 :: k2 :: k3 :: rest) ∧ e.1 = keysRemap k0.asString ∧
        k3.asDouble ≥ r.keys_recognition_confidence := by
  induction keys with
  | nil => intro acc e he; exact Or.inl he
  | cons key keys ih =>
    intro acc e he
    rw [List.foldl_cons] at he
    rcases ih _ e he with h | ⟨key1, hk1, h⟩
    · rcases Retriever.createStep_mem r acc key e h with h1 | h1
      · exact Or.inl h1
      · exact Or.inr ⟨key, List.mem_cons_self _ _, h1⟩
    · exact Or.inr ⟨key1, List.mem_cons_of_mem _ hk1, h⟩

/-- No pair of the list handed to the skeleton carries a tag whose detections
are all below the confidence threshold. -/
theorem Retriever.createUnordered_below (r : Retriever α) (keys : List (Value α))
    (w : KeyPointTag) (hw : w ≠ .hip_center) (hlow : r.confidenceBelow w keys) :
    ∀ e ∈ r.createUnordered keys, e.1 ≠ some w := by
  have hacc : ∀ e ∈ (keys.foldl r.createStep ([], [])).1, e.1 ≠ some w := by
    intro e he hew
    rcases Retriever.createStep_fold_mem r keys _ e he with h | ⟨key, hkey, k0, k1, k2, k3, rest,
      hl, htag, hc⟩
    · cases h
    · have := hlow key hkey k0 k1 k2 k3 rest hl (htag ▸ hew)
      exact absurd hc (not_le.mpr this)
  intro e he
  unfold Retriever.createUnordered at he
  dsimp only at he
  split at he
  · rcases List.mem_append.mp he with h | h
    · exact hacc e h
    · rw [List.mem_singleton.mp h]
      intro hh
      exact hw (Option.some.inj hh).symm
  · exact hacc e he

theorem Retriever.create_keypoints (r : Retriever α) (keys : List (Value α)) :
    (r.create keys).skeleton.keypoints =
      (SkeletonWaist α).keypoints.map (KeyPoint.refresh (r.createUnordered keys)) := by
  unfold Retriever.create
  dsimp only
  rw [(Retriever.updatePlanes_frame r _).1, Skeleton.update_keypoints]
  rfl

theorem Retriever.create_tags (r : Retriever α) (keys : List (Value α)) :
    (r.create keys).skeleton.tags = KeyPointTag.all := by
  unfold Skeleton.tags
  rw [Retriever.create_keypoints, List.map_map]
  simp [Function.comp_def, KeyPoint.refresh_tag, SkeletonWaist]

/-- A slot whose detections are all below the confidence threshold is not
fresh in the candidate. -/
theorem Retriever.create_not_fresh (r : Retriever α) (keys : List (Value α))
    (w : KeyPointTag) (hw : w ≠ .hip_center) (hlow : r.confidenceBelow w keys) (k : Nat)
    (hk : KeyPointTag.all[k]? = some w) :
    isUpdated ((r.create keys).skeleton.atIndex k) = false := by
  unfold Skeleton.atIndex
  rw [Retriever.create_keypoints, List.getElem?_map]
  have hk2 : (SkeletonWaist α).keypoints[k]? =
      some { tag := w, updated := false, point := Vector3.zero } := by
    simp only [SkeletonWaist, List.getElem?_map, hk, Option.map_some']
  rw [hk2, Option.map_some', KeyPoint.refresh_none _ _
    (fun e he => Retriever.createUnordered_below r keys w hw hlow e he)]
  rfl

end CreateLemmas

section CreateRunLemmas
variable {α : Type} [LinearOrderedField α] [FloorRing α]

/-- A run of matched updates whose candidates `create` assembles from frames in
which every detection of the tag `w` is below the confidence threshold, after a
matched update in which `w` was fresh. -/
theorem Retriever.create_miss_run (r : Retriever α) (b : Nat)
    (hK : r.keys_acceptable_misses = (b : Int)) (w : KeyPointTag) (hw : w ≠ .hip_center)
    (track : MetaSkeleton α) (htags : track.skeleton.tags = KeyPointTag.all)
    (hbudget : track.keys_acceptable_misses.length = track.skeleton.getNumKeyPoints)
    (f0 : List (Value α)) (frames : List (List (Value α))) (k : Nat) (p : Vector3 α)
    (hseen : (r.create f0).skeleton.atIndex k = some { tag := w, updated := true, point := p })
    (hlow : ∀ f ∈ frames, r.confidenceBelow w f) :
    (frames.length ≤ b →
      (frames.foldl (fun d f => r.update (r.create f) d)
        (r.update (r.create f0) track)).skeleton.atIndex k =
        some { tag := w, updated := true, point := p }) ∧
    (frames.length = b + 1 →
      isUpdated ((frames.foldl (fun d f => r.update (r.create f) d)
        (r.update (r.create f0) track)).skeleton.atIndex k) = false) := by
  have hnodup : track.skeleton.tags.Nodup := by rw [htags]; decide
  have hsrc : (r.create f0).skeleton.tags = track.skeleton.tags := by
    rw [Retriever.create_tags, htags]
  have hkall : KeyPointTag.all[k]? = some w := by
    rw [← Retriever.create_tags r f0, Skeleton.tags_get?]
    unfold Skeleton.atIndex at hseen
    rw [hseen]; rfl
  have hkN : k < track.skeleton.getNumKeyPoints := by
    have h1 := Skeleton.atIndex_lt _ k _ hseen
    have h2 := congrArg List.length hsrc
    simp only [Skeleton.tags, List.length_map] at h2
    unfold Skeleton.getNumKeyPoints at h1 ⊢
    omega
  obtain ⟨kd, hkd⟩ : ∃ kd, track.skeleton.atIndex k = some kd :=
    ⟨track.skeleton.keypoints[k], by
      unfold Skeleton.atIndex; exact List.getElem?_eq_getElem hkN⟩
  have htag : kd.tag = w := by
    have := Skeleton.same_tags_get? (r.create f0).skeleton track.skeleton hsrc k
    unfold Skeleton.atIndex at hseen hkd
    rw [hseen, hkd] at this
    simpa using this.symm
  have hlen : k < track.keys_acceptable_misses.length := by rw [hbudget]; exact hkN
  have h0 := Retriever.update_fresh r (r.create f0) track k kd _ hnodup hsrc hkd hlen hseen rfl
  rw [htag] at h0
  have hrun := Retriever.update_miss_run r track.skeleton.tags k w p hnodup
    (frames.map r.create) b (r.update (r.create f0) track)
    (Retriever.update_merge_tags r _ track) h0.1
    (by rw [(Retriever.update_misses r _ track).1]; exact hlen)
    (by rw [h0.2, hK])
    (by
      intro m hm
      obtain ⟨f, hf, rfl⟩ := List.mem_map.mp hm
      exact ⟨by rw [Retriever.create_tags, htags],
        Retriever.create_not_fresh r f w hw (hlow f hf) k hkall⟩)
  rw [List.foldl_map, List.length_map] at hrun
  exact hrun

end CreateRunLemmas

/-! ## The updated flag and the wrist scenario -/

section UpdatedFlag
variable {α : Type} [LinearOrderedField α]

/-- C8, as amended: after `update(src,dest)` a slot of the track is flagged
updated iff the candidate had it fresh or the track had miss budget left for
it; a slot carried over through the miss budget keeps its point and is flagged
updated. -/
theorem update_updated_flag (r : Retriever α) (src dest : MetaSkeleton α) (i : Nat)
    (kd : KeyPoint α) (hnodup : dest.skeleton.tags.Nodup)
    (htags : src.skeleton.tags = dest.skeleton.tags)
    (hbudget : dest.keys_acceptable_misses.length = dest.skeleton.getNumKeyPoints)
    (hi : dest.skeleton.atIndex i = some kd) :
    (isUpdated ((r.update src dest).skeleton.atIndex i) = true ↔
      (isUpdated (src.skeleton.atIndex i) = true ∨
        0 < dest.keys_acceptable_misses.getD i 0)) ∧
    (isUpdated (src.skeleton.atIndex i) = false → 0 < dest.keys_acceptable_misses.getD i 0 →
      (r.update src dest).skeleton.atIndex i = some { kd with updated := true }) := by
  have hlen : i < dest.keys_acceptable_misses.length := by
    rw [hbudget]; exact Skeleton.atIndex_lt _ i kd hi
  cases hs : isUpdated (src.skeleton.atIndex i) with
  | true =>
    have hN : i < src.skeleton.getNumKeyPoints := by
      have h1 := Skeleton.atIndex_lt _ i kd hi
      have h2 := congrArg List.length htags
      simp only [Skeleton.tags, List.length_map] at h2
      unfold Skeleton.getNumKeyPoints at h1 ⊢
      omega
    obtain ⟨ks, hks⟩ : ∃ ks, src.skeleton.atIndex i = some ks :=
      ⟨src.skeleton.keypoints[i], by
        unfold Skeleton.atIndex; exact List.getElem?_eq_getElem hN⟩
    have hf : ks.updated = true := by rw [hks] at hs; exact hs
    have h := Retriever.update_fresh r src dest i kd ks hnodup htags hi hlen hks hf
    refine ⟨⟨fun _ => Or.inl rfl, fun _ => by rw [h.1]; rfl⟩, fun hh => by cases hh⟩
  | false =>
    have h := Retriever.update_missed r src dest i kd hnodup htags hi hlen hs
    by_cases hb : 0 < dest.keys_acceptable_misses.getD i 0
    · have h1 := (h.1 hb).1
      refine ⟨⟨fun _ => Or.inr hb, fun _ => by rw [h1]; rfl⟩, fun _ _ => h1⟩
    · have h1 := (h.2 (not_lt.mp hb)).1
      refine ⟨⟨fun hh => ?_, fun hh => ?_⟩, fun _ hh => absurd hh hb⟩
      · rw [h1] at hh
        cases hh
      · rcases hh with hh | hh
        · cases hh
        · exact absurd hh hb

end UpdatedFlag

section UpdateSamples

theorem sample_createUnordered_seen :
    sampleRetriever.createUnordered sampleFrameSeen =
      [(some .hand_left, ⟨-1 / 2, -1 / 2, 2⟩), (some .head, ⟨1 / 2, 1 / 2, 2⟩)] := by
  simp +decide [Retriever.createUnordered, Retriever.createStep, sampleFrameSeen,
    sampleDetection, Value.asList, Value.asString, Value.asDouble, toInt, keysRemap,
    Retriever.getPoint3D, Retriever.focal, sampleRetriever, sampleDepth, Vector3.smul,
    Vector3.ones]
  norm_num

theorem sample_create_seen :
    (sampleRetriever.create sampleFrameSeen).skeleton.atIndex 4 =
      some { tag := .hand_left, updated := true, point := ⟨-1 / 2, -1 / 2, 2⟩ } := by
  unfold Skeleton.atIndex
  rw [Retriever.create_keypoints, sample_createUnordered_seen]
  rfl

theorem sample_confidenceBelow :
    sampleRetriever.confidenceBelow .hand_left sampleFrameLow := by
  intro key hkey k0 k1 k2 k3 rest hl htag
  simp only [sampleFrameLow, List.mem_cons, List.mem_singleton, List.not_mem_nil,
    or_false] at hkey
  rcases hkey with rfl | rfl
  · simp only [sampleDetection, Value.asList, Option.some.injEq, List.cons.injEq] at hl
    obtain ⟨_, _, _, h3, _⟩ := hl
    rw [← h3]
    norm_num [Value.asDouble, sampleRetriever]
  · simp only [sampleDetection, Value.asList, Option.some.injEq, List.cons.injEq] at hl
    obtain ⟨h0, _⟩ := hl
    rw [← h0] at htag
    exact absurd htag (by decide)

theorem sample_track_layout :
    sampleTrack.skeleton.tags = KeyPointTag.all ∧
    sampleTrack.keys_acceptable_misses.length = sampleTrack.skeleton.getNumKeyPoints := by
  decide

/-- C8 as stated fails: the left hand (slot 4) is not fresh in the candidate,
yet after `update` the track, which had miss budget left for it, has the slot
flagged updated. -/
theorem update_updated_flag_counterexample :
    isUpdated (sampleMissed.skeleton.atIndex 4) = false ∧
    (sampleRetriever.update sampleSeen sampleTrack).keys_acceptable_misses.getD 4 0 = 3 ∧
    isUpdated ((sampleRetriever.update sampleMissed
      (sampleRetriever.update sampleSeen sampleTrack)).skeleton.atIndex 4) = true := by
  decide

/-- C8, as amended, at the sample track after a matched update: the left hand
(slot 4) is missed and carried over. -/
theorem update_updated_flag_witness :
    ((sampleRetriever.update sampleSeen sampleTrack).skeleton.tags.Nodup ∧
     sampleMissed.skeleton.tags = (sampleRetriever.update sampleSeen sampleTrack).skeleton.tags ∧
     (sampleRetriever.update sampleSeen sampleTrack).keys_acceptable_misses.length =
       (sampleRetriever.update sampleSeen sampleTrack).skeleton.getNumKeyPoints ∧
     (sampleRetriever.update sampleSeen sampleTrack).skeleton.atIndex 4 =
       some ⟨.hand_left, true, ⟨1, 1, 2⟩⟩ ∧
     isUpdated (sampleMissed.skeleton.atIndex 4) = false ∧
     0 < (sampleRetriever.update sampleSeen sampleTrack).keys_acceptable_misses.getD 4 0) ∧
    (sampleRetriever.update sampleMissed
      (sampleRetriever.update sampleSeen sampleTrack)).skeleton.atIndex 4 =
      some ⟨.hand_left, true, ⟨1, 1, 2⟩⟩ :=
  have h1 : (sampleRetriever.update sampleSeen sampleTrack).skeleton.tags.Nodup := by decide
  have h2 : sampleMissed.skeleton.tags =
      (sampleRetriever.update sampleSeen sampleTrack).skeleton.tags := by decide
  have h3 : (sampleRetriever.update sampleSeen sampleTrack).keys_acceptable_misses.length =
      (sampleRetriever.update sampleSeen sampleTrack).skeleton.getNumKeyPoints := by decide
  have h4 : (sampleRetriever.update sampleSeen sampleTrack).skeleton.atIndex 4 =
      some ⟨.hand_left, true, ⟨1, 1, 2⟩⟩ := by rfl
  have h5 : isUpdated (sampleMissed.skeleton.atIndex 4) = false := by rfl
  have h6 : 0 < (sampleRetriever.update sampleSeen sampleTrack).keys_acceptable_misses.getD
      4 0 := by decide
  ⟨⟨h1, h2, h3, h4, h5, h6⟩,
    (update_updated_flag sampleRetriever sampleMissed
      (sampleRetriever.update sampleSeen sampleTrack) 4 _ h1 h2 h3 h4).2 h5 h6⟩

end UpdateSamples

section WristScenario
variable {α : Type} [LinearOrderedField α] [FloorRing α]

/-- C9, as amended: with miss budget 3, after a matched update in which the
wrist was fresh, matched updates from frames in which every wrist detection is
below the confidence threshold leave the track with the stale wrist position
after the 1st, 2nd and 3rd consecutive miss, and with the wrist slot absent
after the 4th. -/
theorem wrist_scenario (r : Retriever α) (w : KeyPointTag)
    (track : MetaSkeleton α) (f0 : List (Value α)) (frames : List (List (Value α)))
    (k : Nat) (p : Vector3 α)
    (hK : r.keys_acceptable_misses = 3) (hw : w = .hand_left ∨ w = .hand_right)
    (htags : track.skeleton.tags = KeyPointTag.all)
    (hbudget : track.keys_acceptable_misses.length = track.skeleton.getNumKeyPoints)
    (hseen : (r.create f0).skeleton.atIndex k = some { tag := w, updated := true, point := p })
    (hlow : ∀ f ∈ frames, r.confidenceBelow w f) :
    (frames.length ≤ 3 →
      (frames.foldl (fun d f => r.update (r.create f) d)
        (r.update (r.create f0) track)).skeleton.atIndex k =
        some { tag := w, updated := true, point := p }) ∧
    (frames.length = 4 →
      isUpdated ((frames.foldl (fun d f => r.update (r.create f) d)
        (r.update (r.create f0) track)).skeleton.atIndex k) = false) := by
  have hwc : w ≠ .hip_center := by
    rcases hw with rfl | rfl <;> decide
  exact Retriever.create_miss_run r 3 (by rw [hK]; rfl) w hwc track htags hbudget f0 frames k p
    hseen hlow

end WristScenario

section WristSamples

/-- C9 as stated fails: with miss budget 3, after the third consecutive frame
with the wrist confidence below the threshold the track still reports the
stale wrist position. -/
theorem wrist_scenario_counterexample :
    sampleRetriever.keys_acceptable_misses = 3 ∧
    (sampleRetriever.create sampleFrameSeen).skeleton.atIndex 4 =
      some { tag := .hand_left, updated := true, point := ⟨-1 / 2, -1 / 2, 2⟩ } ∧
    sampleRetriever.confidenceBelow .hand_left sampleFrameLow ∧
    ([sampleFrameLow, sampleFrameLow, sampleFrameLow].foldl
      (fun d f => sampleRetriever.update (sampleRetriever.create f) d)
      (sampleRetriever.update (sampleRetriever.create sampleFrameSeen)
        sampleTrack)).skeleton.atIndex 4 =
      some { tag := .hand_left, updated := true, point := ⟨-1 / 2, -1 / 2, 2⟩ } :=
  ⟨rfl, sample_create_seen, sample_confidenceBelow,
    (Retriever.create_miss_run sampleRetriever 3 rfl .hand_left (by decide) sampleTrack
      sample_track_layout.1 sample_track_layout.2 sampleFrameSeen
      [sampleFrameLow, sampleFrameLow, sampleFrameLow] 4 ⟨-1 / 2, -1 / 2, 2⟩
      sample_create_seen
      (fun f hf => by
        simp only [List.mem_cons, List.mem_singleton, List.not_mem_nil, or_false,
          or_self] at hf
        rw [hf]; exact sample_confidenceBelow)).1 (by decide)⟩

/-- C9, as amended, at the sample frames: four consecutive frames with the
wrist confidence below the threshold. -/
theorem wrist_scenario_witness :
    (sampleRetriever.keys_acceptable_misses = 3 ∧
     sampleTrack.skeleton.tags = KeyPointTag.all ∧
     sampleTrack.keys_acceptable_misses.length = sampleTrack.skeleton.getNumKeyPoints ∧
     (sampleRetriever.create sampleFrameSeen).skeleton.atIndex 4 =
       some { tag := .hand_left, updated := true, point := ⟨-1 / 2, -1 / 2, 2⟩ } ∧
     (∀ f ∈ [sampleFrameLow, sampleFrameLow, sampleFrameLow, sampleFrameLow],
       sampleRetriever.confidenceBelow .hand_left f)) ∧
    isUpdated (([sampleFrameLow, sampleFrameLow, sampleFrameLow, sampleFrameLow].foldl
      (fun d f => sampleRetriever.update (sampleRetriever.create f) d)
      (sampleRetriever.update (sampleRetriever.create sampleFrameSeen)
        sampleTrack)).skeleton.atIndex 4) = false :=
  have hlow : ∀ f ∈ [sampleFrameLow, sampleFrameLow, sampleFrameLow, sampleFrameLow],
      sampleRetriever.confidenceBelow .hand_left f := by
    intro f hf
    simp only [List.mem_cons, List.mem_singleton, List.not_mem_nil, or_false, or_self] at hf
    rw [hf]; exact sample_confidenceBelow
  ⟨⟨rfl, sample_track_layout.1, sample_track_layout.2, sample_create_seen, hlow⟩,
    (wrist_scenario sampleRetriever .hand_left sampleTrack sampleFrameSeen
      [sampleFrameLow, sampleFrameLow, sampleFrameLow, sampleFrameLow] 4 ⟨-1 / 2, -1 / 2, 2⟩
      rfl (Or.inl rfl) sample_track_layout.1 sample_track_layout.2 sample_create_seen hlow).2
      rfl⟩

end WristSamples

section PlaneLemmas
variable {α : Type} [LinearOrderedField α]

/-- The sagittal and transverse planes after `updatePlanes`. -/
theorem Retriever.updatePlanes_planes (r : Retriever α) (s : MetaSkeleton α) :
    (r.updatePlanes s).skeleton.sagittal =
      (if isUpdated (s.skeleton.atTag .shoulder_left) &&
          isUpdated (s.skeleton.atTag .shoulder_right) then
        if r.norm (Vector3.sub (getPoint (s.skeleton.atTag .shoulder_left))
            (getPoint (s.skeleton.atTag .shoulder_right))) > 0 then
          Vector3.sdiv (Vector3.sub (getPoint (s.skeleton.atTag .shoulder_left))
              (getPoint (s.skeleton.atTag .shoulder_right)))
            (r.norm (Vector3.sub (getPoint (s.skeleton.atTag .shoulder_left))
              (getPoint (s.skeleton.atTag .shoulder_right))))
        else s.skeleton.sagittal
      else s.skeleton.sagittal) ∧
    (r.updatePlanes s).skeleton.transverse =
      (if isUpdated (s.skeleton.atTag .shoulder_center) &&
          isUpdated (s.skeleton.atTag .hip_center) then
        if r.norm (Vector3.sub (getPoint (s.skeleton.atTag .shoulder_center))
            (getPoint (s.skeleton.atTag .hip_center))) > 0 then
          Vector3.sdiv (Vector3.sub (getPoint (s.skeleton.atTag .shoulder_center))
              (getPoint (s.skeleton.atTag .hip_center)))
            (r.norm (Vector3.sub (getPoint (s.skeleton.atTag .shoulder_center))
              (getPoint (s.skeleton.atTag .hip_center))))
        else s.skeleton.transverse
      else s.skeleton.transverse) := by
  unfold Retriever.updatePlanes
  simp only [Skeleton.atTag]
  constructor <;> split_ifs <;> rfl

end PlaneLemmas

/-! ## Planes -/

section Planes
variable {α : Type} [LinearOrderedField α]

/-- C10: `updatePlanes` leaves the sagittal plane unchanged unless
`shoulder_left` and `shoulder_right` are both flagged updated and the norm of
their difference is positive, leaves the transverse plane unchanged unless
`shoulder_center` and `hip_center` are both flagged updated and the norm of
their difference is positive, and in every case sets the coronal plane to the
cross product of the resulting sagittal and transverse planes. -/
theorem updatePlanes_stability (r : Retriever α) (s : MetaSkeleton α) :
    (¬ (isUpdated (s.skeleton.atTag .shoulder_left) = true ∧
        isUpdated (s.skeleton.atTag .shoulder_right) = true ∧
        0 < r.norm (Vector3.sub (getPoint (s.skeleton.atTag .shoulder_left))
          (getPoint (s.skeleton.atTag .shoulder_right)))) →
      (r.updatePlanes s).skeleton.sagittal = s.skeleton.sagittal) ∧
    (¬ (isUpdated (s.skeleton.atTag .shoulder_center) = true ∧
        isUpdated (s.skeleton.atTag .hip_center) = true ∧
        0 < r.norm (Vector3.sub (getPoint (s.skeleton.atTag .shoulder_center))
          (getPoint (s.skeleton.atTag .hip_center)))) →
      (r.updatePlanes s).skeleton.transverse = s.skeleton.transverse) ∧
    (r.updatePlanes s).skeleton.coronal =
      Vector3.cross (r.updatePlanes s).skeleton.sagittal
        (r.updatePlanes s).skeleton.transverse := by
  refine ⟨?_, ?_, ?_⟩
  · intro h
    rw [(Retriever.updatePlanes_planes r s).1]
    by_cases h1 : (isUpdated (s.skeleton.atTag .shoulder_left) &&
        isUpdated (s.skeleton.atTag .shoulder_right)) = true
    · rw [if_pos h1, if_neg]
      intro hn
      rw [Bool.and_eq_true] at h1
      exact h ⟨h1.1, h1.2, hn⟩
    · rw [if_neg h1]
  · intro h
    rw [(Retriever.updatePlanes_planes r s).2]
    by_cases h1 : (isUpdated (s.skeleton.atTag .shoulder_center) &&
        isUpdated (s.skeleton.atTag .hip_center)) = true
    · rw [if_pos h1, if_neg]
      intro hn
      rw [Bool.and_eq_true] at h1
      exact h ⟨h1.1, h1.2, hn⟩
    · rw [if_neg h1]
  · unfold Retriever.updatePlanes
    rfl

/-- C10 at a track with given planes whose shoulders and hip centre are not
updated: sagittal and transverse stay, coronal is their cross product. -/
theorem updatePlanes_stability_witness :
    (¬ (isUpdated (samplePlanes.skeleton.atTag .shoulder_left) = true ∧
        isUpdated (samplePlanes.skeleton.atTag .shoulder_right) = true ∧
        0 < sampleRetriever.norm
          (Vector3.sub (getPoint (samplePlanes.skeleton.atTag .shoulder_left))
            (getPoint (samplePlanes.skeleton.atTag .shoulder_right)))) ∧
     ¬ (isUpdated (samplePlanes.skeleton.atTag .shoulder_center) = true ∧
        isUpdated (samplePlanes.skeleton.atTag .hip_center) = true ∧
        0 < sampleRetriever.norm
          (Vector3.sub (getPoint (samplePlanes.skeleton.atTag .shoulder_center))
            (getPoint (samplePlanes.skeleton.atTag .hip_center))))) ∧
    (sampleRetriever.updatePlanes samplePlanes).skeleton.sagittal = ⟨1, 0, 0⟩ ∧
    (sampleRetriever.updatePlanes samplePlanes).skeleton.transverse = ⟨0, 1, 0⟩ ∧
    (sampleRetriever.updatePlanes samplePlanes).skeleton.coronal =
      Vector3.cross ⟨1, 0, 0⟩ ⟨0, 1, 0⟩ :=
  have h1 : ¬ (isUpdated (samplePlanes.skeleton.atTag .shoulder_left) = true ∧
      isUpdated (samplePlanes.skeleton.atTag .shoulder_right) = true ∧
      0 < sampleRetriever.norm
        (Vector3.sub (getPoint (samplePlanes.skeleton.atTag .shoulder_left))
          (getPoint (samplePlanes.skeleton.atTag .shoulder_right)))) :=
    fun h => absurd h.1 (by decide)
  have h2 : ¬ (isUpdated (samplePlanes.skeleton.atTag .shoulder_center) = true ∧
      isUpdated (samplePlanes.skeleton.atTag .hip_center) = true ∧
      0 < sampleRetriever.norm
        (Vector3.sub (getPoint (samplePlanes.skeleton.atTag .shoulder_center))
          (getPoint (samplePlanes.skeleton.atTag .hip_center)))) :=
    fun h => absurd h.1 (by decide)
  have hs := (updatePlanes_stability sampleRetriever samplePlanes).1 h1
  have ht := (updatePlanes_stability sampleRetriever samplePlanes).2.1 h2
  have hc := (updatePlanes_stability sampleRetriever samplePlanes).2.2
  ⟨⟨h1, h2⟩, hs, ht, by rw [hc, hs, ht]; rfl⟩

end Planes

section CycleLemmas
variable {α : Type} [LinearOrderedField α]

theorem Retriever.update_opc_id (r : Retriever α) (src dest : MetaSkeleton α) :
    (r.update src dest).opc_id = dest.opc_id := by
  unfold Retriever.update
  dsimp only
  rw [(Retriever.updatePlanes_frame r _).2.2.1]

/-- The survivors and the delete requests of one sweep. -/
theorem Retriever.gc_eq (r : Retriever α) (l : List (MetaSkeleton α)) :
    (r.gc l).1 = (l.map (fun s => { s with timer := r.fl (s.timer - r.period) })).filter
      (fun s => decide (s.timer > 0)) ∧
    (r.gc l).2 = ((l.map (fun s => { s with timer := r.fl (s.timer - r.period) })).filter
      (fun s => !decide (s.timer > 0))).map (fun s => s.opc_id) := by
  induction l with
  | nil => simp [Retriever.gc]
  | cons s l ih =>
    simp only [Retriever.gc, List.map_cons]
    by_cases h : r.fl (s.timer - r.period) > 0
    · rw [if_pos h]
      simp [List.filter_cons, h, ih.1, ih.2]
    · rw [if_neg h]
      simp [List.filter_cons, h, ih.1, ih.2]

end CycleLemmas

section LifetimeLemmas
variable {α : Type} [LinearOrderedField α]

theorem Retriever.Lifetime.opc_id_eq (r : Retriever α) (a b : MetaSkeleton α)
    (h : r.Lifetime a b) : b.opc_id = a.opc_id := by
  induction h with
  | start => rfl
  | matched b src _ ih => rw [Retriever.update_opc_id, ih]
  | swept b _ ih => exact ih

end LifetimeLemmas

section HandleLemmas
variable {α : Type} [LinearOrderedField α] [FloorRing α]

theorem Retriever.create_state (r : Retriever α) (keys : List (Value α)) :
    (r.create keys).keys_acceptable_misses =
      List.replicate (r.create keys).skeleton.getNumKeyPoints 0 ∧
    (r.create keys).timer = r.time_to_live ∧
    (r.create keys).opc_id = -1 ∧
    (r.create keys).skeleton.getNumKeyPoints = 15 := by
  have hN : (r.create keys).skeleton.getNumKeyPoints = 15 := by
    unfold Skeleton.getNumKeyPoints
    rw [Retriever.create_keypoints]
    simp [SkeletonWaist, KeyPointTag.all]
  refine ⟨?_, ?_, ?_, hN⟩
  · rw [hN]
    unfold Retriever.create
    dsimp only
    rw [(Retriever.updatePlanes_frame r _).2.2.2]
    rfl
  · unfold Retriever.create
    dsimp only
    rw [(Retriever.updatePlanes_frame r _).2.1]
    rfl
  · unfold Retriever.create
    dsimp only
    rw [(Retriever.updatePlanes_frame r _).2.2.1]
    rfl

/-- What `handle` does, outcome by outcome. -/
theorem Retriever.handle_cases (r : Retriever α) (skeletons : List (MetaSkeleton α))
    (b3 : Value α) (reply : Option Int) :
    (∃ keys i s1, b3.asList = some keys ∧ r.isTracked skeletons (r.create keys) = some i ∧
      skeletons[i]? = some s1 ∧
      r.handle skeletons b3 reply =
        (skeletons.set i (r.update (r.create keys) s1), .tracked i)) ∨
    (∃ keys, b3.asList = some keys ∧ r.isTracked skeletons (r.create keys) = none ∧
      r.isValid (r.create keys) = true ∧
      r.handle skeletons b3 reply =
        (skeletons ++ [r.opcAdd (r.create keys) reply], .admitted)) ∨
    (r.handle skeletons b3 reply = (skeletons, .rejected)) ∨
    (r.handle skeletons b3 reply = (skeletons, .skipped)) := by
  unfold Retriever.handle
  by_cases hd : r.depth.width > 0 ∧ r.depth.height > 0
  · rw [if_pos hd]
    cases hb : b3.asList with
    | none => exact Or.inr (Or.inr (Or.inr rfl))
    | some keys =>
      dsimp only
      cases ht : r.isTracked skeletons (r.create keys) with
      | some i =>
        obtain ⟨t, hti, _⟩ := (Retriever.isTracked_spec r skeletons (r.create keys)).2 i ht
        left
        refine ⟨keys, i, t, rfl, ht, hti, ?_⟩
        simp only [hti]
      | none =>
        dsimp only
        by_cases hv : r.isValid (r.create keys) = true
        · rw [if_pos hv]
          exact Or.inr (Or.inl ⟨keys, rfl, ht, hv, rfl⟩)
        · rw [if_neg hv]
          exact Or.inr (Or.inr (Or.inl rfl))
  · rw [if_neg hd]
    exact Or.inr (Or.inr (Or.inr rfl))

end HandleLemmas

/-! ## Registry identity, one-step update and fresh tracks -/

section Identity
variable {α : Type} [LinearOrderedField α]

/-- C11: a matched update keeps the registry identifier of the track; every
track that survives a sweep of `gc` is a track of the live set with its timer
decremented and nothing else changed; and whatever matched updates and
survived sweeps a track went through, the identifier handed to `opcDel` when
`gc` evicts it is the one it started with. -/
theorem registry_identity (r : Retriever α) :
    (∀ src dest : MetaSkeleton α, (r.update src dest).opc_id = dest.opc_id) ∧
    (∀ (l : List (MetaSkeleton α)) (s : MetaSkeleton α), s ∈ (r.gc l).1 →
      ∃ s0 ∈ l, s = { s0 with timer := r.fl (s0.timer - r.period) } ∧
        s.opc_id = s0.opc_id) ∧
    (∀ a b : MetaSkeleton α, r.Lifetime a b → b.opc_id = a.opc_id ∧
      ∀ pre post : List (MetaSkeleton α), ¬ (r.fl (b.timer - r.period) > 0) →
        (r.gc (pre ++ b :: post)).1 = (r.gc pre).1 ++ (r.gc post).1 ∧
        (r.gc (pre ++ b :: post)).2 = (r.gc pre).2 ++ a.opc_id :: (r.gc post).2) := by
  refine ⟨Retriever.update_opc_id r, ?_, ?_⟩
  · intro l s hs
    rw [(Retriever.gc_eq r l).1] at hs
    obtain ⟨hs1, _⟩ := List.mem_filter.mp hs
    obtain ⟨s0, hs0, rfl⟩ := List.mem_map.mp hs1
    exact ⟨s0, hs0, rfl, rfl⟩
  · intro a b hab
    have hid := Retriever.Lifetime.opc_id_eq r a b hab
    refine ⟨hid, ?_⟩
    intro pre post hdead
    rw [Retriever.gc_append]
    have hgc : r.gc (b :: post) = ((r.gc post).1, b.opc_id :: (r.gc post).2) := by
      simp only [Retriever.gc]
      rw [if_neg hdead]
    rw [hgc, hid]
    exact ⟨rfl, rfl⟩

/-- C11 at the sample track with a period of 0.3: after a matched update and a
survived sweep the next sweep evicts it under its identifier 7. -/
theorem registry_identity_witness :
    (sampleSlow.Lifetime sampleTrack
        { sampleSlow.update sampleSeen sampleTrack with
          timer := sampleSlow.fl
            ((sampleSlow.update sampleSeen sampleTrack).timer - sampleSlow.period) } ∧
     ¬ (sampleSlow.fl (({ sampleSlow.update sampleSeen sampleTrack with
          timer := sampleSlow.fl
            ((sampleSlow.update sampleSeen sampleTrack).timer - sampleSlow.period) } :
          MetaSkeleton ℚ).timer - sampleSlow.period) > 0)) ∧
    (sampleSlow.gc ([sampleTrackB] ++
        { sampleSlow.update sampleSeen sampleTrack with
          timer := sampleSlow.fl
            ((sampleSlow.update sampleSeen sampleTrack).timer - sampleSlow.period) } ::
        [])).2 = (sampleSlow.gc [sampleTrackB]).2 ++ sampleTrack.opc_id :: (sampleSlow.gc []).2 :=
  have h1 : sampleSlow.Lifetime sampleTrack
      { sampleSlow.update sampleSeen sampleTrack with
        timer := sampleSlow.fl
          ((sampleSlow.update sampleSeen sampleTrack).timer - sampleSlow.period) } :=
    Retriever.Lifetime.swept _ _
      (Retriever.Lifetime.matched _ _ sampleSeen (Retriever.Lifetime.start _))
  have h2 : ¬ (sampleSlow.fl (({ sampleSlow.update sampleSeen sampleTrack with
        timer := sampleSlow.fl
          ((sampleSlow.update sampleSeen sampleTrack).timer - sampleSlow.period) } :
        MetaSkeleton ℚ).timer - sampleSlow.period) > 0) := by
    norm_num [Retriever.update_timer, sampleSlow, sampleRetriever]
  ⟨⟨h1, h2⟩, (((registry_identity sampleSlow).2.2 _ _ h1).2 [sampleTrackB] [] h2).2⟩

/-- C13: one step of `update`, slot by slot: a fresh slot of the candidate
puts the candidate's point into the track and sets the budget to `K`; a slot
that is not fresh keeps the track's point and costs one unit of budget while
budget is left; with no budget left the slot is not supplied (it loses its
flag) and the budget stays; and the timer becomes `T`. -/
theorem update_one_step (r : Retriever α) (src dest : MetaSkeleton α) (i : Nat)
    (kd : KeyPoint α) (hnodup : dest.skeleton.tags.Nodup)
    (htags : src.skeleton.tags = dest.skeleton.tags)
    (hbudget : dest.keys_acceptable_misses.length = dest.skeleton.getNumKeyPoints)
    (hi : dest.skeleton.atIndex i = some kd) :
    (∀ ks : KeyPoint α, src.skeleton.atIndex i = some ks → ks.updated = true →
      (r.update src dest).skeleton.atIndex i =
        some { tag := kd.tag, updated := true, point := ks.point } ∧
      (r.update src dest).keys_acceptable_misses.getD i 0 = r.keys_acceptable_misses) ∧
    (isUpdated (src.skeleton.atIndex i) = false → 0 < dest.keys_acceptable_misses.getD i 0 →
      (r.update src dest).skeleton.atIndex i =
        some { tag := kd.tag, updated := true, point := kd.point } ∧
      (r.update src dest).keys_acceptable_misses.getD i 0 =
        dest.keys_acceptable_misses.getD i 0 - 1) ∧
    (isUpdated (src.skeleton.atIndex i) = false → dest.keys_acceptable_misses.getD i 0 ≤ 0 →
      r.updateEntry src dest i = none ∧
      (r.update src dest).skeleton.atIndex i = some { kd with updated := false } ∧
      (r.update src dest).keys_acceptable_misses.getD i 0 =
        dest.keys_acceptable_misses.getD i 0) ∧
    (r.update src dest).timer = r.time_to_live := by
  have hlen : i < dest.keys_acceptable_misses.length := by
    rw [hbudget]; exact Skeleton.atIndex_lt _ i kd hi
  refine ⟨?_, ?_, ?_, rfl⟩
  · intro ks hks hf
    exact Retriever.update_fresh r src dest i kd ks hnodup htags hi hlen hks hf
  · intro hs hb
    exact (Retriever.update_missed r src dest i kd hnodup htags hi hlen hs).1 hb
  · intro hs hb
    have h := (Retriever.update_missed r src dest i kd hnodup htags hi hlen hs).2 hb
    refine ⟨?_, h.1, h.2⟩
    unfold Retriever.updateEntry
    dsimp only
    rw [if_neg (by rw [hs]; simp), if_neg (not_lt.mpr hb)]

/-- C13 at the sample track: the left hand (slot 4) fresh in the candidate. -/
theorem update_one_step_witness :
    (sampleTrack.skeleton.tags.Nodup ∧
     sampleSeen.skeleton.tags = sampleTrack.skeleton.tags ∧
     sampleTrack.keys_acceptable_misses.length = sampleTrack.skeleton.getNumKeyPoints ∧
     sampleTrack.skeleton.atIndex 4 = some ⟨.hand_left, true, ⟨1, 0, 2⟩⟩ ∧
     sampleSeen.skeleton.atIndex 4 = some ⟨.hand_left, true, ⟨1, 1, 2⟩⟩) ∧
    (sampleRetriever.update sampleSeen sampleTrack).skeleton.atIndex 4 =
      some ⟨.hand_left, true, ⟨1, 1, 2⟩⟩ ∧
    (sampleRetriever.update sampleSeen sampleTrack).keys_acceptable_misses.getD 4 0 =
      sampleRetriever.keys_acceptable_misses ∧
    (sampleRetriever.update sampleSeen sampleTrack).timer = sampleRetriever.time_to_live :=
  have h1 : sampleTrack.skeleton.tags.Nodup := by decide
  have h2 : sampleSeen.skeleton.tags = sampleTrack.skeleton.tags := by decide
  have h3 : sampleTrack.keys_acceptable_misses.length =
      sampleTrack.skeleton.getNumKeyPoints := by decide
  have h4 : sampleTrack.skeleton.atIndex 4 = some ⟨.hand_left, true, ⟨1, 0, 2⟩⟩ := by rfl
  have h5 : sampleSeen.skeleton.atIndex 4 = some ⟨.hand_left, true, ⟨1, 1, 2⟩⟩ := by rfl
  have h := update_one_step sampleRetriever sampleSeen sampleTrack 4 _ h1 h2 h3 h4
  ⟨⟨h1, h2, h3, h4, h5⟩, (h.1 _ h5 rfl).1, (h.1 _ h5 rfl).2, h.2.2.2⟩

end Identity

section FreshState
variable {α : Type} [LinearOrderedField α] [FloorRing α]

/-- C16: every candidate built by `create` has one miss-budget entry per slot,
all zero, and the timer `T`; and so has every track that the cycle admits to
the live set. -/
theorem create_fresh_state (r : Retriever α) (keys : List (Value α)) :
    (r.create keys).keys_acceptable_misses.length = (r.create keys).skeleton.getNumKeyPoints ∧
    (∀ b ∈ (r.create keys).keys_acceptable_misses, b = 0) ∧
    (r.create keys).timer = r.time_to_live ∧
    (∀ (skeletons : List (MetaSkeleton α)) (b3 : Value α) (reply : Option Int),
      (r.handle skeletons b3 reply).2 = .admitted →
      ∃ t, (r.handle skeletons b3 reply).1 = skeletons ++ [t] ∧
        t.keys_acceptable_misses.length = t.skeleton.getNumKeyPoints ∧
        (∀ b ∈ t.keys_acceptable_misses, b = 0) ∧ t.timer = r.time_to_live) := by
  have hcreate : ∀ keys : List (Value α),
      (r.create keys).keys_acceptable_misses.length =
        (r.create keys).skeleton.getNumKeyPoints ∧
      (∀ b ∈ (r.create keys).keys_acceptable_misses, b = 0) ∧
      (r.create keys).timer = r.time_to_live := by
    intro keys
    have h := Retriever.create_state r keys
    refine ⟨?_, ?_, h.2.1⟩
    · rw [h.1, List.length_replicate]
    · intro b hb
      rw [h.1] at hb
      exact (List.mem_replicate.mp hb).2
  refine ⟨(hcreate keys).1, (hcreate keys).2.1, (hcreate keys).2.2, ?_⟩
  intro skeletons b3 reply hout
  rcases Retriever.handle_cases r skeletons b3 reply with
    ⟨_, _, _, _, _, _, h⟩ | ⟨keys1, _, _, _, h⟩ | h | h
  · rw [h] at hout; cases hout
  · refine ⟨r.opcAdd (r.create keys1) reply, by rw [h], ?_⟩
    have hc := hcreate keys1
    cases reply with
    | none => exact hc
    | some id => exact hc
  · rw [h] at hout; cases hout
  · rw [h] at hout; cases hout

end FreshState

section FreshSamples

theorem sample_create_numUpdated :
    (sampleAdmission.create sampleFrameSeen).skeleton.numUpdated = 2 := by
  have h : sampleAdmission.createUnordered sampleFrameSeen =
      sampleRetriever.createUnordered sampleFrameSeen := rfl
  unfold Skeleton.numUpdated
  rw [Retriever.create_keypoints, h, sample_createUnordered_seen]
  rfl

theorem sample_handle_admitted :
    sampleAdmission.handle [] (.list sampleFrameSeen) (some 5) =
      ([sampleAdmission.opcAdd (sampleAdmission.create sampleFrameSeen) (some 5)],
        .admitted) := by
  have hv : sampleAdmission.isValid (sampleAdmission.create sampleFrameSeen) = true := by
    rw [Retriever.isValid_eq, sample_create_numUpdated,
      (Retriever.create_state sampleAdmission sampleFrameSeen).2.2.2]
    norm_num [sampleAdmission]
  have hd : sampleAdmission.depth.width > 0 ∧ sampleAdmission.depth.height > 0 := by decide
  unfold Retriever.handle
  rw [if_pos hd]
  simp only [Value.asList]
  have ht : sampleAdmission.isTracked [] (sampleAdmission.create sampleFrameSeen) = none := rfl
  rw [ht]
  simp only [hv, if_true, List.nil_append]

end FreshSamples

section FreshWitness

/-- C16 at the sample frame, admitted into an empty live set with the
admission percentage 2/15. -/
theorem create_fresh_state_witness :
    (sampleAdmission.handle [] (.list sampleFrameSeen) (some 5)).2 = .admitted ∧
    ∃ t, (sampleAdmission.handle [] (.list sampleFrameSeen) (some 5)).1 = [] ++ [t] ∧
      t.keys_acceptable_misses.length = t.skeleton.getNumKeyPoints ∧
      (∀ b ∈ t.keys_acceptable_misses, b = 0) ∧ t.timer = sampleAdmission.time_to_live :=
  have h : (sampleAdmission.handle [] (.list sampleFrameSeen) (some 5)).2 = .admitted := by
    rw [sample_handle_admitted]
  ⟨h, (create_fresh_state sampleAdmission sampleFrameSeen).2.2.2 [] _ _ h⟩

end FreshWitness

section ScoreLemmas
variable {α : Type} [LinearOrderedField α]

theorem Retriever.distanceSum_fst (r : Retriever α) (sk s : Skeleton α) :
    (r.distanceSum sk s).1 = ((List.range sk.getNumKeyPoints).map (fun j =>
      if isUpdated (sk.atIndex j) && isUpdated (s.atIndex j) then
        r.norm (Vector3.sub (getPoint (sk.atIndex j)) (getPoint (s.atIndex j)))
      else 0)).sum := by
  unfold Retriever.distanceSum
  generalize sk.getNumKeyPoints = n
  induction n with
  | zero => rfl
  | succ n ih =>
    rw [List.range_succ, List.foldl_append, List.map_append, List.sum_append]
    simp only [List.foldl_cons, List.foldl_nil, List.map_cons, List.map_nil, List.sum_cons,
      List.sum_nil, add_zero]
    rw [ih]
    split_ifs <;> simp

end ScoreLemmas

/-! ## The matcher's score -/

section Score
variable {α : Type} [LinearOrderedField α]

/-- C12: for a track with `N > 0` slots, the score that `isTracked` compares
with the threshold and enters into `scores` is the sum, over the slots flagged
updated in both the track and the candidate, of the norm of the difference of
the two points, divided by the slot count `N`; a slot in which either side is
not updated adds zero. -/
theorem matcher_score (r : Retriever α) (track s : MetaSkeleton α)
    (hN : 0 < track.skeleton.getNumKeyPoints) :
    r.meanDistance track s =
      ((List.range track.skeleton.getNumKeyPoints).map (fun j =>
        if isUpdated (track.skeleton.atIndex j) && isUpdated (s.skeleton.atIndex j) then
          r.norm (Vector3.sub (getPoint (track.skeleton.atIndex j))
            (getPoint (s.skeleton.atIndex j)))
        else 0)).sum / (track.skeleton.getNumKeyPoints : α) ∧
    ∀ (scores : ScoreMap α) (i : Nat), r.isTrackedStep s scores i track =
      if r.meanDistance track s ≤ r.tracking_threshold then
        scores.assign (r.meanDistance track s) i
      else scores := by
  constructor
  · unfold Retriever.meanDistance
    rw [Retriever.distanceSum_fst, Retriever.distanceSum_snd]
  · intro scores i
    unfold Retriever.isTrackedStep
    dsimp only
    rw [if_pos (by rw [Retriever.distanceSum_snd]; exact hN)]
    rfl

/-- C12 at the sample track and candidate: two slots are updated in both, their
distances add up to 1, and the score is 1/15, not 1/2. -/
theorem matcher_score_witness :
    0 < sampleTrack.skeleton.getNumKeyPoints ∧
    sampleRetriever.meanDistance sampleTrack sampleSeen =
      ((List.range sampleTrack.skeleton.getNumKeyPoints).map (fun j =>
        if isUpdated (sampleTrack.skeleton.atIndex j) &&
            isUpdated (sampleSeen.skeleton.atIndex j) then
          sampleRetriever.norm (Vector3.sub (getPoint (sampleTrack.skeleton.atIndex j))
            (getPoint (sampleSeen.skeleton.atIndex j)))
        else 0)).sum / (sampleTrack.skeleton.getNumKeyPoints : ℚ) ∧
    sampleRetriever.meanDistance sampleTrack sampleSeen = 1 / 15 ∧
    ((List.range sampleTrack.skeleton.getNumKeyPoints).filter (fun j =>
        isUpdated (sampleTrack.skeleton.atIndex j) &&
          isUpdated (sampleSeen.skeleton.atIndex j))).length = 2 :=
  have h : 0 < sampleTrack.skeleton.getNumKeyPoints := by decide
  ⟨h, (matcher_score sampleRetriever sampleTrack sampleSeen h).1, sample_meanDistance.1,
    by decide⟩

end Score

section HipLemmas
variable {α : Type} [LinearOrderedField α] [FloorRing α]

theorem Retriever.createStep_eq (r : Retriever α)
    (acc : List (Option KeyPointTag × Vector3 α) × List (Vector3 α)) (key : Value α) :
    r.createStep acc key =
      match r.createEntry key with
      | some e =>
        (acc.1 ++ [e],
          if e.1 = some .hip_left ∨ e.1 = some .hip_right then acc.2 ++ [e.2] else acc.2)
      | none => acc := by
  unfold Retriever.createStep Retriever.createEntry
  split
  · dsimp only
    split_ifs <;> (split <;> simp_all)
  · rfl

theorem Retriever.createStep_fold (r : Retriever α) (keys : List (Value α)) :
    ∀ acc : List (Option KeyPointTag × Vector3 α) × List (Vector3 α),
      keys.foldl r.createStep acc =
        (acc.1 ++ keys.filterMap r.createEntry,
          acc.2 ++ ((keys.filterMap r.createEntry).filter
            (fun e => decide (e.1 = some .hip_left ∨ e.1 = some .hip_right))).map
              Prod.snd) := by
  induction keys with
  | nil => intro acc; simp
  | cons key keys ih =>
    intro acc
    rw [List.foldl_cons, ih, Retriever.createStep_eq]
    cases he : r.createEntry key with
    | none => simp [List.filterMap_cons, he]
    | some e =>
      by_cases hh : e.1 = some .hip_left ∨ e.1 = some .hip_right
      · simp [List.filterMap_cons, he, List.filter_cons, hh]
      · simp [List.filterMap_cons, he, List.filter_cons, hh]

omit [LinearOrderedField α] [FloorRing α] in
theorem ne_of_ite_ne {β : Type} (c : Prop) [Decidable c] (a b x : β) (ha : a ≠ x)
    (hb : b ≠ x) : (if c then a else b) ≠ x := by
  by_cases h : c
  · rw [if_pos h]; exact ha
  · rw [if_neg h]; exact hb

theorem keysRemap_ne_hip_center (label : String) : keysRemap label ≠ some .hip_center := by
  unfold keysRemap
  repeat' apply ne_of_ite_ne
  all_goals decide

theorem Retriever.createEntry_tag (r : Retriever α) (key : Value α)
    (e : Option KeyPointTag × Vector3 α) (h : r.createEntry key = some e) :
    e.1 ≠ some .hip_center := by
  unfold Retriever.createEntry at h
  split at h
  · split_ifs at h
    split at h
    · cases h
      exact keysRemap_ne_hip_center _
    · cases h
  · cases h

theorem Retriever.createUnordered_eq (r : Retriever α) (keys : List (Value α)) :
    r.createUnordered keys =
      match (r.passedHips keys).map Prod.snd with
      | [h0, h1] => keys.filterMap r.createEntry ++
          [(some KeyPointTag.hip_center, Vector3.smul 0.5 (Vector3.add h0 h1))]
      | _ => keys.filterMap r.createEntry := by
  unfold Retriever.createUnordered Retriever.passedHips
  rw [Retriever.createStep_fold]
  simp only [List.nil_append]

/-- The hip-centre slot (slot 8) of the candidate when `hips` has two
entries. -/
theorem Retriever.create_hip_center_some (r : Retriever α) (keys : List (Value α))
    (a b : Option KeyPointTag × Vector3 α) (h : r.passedHips keys = [a, b]) :
    (r.create keys).skeleton.atIndex 8 = some
      { tag := .hip_center, updated := true,
        point := Vector3.smul 0.5 (Vector3.add a.2 b.2) } := by
  have hU : r.createUnordered keys = keys.filterMap r.createEntry ++
      [(some KeyPointTag.hip_center, Vector3.smul 0.5 (Vector3.add a.2 b.2))] := by
    rw [Retriever.createUnordered_eq, h]
    rfl
  unfold Skeleton.atIndex
  rw [Retriever.create_keypoints, List.getElem?_map]
  have h8 : (SkeletonWaist α).keypoints[8]? =
      some { tag := .hip_center, updated := false, point := Vector3.zero } := rfl
  rw [h8, Option.map_some', hU]
  congr 1
  apply KeyPoint.refresh_some
  · intro e he ht
    rcases List.mem_append.mp he with h1 | h1
    · obtain ⟨key, _, hk⟩ := List.mem_filterMap.mp h1
      exact absurd ht (Retriever.createEntry_tag r key e hk)
    · rw [List.mem_singleton.mp h1]
  · exact ⟨_, List.mem_append_right _ (List.mem_singleton_self _), rfl⟩

/-- The hip-centre slot (slot 8) of the candidate when `hips` does not have two
entries. -/
theorem Retriever.create_hip_center_none (r : Retriever α) (keys : List (Value α))
    (h : (r.passedHips keys).length ≠ 2) :
    (r.create keys).skeleton.atIndex 8 = some
      { tag := .hip_center, updated := false, point := Vector3.zero } := by
  have hU : r.createUnordered keys = keys.filterMap r.createEntry := by
    rw [Retriever.createUnordered_eq]
    split
    · rename_i h0 h1 heq
      have := congrArg List.length heq
      simp only [List.length_map, List.length_cons, List.length_nil] at this
      exact absurd this h
    · rfl
  unfold Skeleton.atIndex
  rw [Retriever.create_keypoints, List.getElem?_map]
  have h8 : (SkeletonWaist α).keypoints[8]? =
      some { tag := .hip_center, updated := false, point := Vector3.zero } := rfl
  rw [h8, Option.map_some', hU]
  congr 1
  apply KeyPoint.refresh_none
  intro e he ht
  obtain ⟨key, _, hk⟩ := List.mem_filterMap.mp he
  exact absurd ht (Retriever.createEntry_tag r key e hk)

omit [FloorRing α] in
theorem Vector3.add_comm_points (a b : Vector3 α) : Vector3.add a b = Vector3.add b a := by
  unfold Vector3.add
  rw [add_comm a.x, add_comm a.y, add_comm a.z]

omit [LinearOrderedField α] [FloorRing α] in
/-- Two hip entries, one left and one right, are the two entries of `hips` in
one order or the other. -/
theorem hips_left_right (es : List (Option KeyPointTag × Vector3 α))
    (a b l rr : Option KeyPointTag × Vector3 α)
    (h : es.filter (fun e => decide (e.1 = some .hip_left ∨ e.1 = some .hip_right)) = [a, b])
    (hl : es.filter (fun e => decide (e.1 = some .hip_left)) = [l])
    (hr : es.filter (fun e => decide (e.1 = some .hip_right)) = [rr]) :
    (a = l ∧ b = rr) ∨ (a = rr ∧ b = l) := by
  have hl2 : [a, b].filter (fun e => decide (e.1 = some .hip_left)) = [l] := by
    rw [← h, List.filter_filter, ← hl]
    congr 1
    funext e
    by_cases h1 : e.1 = some KeyPointTag.hip_left <;> simp [h1]
  have hr2 : [a, b].filter (fun e => decide (e.1 = some .hip_right)) = [rr] := by
    rw [← h, List.filter_filter, ← hr]
    congr 1
    funext e
    by_cases h1 : e.1 = some KeyPointTag.hip_right <;> simp [h1]
  have ha : a.1 = some .hip_left ∨ a.1 = some .hip_right := by
    have : a ∈ es.filter (fun e => decide (e.1 = some .hip_left ∨ e.1 = some .hip_right)) := by
      rw [h]; simp
    simpa using (List.mem_filter.mp this).2
  have hb : b.1 = some .hip_left ∨ b.1 = some .hip_right := by
    have : b ∈ es.filter (fun e => decide (e.1 = some .hip_left ∨ e.1 = some .hip_right)) := by
      rw [h]; simp
    simpa using (List.mem_filter.mp this).2
  rcases ha with ha | ha <;> rcases hb with hb | hb
  · simp [List.filter_cons, ha, hb] at hl2
  · have hb2 : ¬ b.1 = some .hip_left := by rw [hb]; decide
    have ha2 : ¬ a.1 = some .hip_right := by rw [ha]; decide
    simp [List.filter_cons, ha, hb2] at hl2
    simp [List.filter_cons, ha2, hb] at hr2
    exact Or.inl ⟨hl2, hr2⟩
  · have hb2 : ¬ b.1 = some .hip_right := by rw [hb]; decide
    have ha2 : ¬ a.1 = some .hip_left := by rw [ha]; decide
    simp [List.filter_cons, ha2, hb] at hl2
    simp [List.filter_cons, ha, hb2] at hr2
    exact Or.inr ⟨hr2, hl2⟩
  · simp [List.filter_cons, ha, hb] at hr2

omit [LinearOrderedField α] [FloorRing α] in
theorem hips_length (es : List (Option KeyPointTag × Vector3 α)) :
    (es.filter (fun e => decide (e.1 = some .hip_left ∨ e.1 = some .hip_right))).length =
      (es.filter (fun e => decide (e.1 = some .hip_left))).length +
      (es.filter (fun e => decide (e.1 = some .hip_right))).length := by
  induction es with
  | nil => rfl
  | cons e es ih =>
    rw [List.filter_cons, List.filter_cons, List.filter_cons]
    by_cases h1 : e.1 = some .hip_left
    · have h2 : ¬ e.1 = some .hip_right := by rw [h1]; decide
      rw [if_pos (by simp [h1]), if_pos (by simp [h1]), if_neg (by simp [h2])]
      simp only [List.length_cons, ih]
      omega
    · by_cases h2 : e.1 = some .hip_right
      · rw [if_pos (by simp [h2]), if_neg (by simp [h1]), if_pos (by simp [h2])]
        simp only [List.length_cons, ih]
        omega
      · rw [if_neg (by simp [h1, h2]), if_neg (by simp [h1]), if_neg (by simp [h2])]
        exact ih

end HipLemmas

/-! ## Hip-centre synthesis -/

section HipCentre
variable {α : Type} [LinearOrderedField α] [FloorRing α]

/-- C14, as amended: the candidate assembled by `create` has a hip-centre entry
iff exactly two entries passed the filters under a hip tag, and the point is
then the midpoint of those two; when each hip tag passes at most once, this is
the case iff a left-hip entry and a right-hip entry passed, and the point is
`0.5*(left_hip + right_hip)`. -/
theorem hip_center_synthesis (r : Retriever α) (keys : List (Value α)) :
    (isUpdated ((r.create keys).skeleton.atIndex 8) = true ↔
      (r.passedHips keys).length = 2) ∧
    (∀ a b, r.passedHips keys = [a, b] →
      (r.create keys).skeleton.atIndex 8 = some
        { tag := .hip_center, updated := true,
          point := Vector3.smul 0.5 (Vector3.add a.2 b.2) }) ∧
    ((r.passed keys .hip_left).length ≤ 1 → (r.passed keys .hip_right).length ≤ 1 →
      (isUpdated ((r.create keys).skeleton.atIndex 8) = true ↔
        r.passed keys .hip_left ≠ [] ∧ r.passed keys .hip_right ≠ []) ∧
      ∀ l rr, r.passed keys .hip_left = [l] → r.passed keys .hip_right = [rr] →
        (r.create keys).skeleton.atIndex 8 = some
          { tag := .hip_center, updated := true,
            point := Vector3.smul 0.5 (Vector3.add l.2 rr.2) }) := by
  have hiff : isUpdated ((r.create keys).skeleton.atIndex 8) = true ↔
      (r.passedHips keys).length = 2 := by
    constructor
    · intro h
      by_contra hne
      rw [Retriever.create_hip_center_none r keys hne] at h
      cases h
    · intro h
      obtain ⟨a, b, hab⟩ := List.length_eq_two.mp h
      rw [Retriever.create_hip_center_some r keys a b hab]
      rfl
  have hlen : (r.passedHips keys).length =
      (r.passed keys .hip_left).length + (r.passed keys .hip_right).length :=
    hips_length _
  refine ⟨hiff, Retriever.create_hip_center_some r keys, ?_⟩
  intro hl hr
  constructor
  · rw [hiff, hlen]
    constructor
    · intro h
      constructor
      · intro h0; rw [h0] at h; simp at h; omega
      · intro h0; rw [h0] at h; simp at h; omega
    · intro ⟨h1, h2⟩
      have := List.length_pos.mpr h1
      have := List.length_pos.mpr h2
      omega
  · intro l rr hl1 hr1
    have h2 : (r.passedHips keys).length = 2 := by rw [hlen, hl1, hr1]; rfl
    obtain ⟨a, b, hab⟩ := List.length_eq_two.mp h2
    rw [Retriever.create_hip_center_some r keys a b hab]
    rcases hips_left_right _ a b l rr hab hl1 hr1 with ⟨h3, h4⟩ | ⟨h3, h4⟩
    · rw [h3, h4]
    · rw [h3, h4, Vector3.add_comm_points]

end HipCentre

section HipSamples

theorem sample_createEntry :
    sampleRetriever.createEntry (sampleDetection "LHip" 1 1 0.9) =
      some (some .hip_left, ⟨-1 / 2, -1 / 2, 2⟩) ∧
    sampleRetriever.createEntry (sampleDetection "LHip" 2 2 0.9) =
      some (some .hip_left, ⟨1 / 2, 1 / 2, 2⟩) ∧
    sampleRetriever.createEntry (sampleDetection "RHip" 2 2 0.9) =
      some (some .hip_right, ⟨1 / 2, 1 / 2, 2⟩) := by
  refine ⟨?_, ?_, ?_⟩ <;>
  · simp +decide [Retriever.createEntry, sampleDetection, Value.asList, Value.asString,
      Value.asDouble, toInt, keysRemap, Retriever.getPoint3D, Retriever.focal,
      sampleRetriever, sampleDepth, Vector3.smul, Vector3.ones]
    norm_num

theorem sample_entries_two_left :
    sampleFrameTwoLeft.filterMap sampleRetriever.createEntry =
      [(some .hip_left, ⟨-1 / 2, -1 / 2, 2⟩), (some .hip_left, ⟨1 / 2, 1 / 2, 2⟩)] := by
  simp only [sampleFrameTwoLeft, List.filterMap_cons, List.filterMap_nil,
    sample_createEntry.1, sample_createEntry.2.1]

theorem sample_entries_hips :
    sampleFrameHips.filterMap sampleRetriever.createEntry =
      [(some .hip_left, ⟨-1 / 2, -1 / 2, 2⟩), (some .hip_right, ⟨1 / 2, 1 / 2, 2⟩)] := by
  simp only [sampleFrameHips, List.filterMap_cons, List.filterMap_nil,
    sample_createEntry.1, sample_createEntry.2.2]

theorem sample_passed_two_left :
    sampleRetriever.passedHips sampleFrameTwoLeft =
      [(some .hip_left, ⟨-1 / 2, -1 / 2, 2⟩), (some .hip_left, ⟨1 / 2, 1 / 2, 2⟩)] ∧
    sampleRetriever.passed sampleFrameTwoLeft .hip_right = [] := by
  unfold Retriever.passedHips Retriever.passed
  rw [sample_entries_two_left]
  exact ⟨rfl, rfl⟩

/-- C14 as stated fails: two left-hip detections pass the filters and no
right-hip detection does, yet the candidate has a hip-centre entry, the
midpoint of the two left hips. -/
theorem hip_center_counterexample :
    sampleRetriever.passed sampleFrameTwoLeft .hip_right = [] ∧
    (sampleRetriever.create sampleFrameTwoLeft).skeleton.atIndex 8 = some
      { tag := .hip_center, updated := true,
        point := Vector3.smul 0.5 (Vector3.add ⟨-1 / 2, -1 / 2, 2⟩ ⟨1 / 2, 1 / 2, 2⟩) } :=
  ⟨sample_passed_two_left.2,
    Retriever.create_hip_center_some sampleRetriever sampleFrameTwoLeft _ _
      sample_passed_two_left.1⟩

/-- C14, as amended, at a frame with one left hip and one right hip. -/
theorem hip_center_synthesis_witness :
    ((sampleRetriever.passed sampleFrameHips .hip_left).length ≤ 1 ∧
     (sampleRetriever.passed sampleFrameHips .hip_right).length ≤ 1 ∧
     sampleRetriever.passed sampleFrameHips .hip_left =
       [(some .hip_left, ⟨-1 / 2, -1 / 2, 2⟩)] ∧
     sampleRetriever.passed sampleFrameHips .hip_right =
       [(some .hip_right, ⟨1 / 2, 1 / 2, 2⟩)]) ∧
    (sampleRetriever.create sampleFrameHips).skeleton.atIndex 8 = some
      { tag := .hip_center, updated := true,
        point := Vector3.smul 0.5 (Vector3.add ⟨-1 / 2, -1 / 2, 2⟩ ⟨1 / 2, 1 / 2, 2⟩) } :=
  have hl : sampleRetriever.passed sampleFrameHips .hip_left =
      [(some .hip_left, ⟨-1 / 2, -1 / 2, 2⟩)] := by
    unfold Retriever.passed
    rw [sample_entries_hips]
    rfl
  have hr : sampleRetriever.passed sampleFrameHips .hip_right =
      [(some .hip_right, ⟨1 / 2, 1 / 2, 2⟩)] := by
    unfold Retriever.passed
    rw [sample_entries_hips]
    rfl
  have h1 : (sampleRetriever.passed sampleFrameHips .hip_left).length ≤ 1 := by
    rw [hl]; decide
  have h2 : (sampleRetriever.passed sampleFrameHips .hip_right).length ≤ 1 := by
    rw [hr]; decide
  ⟨⟨h1, h2, hl, hr⟩,
    ((hip_center_synthesis sampleRetriever sampleFrameHips).2.2 h1 h2).2 _ _ hl hr⟩

end HipSamples

/-! ## The norms of the planes -/

section UnitLemmas
variable {α : Type} [LinearOrderedField α]

theorem Vector3.dot_sdiv_self (d : Vector3 α) (n : α) (hn : 0 < n)
    (he : n * n = Vector3.dot d d) :
    Vector3.dot (Vector3.sdiv d n) (Vector3.sdiv d n) = 1 := by
  have hn0 : n ≠ 0 := ne_of_gt hn
  unfold Vector3.dot Vector3.sdiv at *
  dsimp only at *
  field_simp
  linarith

/-- Lagrange's identity for the cross product. -/
theorem Vector3.dot_cross_self (a b : Vector3 α) :
    Vector3.dot (Vector3.cross a b) (Vector3.cross a b) =
      Vector3.dot a a * Vector3.dot b b - Vector3.dot a b * Vector3.dot a b := by
  unfold Vector3.dot Vector3.cross
  dsimp only
  ring

/-- C15, as amended: for every track in which `shoulder_left`/`shoulder_right`
are both updated with a difference of positive norm and
`shoulder_center`/`hip_center` are both updated with a difference of positive
norm, `norm` being the Euclidean norm at these two differences, after
`updatePlanes` sagittal and transverse have Euclidean norm 1 (their scalar
square is 1), coronal is `cross(sagittal, transverse)`, stored as computed, the
square of its norm is `1 - (sagittal . transverse)^2`, and so coronal has norm 1
exactly when sagittal and transverse are perpendicular. -/
theorem planes_norms (r : Retriever α) (s : MetaSkeleton α)
    (h1 : isUpdated (s.skeleton.atTag .shoulder_left) = true)
    (h2 : isUpdated (s.skeleton.atTag .shoulder_right) = true)
    (h3 : isUpdated (s.skeleton.atTag .shoulder_center) = true)
    (h4 : isUpdated (s.skeleton.atTag .hip_center) = true)
    (hs : 0 < r.norm (Vector3.sub (getPoint (s.skeleton.atTag .shoulder_left))
      (getPoint (s.skeleton.atTag .shoulder_right))))
    (ht : 0 < r.norm (Vector3.sub (getPoint (s.skeleton.atTag .shoulder_center))
      (getPoint (s.skeleton.atTag .hip_center))))
    (hes : r.norm (Vector3.sub (getPoint (s.skeleton.atTag .shoulder_left))
        (getPoint (s.skeleton.atTag .shoulder_right))) *
      r.norm (Vector3.sub (getPoint (s.skeleton.atTag .shoulder_left))
        (getPoint (s.skeleton.atTag .shoulder_right))) =
      Vector3.dot (Vector3.sub (getPoint (s.skeleton.atTag .shoulder_left))
        (getPoint (s.skeleton.atTag .shoulder_right)))
        (Vector3.sub (getPoint (s.skeleton.atTag .shoulder_left))
        (getPoint (s.skeleton.atTag .shoulder_right))))
    (het : r.norm (Vector3.sub (getPoint (s.skeleton.atTag .shoulder_center))
        (getPoint (s.skeleton.atTag .hip_center))) *
      r.norm (Vector3.sub (getPoint (s.skeleton.atTag .shoulder_center))
        (getPoint (s.skeleton.atTag .hip_center))) =
      Vector3.dot (Vector3.sub (getPoint (s.skeleton.atTag .shoulder_center))
        (getPoint (s.skeleton.atTag .hip_center)))
        (Vector3.sub (getPoint (s.skeleton.atTag .shoulder_center))
        (getPoint (s.skeleton.atTag .hip_center)))) :
    Vector3.dot (r.updatePlanes s).skeleton.sagittal (r.updatePlanes s).skeleton.sagittal = 1 ∧
    Vector3.dot (r.updatePlanes s).skeleton.transverse
      (r.updatePlanes s).skeleton.transverse = 1 ∧
    (r.updatePlanes s).skeleton.coronal =
      Vector3.cross (r.updatePlanes s).skeleton.sagittal
        (r.updatePlanes s).skeleton.transverse ∧
    Vector3.dot (r.updatePlanes s).skeleton.coronal (r.updatePlanes s).skeleton.coronal =
      1 - Vector3.dot (r.updatePlanes s).skeleton.sagittal
          (r.updatePlanes s).skeleton.transverse *
        Vector3.dot (r.updatePlanes s).skeleton.sagittal
          (r.updatePlanes s).skeleton.transverse ∧
    (Vector3.dot (r.updatePlanes s).skeleton.coronal (r.updatePlanes s).skeleton.coronal = 1 ↔
      Vector3.dot (r.updatePlanes s).skeleton.sagittal
        (r.updatePlanes s).skeleton.transverse = 0) := by
  have hsag : Vector3.dot (r.updatePlanes s).skeleton.sagittal
      (r.updatePlanes s).skeleton.sagittal = 1 := by
    rw [(Retriever.updatePlanes_planes r s).1, h1, h2]
    simp only [Bool.and_self, if_true]
    rw [if_pos hs]
    exact Vector3.dot_sdiv_self _ _ hs hes
  have htr : Vector3.dot (r.updatePlanes s).skeleton.transverse
      (r.updatePlanes s).skeleton.transverse = 1 := by
    rw [(Retriever.updatePlanes_planes r s).2, h3, h4]
    simp only [Bool.and_self, if_true]
    rw [if_pos ht]
    exact Vector3.dot_sdiv_self _ _ ht het
  have hc : (r.updatePlanes s).skeleton.coronal =
      Vector3.cross (r.updatePlanes s).skeleton.sagittal
        (r.updatePlanes s).skeleton.transverse := by
    unfold Retriever.updatePlanes
    rfl
  have hcor : Vector3.dot (r.updatePlanes s).skeleton.coronal
      (r.updatePlanes s).skeleton.coronal =
      1 - Vector3.dot (r.updatePlanes s).skeleton.sagittal
          (r.updatePlanes s).skeleton.transverse *
        Vector3.dot (r.updatePlanes s).skeleton.sagittal
          (r.updatePlanes s).skeleton.transverse := by
    rw [hc, Vector3.dot_cross_self, hsag, htr, one_mul]
  refine ⟨hsag, htr, hc, hcor, ?_⟩
  rw [hcor]
  constructor
  · intro h
    have h0 : Vector3.dot (r.updatePlanes s).skeleton.sagittal
          (r.updatePlanes s).skeleton.transverse *
        Vector3.dot (r.updatePlanes s).skeleton.sagittal
          (r.updatePlanes s).skeleton.transverse = 0 := by linarith
    exact mul_self_eq_zero.mp h0
  · intro h
    rw [h, mul_zero, sub_zero]

end UnitLemmas

section UnitSamples

theorem sample_euclid_norms :
    sampleEuclid.norm (Vector3.sub ⟨1 / 5, 0, 2⟩ ⟨-1 / 5, 0, 2⟩) = 2 / 5 ∧
    sampleEuclid.norm (Vector3.sub ⟨0, 0, 2⟩ ⟨-3 / 10, 2 / 5, 2⟩) = 1 / 2 := by
  constructor
  · have h : Vector3.dot (Vector3.sub (⟨1 / 5, 0, 2⟩ : Vector3 ℚ) ⟨-1 / 5, 0, 2⟩)
        (Vector3.sub ⟨1 / 5, 0, 2⟩ ⟨-1 / 5, 0, 2⟩) = (2 / 5) * (2 / 5) := by
      norm_num [Vector3.dot, Vector3.sub]
    show Rat.sqrt _ = _
    rw [h, Rat.sqrt_eq, abs_of_pos (by norm_num)]
  · have h : Vector3.dot (Vector3.sub (⟨0, 0, 2⟩ : Vector3 ℚ) ⟨-3 / 10, 2 / 5, 2⟩)
        (Vector3.sub ⟨0, 0, 2⟩ ⟨-3 / 10, 2 / 5, 2⟩) = (1 / 2) * (1 / 2) := by
      norm_num [Vector3.dot, Vector3.sub]
    show Rat.sqrt _ = _
    rw [h, Rat.sqrt_eq, abs_of_pos (by norm_num)]

theorem sample_leaning_points :
    sampleLeaning.skeleton.atTag .shoulder_left =
      some ⟨.shoulder_left, true, ⟨1 / 5, 0, 2⟩⟩ ∧
    sampleLeaning.skeleton.atTag .shoulder_right =
      some ⟨.shoulder_right, true, ⟨-1 / 5, 0, 2⟩⟩ ∧
    sampleLeaning.skeleton.atTag .shoulder_center =
      some ⟨.shoulder_center, true, ⟨0, 0, 2⟩⟩ ∧
    sampleLeaning.skeleton.atTag .hip_center =
      some ⟨.hip_center, true, ⟨-3 / 10, 2 / 5, 2⟩⟩ :=
  ⟨rfl, rfl, rfl, rfl⟩

/-- The sample track of a leaning person meets the premises on the shoulder
and hip key points, under the Euclidean norm. -/
theorem sample_leaning_premises :
    isUpdated (sampleLeaning.skeleton.atTag .shoulder_left) = true ∧
    isUpdated (sampleLeaning.skeleton.atTag .shoulder_right) = true ∧
    isUpdated (sampleLeaning.skeleton.atTag .shoulder_center) = true ∧
    isUpdated (sampleLeaning.skeleton.atTag .hip_center) = true ∧
    sampleEuclid.norm (Vector3.sub (getPoint (sampleLeaning.skeleton.atTag .shoulder_left))
      (getPoint (sampleLeaning.skeleton.atTag .shoulder_right))) = 2 / 5 ∧
    sampleEuclid.norm (Vector3.sub (getPoint (sampleLeaning.skeleton.atTag .shoulder_center))
      (getPoint (sampleLeaning.skeleton.atTag .hip_center))) = 1 / 2 ∧
    Vector3.dot (Vector3.sub (getPoint (sampleLeaning.skeleton.atTag .shoulder_left))
        (getPoint (sampleLeaning.skeleton.atTag .shoulder_right)))
      (Vector3.sub (getPoint (sampleLeaning.skeleton.atTag .shoulder_left))
        (getPoint (sampleLeaning.skeleton.atTag .shoulder_right))) = 4 / 25 ∧
    Vector3.dot (Vector3.sub (getPoint (sampleLeaning.skeleton.atTag .shoulder_center))
        (getPoint (sampleLeaning.skeleton.atTag .hip_center)))
      (Vector3.sub (getPoint (sampleLeaning.skeleton.atTag .shoulder_center))
        (getPoint (sampleLeaning.skeleton.atTag .hip_center))) = 1 / 4 := by
  obtain ⟨p1, p2, p3, p4⟩ := sample_leaning_points
  refine ⟨by rw [p1]; rfl, by rw [p2]; rfl, by rw [p3]; rfl, by rw [p4]; rfl, ?_, ?_, ?_, ?_⟩
  · rw [p1, p2]
    simp only [getPoint, sample_euclid_norms.1]
  · rw [p3, p4]
    simp only [getPoint, sample_euclid_norms.2]
  · rw [p1, p2]
    norm_num [getPoint, Vector3.dot, Vector3.sub]
  · rw [p3, p4]
    norm_num [getPoint, Vector3.dot, Vector3.sub]

/-- The planes `updatePlanes` gives the sample track of a leaning person under
the Euclidean norm. -/
theorem sample_leaning_planes :
    (sampleEuclid.updatePlanes sampleLeaning).skeleton.sagittal = ⟨1, 0, 0⟩ ∧
    (sampleEuclid.updatePlanes sampleLeaning).skeleton.transverse = ⟨3 / 5, -4 / 5, 0⟩ ∧
    (sampleEuclid.updatePlanes sampleLeaning).skeleton.coronal = ⟨0, 0, -4 / 5⟩ := by
  obtain ⟨p1, p2, p3, p4⟩ := sample_leaning_points
  have hs : (sampleEuclid.updatePlanes sampleLeaning).skeleton.sagittal = ⟨1, 0, 0⟩ := by
    rw [(Retriever.updatePlanes_planes sampleEuclid sampleLeaning).1, p1, p2]
    simp only [isUpdated, getPoint, Bool.and_self, if_true, sample_euclid_norms.1]
    norm_num [Vector3.sdiv, Vector3.sub]
  have ht : (sampleEuclid.updatePlanes sampleLeaning).skeleton.transverse =
      ⟨3 / 5, -4 / 5, 0⟩ := by
    rw [(Retriever.updatePlanes_planes sampleEuclid sampleLeaning).2, p3, p4]
    simp only [isUpdated, getPoint, Bool.and_self, if_true, sample_euclid_norms.2]
    norm_num [Vector3.sdiv, Vector3.sub]
  have hc : (sampleEuclid.updatePlanes sampleLeaning).skeleton.coronal = ⟨0, 0, -4 / 5⟩ := by
    have : (sampleEuclid.updatePlanes sampleLeaning).skeleton.coronal =
        Vector3.cross (sampleEuclid.updatePlanes sampleLeaning).skeleton.sagittal
          (sampleEuclid.updatePlanes sampleLeaning).skeleton.transverse := by
      unfold Retriever.updatePlanes
      rfl
    rw [this, hs, ht]
    norm_num [Vector3.cross]
  exact ⟨hs, ht, hc⟩

/-- C15 as stated fails: in the sample track of a person leaning sideways all
four key points are updated and both differences are nonzero (Euclidean norms
2/5 and 1/2); after `updatePlanes` sagittal is `(1, 0, 0)` and transverse is
`(3/5, -4/5, 0)`, both of norm 1, and coronal is `(0, 0, -4/5)`, whose norm is
4/5 (scalar square 16/25), not 1. -/
theorem planes_unit_counterexample :
    (isUpdated (sampleLeaning.skeleton.atTag .shoulder_left) = true ∧
     isUpdated (sampleLeaning.skeleton.atTag .shoulder_right) = true ∧
     isUpdated (sampleLeaning.skeleton.atTag .shoulder_center) = true ∧
     isUpdated (sampleLeaning.skeleton.atTag .hip_center) = true ∧
     Vector3.sub (getPoint (sampleLeaning.skeleton.atTag .shoulder_left))
       (getPoint (sampleLeaning.skeleton.atTag .shoulder_right)) ≠ Vector3.zero ∧
     Vector3.sub (getPoint (sampleLeaning.skeleton.atTag .shoulder_center))
       (getPoint (sampleLeaning.skeleton.atTag .hip_center)) ≠ Vector3.zero ∧
     0 < sampleEuclid.norm (Vector3.sub (getPoint (sampleLeaning.skeleton.atTag .shoulder_left))
       (getPoint (sampleLeaning.skeleton.atTag .shoulder_right))) ∧
     0 < sampleEuclid.norm
       (Vector3.sub (getPoint (sampleLeaning.skeleton.atTag .shoulder_center))
         (getPoint (sampleLeaning.skeleton.atTag .hip_center)))) ∧
    (sampleEuclid.updatePlanes sampleLeaning).skeleton.sagittal = ⟨1, 0, 0⟩ ∧
    (sampleEuclid.updatePlanes sampleLeaning).skeleton.transverse = ⟨3 / 5, -4 / 5, 0⟩ ∧
    (sampleEuclid.updatePlanes sampleLeaning).skeleton.coronal = ⟨0, 0, -4 / 5⟩ ∧
    Vector3.dot (sampleEuclid.updatePlanes sampleLeaning).skeleton.coronal
      (sampleEuclid.updatePlanes sampleLeaning).skeleton.coronal = 16 / 25 ∧
    Vector3.dot (sampleEuclid.updatePlanes sampleLeaning).skeleton.coronal
      (sampleEuclid.updatePlanes sampleLeaning).skeleton.coronal ≠ 1 := by
  obtain ⟨h1, h2, h3, h4, hs, ht, _, _⟩ := sample_leaning_premises
  obtain ⟨p1, p2, p3, p4⟩ := sample_leaning_points
  obtain ⟨hsag, htr, hc⟩ := sample_leaning_planes
  refine ⟨⟨h1, h2, h3, h4, ?_, ?_, by rw [hs]; norm_num, by rw [ht]; norm_num⟩,
    hsag, htr, hc, ?_, ?_⟩
  · rw [p1, p2]
    intro h
    have := congrArg Vector3.x h
    norm_num [getPoint, Vector3.sub, Vector3.zero] at this
  · rw [p3, p4]
    intro h
    have := congrArg Vector3.x h
    norm_num [getPoint, Vector3.sub, Vector3.zero] at this
  · rw [hc]; norm_num [Vector3.dot]
  · rw [hc]; norm_num [Vector3.dot]

/-- C15, as amended, at the sample track of a person leaning sideways: sagittal
and transverse have scalar square 1, their scalar product is 3/5, and the
scalar square of coronal is `1 - (3/5)^2 = 16/25`. -/
theorem planes_norms_witness :
    (isUpdated (sampleLeaning.skeleton.atTag .shoulder_left) = true ∧
     isUpdated (sampleLeaning.skeleton.atTag .shoulder_right) = true ∧
     isUpdated (sampleLeaning.skeleton.atTag .shoulder_center) = true ∧
     isUpdated (sampleLeaning.skeleton.atTag .hip_center) = true) ∧
    Vector3.dot (sampleEuclid.updatePlanes sampleLeaning).skeleton.sagittal
      (sampleEuclid.updatePlanes sampleLeaning).skeleton.sagittal = 1 ∧
    Vector3.dot (sampleEuclid.updatePlanes sampleLeaning).skeleton.transverse
      (sampleEuclid.updatePlanes sampleLeaning).skeleton.transverse = 1 ∧
    Vector3.dot (sampleEuclid.updatePlanes sampleLeaning).skeleton.sagittal
      (sampleEuclid.updatePlanes sampleLeaning).skeleton.transverse = 3 / 5 ∧
    Vector3.dot (sampleEuclid.updatePlanes sampleLeaning).skeleton.coronal
        (sampleEuclid.updatePlanes sampleLeaning).skeleton.coronal =
      1 - Vector3.dot (sampleEuclid.updatePlanes sampleLeaning).skeleton.sagittal
          (sampleEuclid.updatePlanes sampleLeaning).skeleton.transverse *
        Vector3.dot (sampleEuclid.updatePlanes sampleLeaning).skeleton.sagittal
          (sampleEuclid.updatePlanes sampleLeaning).skeleton.transverse :=
  have hp := sample_leaning_premises
  have hpl := sample_leaning_planes
  have h := planes_norms sampleEuclid sampleLeaning hp.1 hp.2.1 hp.2.2.1 hp.2.2.2.1
    (by rw [hp.2.2.2.2.1]; norm_num) (by rw [hp.2.2.2.2.2.1]; norm_num)
    (by rw [hp.2.2.2.2.1, hp.2.2.2.2.2.2.1]; norm_num)
    (by rw [hp.2.2.2.2.2.1, hp.2.2.2.2.2.2.2]; norm_num)
  ⟨⟨hp.1, hp.2.1, hp.2.2.1, hp.2.2.2.1⟩, h.1, h.2.1,
    by rw [hpl.1, hpl.2.1]; norm_num [Vector3.dot], h.2.2.2.1⟩

end UnitSamples

section EmptyCandidateLemmas
variable {α : Type} [LinearOrderedField α]

theorem Retriever.meanDistance_of_stale (r : Retriever α) (t s : MetaSkeleton α)
    (hs : ∀ j, isUpdated (s.skeleton.atIndex j) = false) : r.meanDistance t s = 0 := by
  unfold Retriever.meanDistance
  rw [Retriever.distanceSum_fst]
  have : ((List.range t.skeleton.getNumKeyPoints).map (fun j =>
      if isUpdated (t.skeleton.atIndex j) && isUpdated (s.skeleton.atIndex j) then
        r.norm (Vector3.sub (getPoint (t.skeleton.atIndex j)) (getPoint (s.skeleton.atIndex j)))
      else 0)).sum = 0 := by
    apply List.sum_eq_zero
    intro x hx
    obtain ⟨j, _, rfl⟩ := List.mem_map.mp hx
    rw [hs j]
    simp
  rw [this, zero_div]

theorem Retriever.isTracked_of_stale (r : Retriever α) (skeletons : List (MetaSkeleton α))
    (s : MetaSkeleton α) (hthr : 0 ≤ r.tracking_threshold) (hne : skeletons ≠ [])
    (hN : ∀ t ∈ skeletons, 0 < t.skeleton.getNumKeyPoints)
    (hs : ∀ j, isUpdated (s.skeleton.atIndex j) = false) :
    ∃ i t, r.isTracked skeletons s = some i ∧ skeletons[i]? = some t := by
  cases hres : r.isTracked skeletons s with
  | some i =>
    obtain ⟨t, hti, _⟩ := (Retriever.isTracked_spec r skeletons s).2 i hres
    exact ⟨i, t, rfl, hti⟩
  | none =>
    exfalso
    cases skeletons with
    | nil => exact hne rfl
    | cons t0 rest =>
      have h0 := (Retriever.isTracked_spec r (t0 :: rest) s).1.mp hres 0 t0 (by simp)
      apply h0
      rw [Retriever.eligible_iff r t0 s (hN t0 (List.mem_cons_self _ _)),
        Retriever.meanDistance_of_stale r t0 s hs]
      exact hthr

end EmptyCandidateLemmas

section EmptyCandidateCreate
variable {α : Type} [LinearOrderedField α] [FloorRing α]

theorem Retriever.create_nothing (r : Retriever α) (keys : List (Value α))
    (hlow : ∀ key ∈ keys, ∀ (k0 k1 k2 k3 : Value α) (rest : List (Value α)),
      key.asList = some (k0 :: k1 :: k2 :: k3 :: rest) →
      k3.asDouble < r.keys_recognition_confidence ∨
        r.depth.pixel (toInt k1.asDouble) (toInt k2.asDouble) ≤ 0) :
    ∀ j, isUpdated ((r.create keys).skeleton.atIndex j) = false := by
  have hentry : ∀ key ∈ keys, r.createEntry key = none := by
    intro key hkey
    unfold Retriever.createEntry
    split
    · rename_i k0 k1 k2 k3 rest hl
      rcases hlow key hkey k0 k1 k2 k3 rest hl with h | h
      · rw [if_neg (not_le.mpr h)]
      · have hp : r.getPoint3D (toInt k1.asDouble) (toInt k2.asDouble) = none := by
          unfold Retriever.getPoint3D
          dsimp only
          rw [if_neg (not_lt.mpr h)]
        rw [hp]
        split_ifs <;> rfl
    · rfl
  have hE : keys.filterMap r.createEntry = [] := by
    rw [List.filterMap_eq_nil_iff]
    exact hentry
  have hU : r.createUnordered keys = [] := by
    rw [Retriever.createUnordered_eq]
    unfold Retriever.passedHips
    rw [hE]
    rfl
  intro j
  unfold Skeleton.atIndex
  rw [Retriever.create_keypoints, List.getElem?_map, hU]
  cases (SkeletonWaist α).keypoints[j]? with
  | none => rfl
  | some k => rfl

theorem Retriever.handle_tracked (r : Retriever α) (skeletons : List (MetaSkeleton α))
    (keys : List (Value α)) (reply : Option Int) (i : Nat) (t : MetaSkeleton α)
    (hd : r.depth.width > 0 ∧ r.depth.height > 0)
    (hi : r.isTracked skeletons (r.create keys) = some i) (hti : skeletons[i]? = some t) :
    r.handle skeletons (.list keys) reply =
      (skeletons.set i (r.update (r.create keys) t), .tracked i) := by
  unfold Retriever.handle
  rw [if_pos hd]
  simp only [Value.asList, hi, hti]

/-- The admission percentage plays no part in `create`, `isTracked` and
`update`. -/
theorem Retriever.percentage_unused (r : Retriever α) (q : α) :
    (∀ keys : List (Value α),
      ({ r with keys_recognition_percentage := q } : Retriever α).create keys =
        r.create keys) ∧
    (∀ (skeletons : List (MetaSkeleton α)) (s : MetaSkeleton α),
      ({ r with keys_recognition_percentage := q } : Retriever α).isTracked skeletons s =
        r.isTracked skeletons s) ∧
    (∀ src dest : MetaSkeleton α,
      ({ r with keys_recognition_percentage := q } : Retriever α).update src dest =
        r.update src dest) := by
  refine ⟨fun keys => ?_, fun skeletons s => ?_, fun src dest => rfl⟩
  · have hstep : ({ r with keys_recognition_percentage := q } : Retriever α).createStep =
        r.createStep := by
      funext acc key
      rfl
    unfold Retriever.create Retriever.createUnordered
    rw [hstep]
    rfl
  · have hstep : ({ r with keys_recognition_percentage := q } : Retriever α).isTrackedStep s =
        r.isTrackedStep s := by
      funext scores i t
      rfl
    have hloop : ∀ (l : List (MetaSkeleton α)) (i : Nat) (m : ScoreMap α),
        ({ r with keys_recognition_percentage := q } : Retriever α).isTrackedLoop s i l m =
          r.isTrackedLoop s i l m := by
      intro l
      induction l with
      | nil => intro i m; rfl
      | cons t l ih =>
        intro i m
        simp only [Retriever.isTrackedLoop, ih, hstep]
    unfold Retriever.isTracked
    rw [hloop]

end EmptyCandidateCreate

/-! ## The candidate with no key point -/

section EmptyCandidate
variable {α : Type} [LinearOrderedField α] [FloorRing α]

/-- C17: on a non-empty live set whose skeletons have at least one slot, with a
threshold `>= 0`, a candidate with no slot flagged updated is at mean distance
0 from every live track and `isTracked` returns a track; in the cycle that
track is updated, so its timer becomes `T`, whatever the admission percentage
is (`isValid` is not consulted); and a frame whose detections are all below
the confidence threshold or on pixels with depth `<= 0` gives such a
candidate. -/
theorem empty_candidate_tracked (r : Retriever α) (skeletons : List (MetaSkeleton α))
    (hthr : 0 ≤ r.tracking_threshold) (hne : skeletons ≠ [])
    (hN : ∀ t ∈ skeletons, 0 < t.skeleton.getNumKeyPoints) :
    (∀ s : MetaSkeleton α, (∀ j, isUpdated (s.skeleton.atIndex j) = false) →
      (∀ t ∈ skeletons, r.meanDistance t s = 0) ∧
      ∃ i t, r.isTracked skeletons s = some i ∧ skeletons[i]? = some t) ∧
    (∀ keys : List (Value α), r.depth.width > 0 → r.depth.height > 0 →
      (∀ j, isUpdated ((r.create keys).skeleton.atIndex j) = false) →
      ∃ i t, skeletons[i]? = some t ∧ ∀ (reply : Option Int) (q : α),
        r.handle skeletons (.list keys) reply =
          (skeletons.set i (r.update (r.create keys) t), .tracked i) ∧
        (r.update (r.create keys) t).timer = r.time_to_live ∧
        ({ r with keys_recognition_percentage := q } : Retriever α).handle skeletons
          (.list keys) reply = r.handle skeletons (.list keys) reply) ∧
    (∀ keys : List (Value α),
      (∀ key ∈ keys, ∀ (k0 k1 k2 k3 : Value α) (rest : List (Value α)),
        key.asList = some (k0 :: k1 :: k2 :: k3 :: rest) →
        k3.asDouble < r.keys_recognition_confidence ∨
          r.depth.pixel (toInt k1.asDouble) (toInt k2.asDouble) ≤ 0) →
      ∀ j, isUpdated ((r.create keys).skeleton.atIndex j) = false) := by
  refine ⟨?_, ?_, Retriever.create_nothing r⟩
  · intro s hs
    exact ⟨fun t _ => Retriever.meanDistance_of_stale r t s hs,
      Retriever.isTracked_of_stale r skeletons s hthr hne hN hs⟩
  · intro keys hw hh hs
    obtain ⟨i, t, hi, hti⟩ := Retriever.isTracked_of_stale r skeletons (r.create keys) hthr hne
      hN hs
    refine ⟨i, t, hti, ?_⟩
    intro reply q
    have h1 := Retriever.handle_tracked r skeletons keys reply i t ⟨hw, hh⟩ hi hti
    refine ⟨h1, rfl, ?_⟩
    have hq := Retriever.percentage_unused r q
    rw [h1, Retriever.handle_tracked { r with keys_recognition_percentage := q } skeletons keys
      reply i t ⟨hw, hh⟩ (by rw [hq.1, hq.2.1]; exact hi) hti, hq.1, hq.2.2]

end EmptyCandidate

section EmptyCandidateSample

theorem sample_frame_nothing :
    ∀ key ∈ sampleFrameNothing, ∀ (k0 k1 k2 k3 : Value ℚ) (rest : List (Value ℚ)),
      key.asList = some (k0 :: k1 :: k2 :: k3 :: rest) →
      k3.asDouble < sampleRetriever.keys_recognition_confidence ∨
        sampleRetriever.depth.pixel (toInt k1.asDouble) (toInt k2.asDouble) ≤ 0 := by
  intro key hkey k0 k1 k2 k3 rest hl
  simp only [sampleFrameNothing, List.mem_cons, List.mem_singleton, List.not_mem_nil,
    or_false] at hkey
  rcases hkey with rfl | rfl
  · simp only [sampleDetection, Value.asList, Option.some.injEq, List.cons.injEq] at hl
    obtain ⟨_, _, _, h3, _⟩ := hl
    left
    rw [← h3]
    norm_num [Value.asDouble, sampleRetriever]
  · simp only [sampleDetection, Value.asList, Option.some.injEq, List.cons.injEq] at hl
    obtain ⟨_, h1, h2, _, _⟩ := hl
    right
    rw [← h1, ← h2]
    simp [Value.asDouble, toInt, sampleRetriever, sampleDepth]

/-- C17 at the sample configuration: a frame with nothing usable, and the
sample track alone in the live set. -/
theorem empty_candidate_tracked_witness :
    (0 ≤ sampleRetriever.tracking_threshold ∧ [sampleTrack] ≠ [] ∧
     (∀ t ∈ [sampleTrack], 0 < t.skeleton.getNumKeyPoints) ∧
     sampleRetriever.depth.width > 0 ∧ sampleRetriever.depth.height > 0 ∧
     (∀ j, isUpdated
       ((sampleRetriever.create sampleFrameNothing).skeleton.atIndex j) = false)) ∧
    ∃ i t, [sampleTrack][i]? = some t ∧ ∀ (reply : Option Int) (q : ℚ),
      sampleRetriever.handle [sampleTrack] (.list sampleFrameNothing) reply =
        ([sampleTrack].set i (sampleRetriever.update
          (sampleRetriever.create sampleFrameNothing) t), .tracked i) ∧
      (sampleRetriever.update (sampleRetriever.create sampleFrameNothing) t).timer =
        sampleRetriever.time_to_live ∧
      ({ sampleRetriever with keys_recognition_percentage := q } : Retriever ℚ).handle
        [sampleTrack] (.list sampleFrameNothing) reply =
        sampleRetriever.handle [sampleTrack] (.list sampleFrameNothing) reply :=
  have h1 : 0 ≤ sampleRetriever.tracking_threshold := by norm_num [sampleRetriever]
  have h2 : [sampleTrack] ≠ [] := by simp
  have h3 : ∀ t ∈ [sampleTrack], 0 < t.skeleton.getNumKeyPoints := by decide
  have h4 : sampleRetriever.depth.width > 0 := by decide
  have h5 : sampleRetriever.depth.height > 0 := by decide
  have h6 : ∀ j, isUpdated
      ((sampleRetriever.create sampleFrameNothing).skeleton.atIndex j) = false :=
    (empty_candidate_tracked sampleRetriever [sampleTrack] h1 h2 h3).2.2 sampleFrameNothing
      sample_frame_nothing
  ⟨⟨h1, h2, h3, h4, h5, h6⟩,
    (empty_candidate_tracked sampleRetriever [sampleTrack] h1 h2 h3).2.1 sampleFrameNothing
      h4 h5 h6⟩

end EmptyCandidateSample

section BudgetLemmas
variable {α : Type} [LinearOrderedField α]

theorem Retriever.update_numKeyPoints (r : Retriever α) (src dest : MetaSkeleton α) :
    (r.update src dest).skeleton.getNumKeyPoints = dest.skeleton.getNumKeyPoints := by
  unfold Skeleton.getNumKeyPoints
  rw [Retriever.update_merge_keypoints, List.length_map]

/-- One matched update keeps the budget of the track in range. -/
theorem Retriever.update_budget (r : Retriever α) (src dest : MetaSkeleton α)
    (hK : 0 ≤ r.keys_acceptable_misses)
    (hlen : dest.keys_acceptable_misses.length = dest.skeleton.getNumKeyPoints)
    (hrange : ∀ b ∈ dest.keys_acceptable_misses, 0 ≤ b ∧ b ≤ r.keys_acceptable_misses) :
    (r.update src dest).keys_acceptable_misses.length =
      (r.update src dest).skeleton.getNumKeyPoints ∧
    ∀ b ∈ (r.update src dest).keys_acceptable_misses,
      0 ≤ b ∧ b ≤ r.keys_acceptable_misses := by
  have hm := Retriever.update_misses r src dest
  refine ⟨by rw [hm.1, Retriever.update_numKeyPoints, hlen], ?_⟩
  intro b hb
  obtain ⟨j, hj, hbj⟩ := List.mem_iff_getElem.mp hb
  have hjd : j < dest.keys_acceptable_misses.length := by rw [← hm.1]; exact hj
  have hget : (r.update src dest).keys_acceptable_misses.getD j 0 = b := by
    rw [List.getD_eq_getElem _ _ hj, hbj]
  have hold : dest.keys_acceptable_misses.getD j 0 = dest.keys_acceptable_misses[j] :=
    List.getD_eq_getElem _ _ hjd
  have hin := hrange _ (List.getElem_mem hjd)
  rw [← hold] at hin
  rw [hm.2 j] at hget
  rw [← hget]
  split_ifs
  · unfold Retriever.updateMiss
    split_ifs with h1 h2
    · exact ⟨hK, le_refl _⟩
    · constructor <;> omega
    · exact hin
  · exact hin

end BudgetLemmas

section ReachableLemmas
variable {α : Type} [LinearOrderedField α] [FloorRing α]

omit [FloorRing α] in
theorem Retriever.gc_budget (r : Retriever α) (K : Int) (l : List (MetaSkeleton α))
    (h : BudgetInRange K l) : BudgetInRange K (r.gc l).1 := by
  intro t ht
  rw [(Retriever.gc_eq r l).1] at ht
  obtain ⟨ht1, _⟩ := List.mem_filter.mp ht
  obtain ⟨s0, hs0, rfl⟩ := List.mem_map.mp ht1
  exact h s0 hs0

theorem Retriever.handle_budget (r : Retriever α) (l : List (MetaSkeleton α)) (b3 : Value α)
    (reply : Option Int) (hK : 0 ≤ r.keys_acceptable_misses)
    (h : BudgetInRange r.keys_acceptable_misses l) :
    BudgetInRange r.keys_acceptable_misses (r.handle l b3 reply).1 := by
  rcases Retriever.handle_cases r l b3 reply with
    ⟨keys, i, s1, _, _, hs1, heq⟩ | ⟨keys, _, _, _, heq⟩ | heq | heq
  · rw [heq]
    intro t ht
    rcases List.mem_or_eq_of_mem_set ht with ht | rfl
    · exact h t ht
    · have hs := h s1 (List.getElem?_mem hs1)
      exact Retriever.update_budget r _ s1 hK hs.1 hs.2
  · rw [heq]
    intro t ht
    rcases List.mem_append.mp ht with ht | ht
    · exact h t ht
    · rw [List.mem_singleton.mp ht]
      have hc := Retriever.create_state r keys
      have hbud : (r.opcAdd (r.create keys) reply).keys_acceptable_misses =
          (r.create keys).keys_acceptable_misses := by cases reply <;> rfl
      have hsk : (r.opcAdd (r.create keys) reply).skeleton = (r.create keys).skeleton := by
        cases reply <;> rfl
      rw [hbud, hsk, hc.1]
      refine ⟨List.length_replicate _ _, ?_⟩
      intro b hb
      rw [(List.mem_replicate.mp hb).2]
      exact ⟨le_refl _, hK⟩
  · rw [heq]; exact h
  · rw [heq]; exact h

theorem Retriever.handleLoop_reachable (r : Retriever α) (opc : Nat → Option Int) :
    ∀ (b2 : List (Value α)) (i : Nat) (l : List (MetaSkeleton α)) (out : List Outcome),
      Reachable r.keys_acceptable_misses l →
      Reachable r.keys_acceptable_misses (r.handleLoop opc i b2 l out).1 := by
  intro b2
  induction b2 with
  | nil => intro i l out h; exact h
  | cons b3 rest ih =>
    intro i l out h
    simp only [Retriever.handleLoop]
    exact ih _ _ _ (Reachable.candidate r l b3 (opc i) rfl h)

theorem Retriever.updateModule_reachable (r : Retriever α) (l : List (MetaSkeleton α))
    (b1 : Option (List (Value α))) (opc : Nat → Option Int)
    (h : Reachable r.keys_acceptable_misses l) :
    Reachable r.keys_acceptable_misses (r.updateModule l b1 opc).skeletons := by
  have hs := Reachable.sweep r l rfl h
  unfold Retriever.updateModule
  dsimp only
  split
  · split
    · split
      · exact Retriever.handleLoop_reachable r opc _ 0 _ [] hs
      · exact hs
    · exact hs
  · exact hs

end ReachableLemmas

/-! ## The range of the miss budget -/

section BudgetRange
variable {α : Type} [LinearOrderedField α] [FloorRing α]

/-- C18: with a miss budget `K >= 0`, in every live set reachable from the
empty one by sweeps of `gc`, matched updates and admissions, every track has
exactly one budget entry per key-point slot and every entry lies between 0 and
`K`; and a cycle of `updateModule` leads from a reachable live set to a
reachable one. -/
theorem budget_range (K : Int) (hK : 0 ≤ K) :
    (∀ l : List (MetaSkeleton α), Reachable K l → BudgetInRange K l) ∧
    (∀ (r : Retriever α) (l : List (MetaSkeleton α)) (b1 : Option (List (Value α)))
      (opc : Nat → Option Int), r.keys_acceptable_misses = K → Reachable K l →
      Reachable K (r.updateModule l b1 opc).skeletons) := by
  constructor
  · intro l h
    induction h with
    | empty => intro t ht; cases ht
    | sweep r l hr _ ih => exact Retriever.gc_budget r K l ih
    | candidate r l b3 reply hr _ ih =>
      subst hr
      exact Retriever.handle_budget r l b3 reply hK ih
  · intro r l b1 opc hr h
    subst hr
    exact Retriever.updateModule_reachable r l b1 opc h

/-- C18 for `K = 3`: the live set after a first cycle that admits the sample
frame. -/
theorem budget_range_witness :
    ((0 : Int) ≤ 3 ∧
     Reachable 3 (sampleAdmission.updateModule []
       (some [.list [.list sampleFrameSeen]]) (fun _ => some 5)).skeletons) ∧
    BudgetInRange 3 (sampleAdmission.updateModule []
      (some [.list [.list sampleFrameSeen]]) (fun _ => some 5)).skeletons :=
  have h1 : (0 : Int) ≤ 3 := by decide
  have h2 : Reachable 3 (sampleAdmission.updateModule []
      (some [.list [.list sampleFrameSeen]]) (fun _ => some 5)).skeletons :=
    (@budget_range ℚ _ _ 3 h1).2 sampleAdmission [] _ _ rfl Reachable.empty
  ⟨⟨h1, h2⟩, (@budget_range ℚ _ _ 3 h1).1 _ h2⟩

end BudgetRange

section CycleShapeLemmas
variable {α : Type} [LinearOrderedField α] [FloorRing α]

theorem Retriever.handle_shape (r : Retriever α) (swept l : List (MetaSkeleton α)) (n : Nat)
    (b3 : Value α) (reply : Option Int) (h : r.CycleShape swept l n) :
    r.CycleShape swept (r.handle l b3 reply).1
      (n + (if (r.handle l b3 reply).2 = .admitted then 1 else 0)) ∧
    ∀ i, (r.handle l b3 reply).2 = .tracked i → i < swept.length + n := by
  obtain ⟨hlen, hA, hB⟩ := h
  rcases Retriever.handle_cases r l b3 reply with
    ⟨keys, i, s1, _, _, hs1, heq⟩ | ⟨keys, _, _, _, heq⟩ | heq | heq
  · rw [heq]
    have hi : i < l.length := by
      by_contra hc
      rw [List.getElem?_eq_none (not_lt.mp hc)] at hs1
      cases hs1
    refine ⟨⟨by simp [hlen], ?_, ?_⟩, ?_⟩
    · intro j t hj hjs
      rw [List.getElem?_set] at hj
      by_cases hij : i = j
      · subst hij
        rw [if_pos rfl, if_pos hi] at hj
        obtain ⟨s, hs, hr⟩ := hA i s1 hs1 hjs
        cases hj
        exact ⟨s, hs, Retriever.Refreshed.again s s1 _ hr⟩
      · rw [if_neg hij] at hj
        exact hA j t hj hjs
    · intro j t hj hjs
      rw [List.getElem?_set] at hj
      by_cases hij : i = j
      · subst hij
        rw [if_pos rfl, if_pos hi] at hj
        obtain ⟨keys1, reply1, hr⟩ := hB i s1 hs1 hjs
        cases hj
        exact ⟨keys1, reply1, Retriever.Refreshed.again _ s1 _ hr⟩
      · rw [if_neg hij] at hj
        exact hB j t hj hjs
    · intro i1 h1
      cases h1
      rw [← hlen]; exact hi
  · rw [heq]
    refine ⟨⟨by simp [hlen]; omega, ?_, ?_⟩, fun i h1 => by cases h1⟩
    · intro j t hj hjs
      have hjl : j < l.length := by omega
      rw [List.getElem?_append_left hjl] at hj
      exact hA j t hj hjs
    · intro j t hj hjs
      by_cases hjl : j < l.length
      · rw [List.getElem?_append_left hjl] at hj
        exact hB j t hj hjs
      · rw [List.getElem?_append_right (not_lt.mp hjl)] at hj
        have hj0 : j - l.length = 0 := by
          by_contra hne
          rw [List.getElem?_eq_none (by simp; omega)] at hj
          cases hj
        rw [hj0] at hj
        cases hj
        exact ⟨keys, reply, Retriever.Refreshed.same _⟩
  · rw [heq]
    exact ⟨⟨hlen, hA, hB⟩, fun i h1 => by cases h1⟩
  · rw [heq]
    exact ⟨⟨hlen, hA, hB⟩, fun i h1 => by cases h1⟩

end CycleShapeLemmas

section CycleLoopLemmas
variable {α : Type} [LinearOrderedField α] [FloorRing α]

theorem matchedWithin_snoc (m : Nat) (out : List Outcome) (o : Outcome)
    (h : matchedWithin m out)
    (ho : ∀ i, o = .tracked i → i < m + out.count .admitted) :
    matchedWithin m (out ++ [o]) := by
  intro k i hk
  by_cases hlt : k < out.length
  · rw [List.getElem?_append_left hlt] at hk
    rw [List.take_append_of_le_length (Nat.le_of_lt hlt)]
    exact h k i hk
  · rw [List.getElem?_append_right (not_lt.mp hlt)] at hk
    have hk0 : k - out.length = 0 := by
      by_contra hne
      rw [List.getElem?_eq_none (by simp; omega)] at hk
      cases hk
    rw [hk0] at hk
    have hkl : k = out.length := by omega
    have ho1 : o = .tracked i := by simpa using hk
    rw [hkl, List.take_append_of_le_length (le_refl _), List.take_length]
    exact ho i ho1

theorem Retriever.handleLoop_shape (r : Retriever α) (swept : List (MetaSkeleton α))
    (opc : Nat → Option Int) :
    ∀ (b2 : List (Value α)) (i : Nat) (l : List (MetaSkeleton α)) (out : List Outcome),
      r.CycleShape swept l (out.count .admitted) → matchedWithin swept.length out →
      r.CycleShape swept (r.handleLoop opc i b2 l out).1
        ((r.handleLoop opc i b2 l out).2.count .admitted) ∧
      matchedWithin swept.length (r.handleLoop opc i b2 l out).2 := by
  intro b2
  induction b2 with
  | nil => intro i l out h1 h2; exact ⟨h1, h2⟩
  | cons b3 rest ih =>
    intro i l out h1 h2
    simp only [Retriever.handleLoop]
    have hstep := Retriever.handle_shape r swept l _ b3 (opc i) h1
    apply ih
    · have hc : (out ++ [(r.handle l b3 (opc i)).2]).count .admitted =
          out.count .admitted +
            (if (r.handle l b3 (opc i)).2 = .admitted then 1 else 0) := by
        rw [List.count_append, List.count_singleton]
        by_cases ha : (r.handle l b3 (opc i)).2 = .admitted
        · simp [ha]
        · have ha2 : ¬ (Outcome.admitted = (r.handle l b3 (opc i)).2) := fun hh => ha hh.symm
          simp [ha, ha2]
      rw [hc]
      exact hstep.1
    · exact matchedWithin_snoc _ out _ h2 hstep.2

theorem Retriever.shape_start (r : Retriever α) (swept : List (MetaSkeleton α)) :
    r.CycleShape swept swept 0 := by
  refine ⟨rfl, ?_, ?_⟩
  · intro i t hi _
    exact ⟨t, hi, Retriever.Refreshed.same t⟩
  · intro i t hi hle
    exfalso
    rw [List.getElem?_eq_none hle] at hi
    cases hi

omit [FloorRing α] in
/-- The sweep keeps exactly the tracks whose timer exceeds the period and hands
the others to `opcDel`. -/
theorem Retriever.gc_filter (r : Retriever α) (l : List (MetaSkeleton α)) :
    (r.gc l).1 = (l.filter (fun s => decide (s.timer > r.period))).map
      (fun s => { s with timer := r.fl (s.timer - r.period) }) ∧
    (r.gc l).2 = (l.filter (fun s => decide (s.timer ≤ r.period))).map
      (fun s => s.opc_id) := by
  induction l with
  | nil => simp [Retriever.gc]
  | cons s l ih =>
    simp only [Retriever.gc]
    by_cases h : r.fl (s.timer - r.period) > 0
    · have h1 : s.timer > r.period := by
        have := (r.fl_pos _).mp h
        linarith
      have h2 : ¬ s.timer ≤ r.period := not_le.mpr h1
      rw [if_pos h]
      simp [List.filter_cons, h1, h2, ih.1, ih.2]
    · have h1 : ¬ s.timer > r.period := fun hh => h ((r.fl_pos _).mpr (by linarith))
      have h2 : s.timer ≤ r.period := not_lt.mp h1
      rw [if_neg h]
      simp [List.filter_cons, h1, h2, ih.1, ih.2]

theorem Retriever.updateModule_shape (r : Retriever α) (l : List (MetaSkeleton α))
    (b1 : Option (List (Value α))) (opc : Nat → Option Int) :
    (r.updateModule l b1 opc).deleted = (r.gc l).2 ∧
    r.CycleShape (r.gc l).1 (r.updateModule l b1 opc).skeletons
      ((r.updateModule l b1 opc).outcomes.count .admitted) ∧
    matchedWithin (r.gc l).1.length (r.updateModule l b1 opc).outcomes := by
  have hidle : r.CycleShape (r.gc l).1 (r.gc l).1 (([] : List Outcome).count .admitted) ∧
      matchedWithin (r.gc l).1.length [] :=
    ⟨Retriever.shape_start r _, fun k i hk => by simp at hk⟩
  unfold Retriever.updateModule
  dsimp only
  split
  · split
    · split
      · exact ⟨rfl, Retriever.handleLoop_shape r _ opc _ 0 _ [] hidle.1 hidle.2⟩
      · exact ⟨rfl, hidle⟩
    · exact ⟨rfl, hidle⟩
  · exact ⟨rfl, hidle⟩

end CycleLoopLemmas

section SelfMatchLemmas
variable {α : Type} [LinearOrderedField α]

/-- A candidate whose key points are those of the track is at mean distance 0
from it, when the norm of the zero vector is 0. -/
theorem Retriever.meanDistance_self (r : Retriever α) (t s : MetaSkeleton α)
    (hk : t.skeleton.keypoints = s.skeleton.keypoints)
    (hnorm : ∀ p : Vector3 α, r.norm (Vector3.sub p p) = 0) : r.meanDistance t s = 0 := by
  unfold Retriever.meanDistance
  rw [Retriever.distanceSum_fst]
  have : ((List.range t.skeleton.getNumKeyPoints).map (fun j =>
      if isUpdated (t.skeleton.atIndex j) && isUpdated (s.skeleton.atIndex j) then
        r.norm (Vector3.sub (getPoint (t.skeleton.atIndex j)) (getPoint (s.skeleton.atIndex j)))
      else 0)).sum = 0 := by
    apply List.sum_eq_zero
    intro x hx
    obtain ⟨j, _, rfl⟩ := List.mem_map.mp hx
    have : t.skeleton.atIndex j = s.skeleton.atIndex j := by
      unfold Skeleton.atIndex; rw [hk]
    rw [this, hnorm]
    simp
  rw [this, zero_div]

theorem Retriever.isTracked_singleton (r : Retriever α) (t s : MetaSkeleton α)
    (h : r.eligible t s) : r.isTracked [t] s = some 0 := by
  cases hres : r.isTracked [t] s with
  | none =>
    exact absurd h ((Retriever.isTracked_spec r [t] s).1.mp hres 0 t (by simp))
  | some i =>
    obtain ⟨t1, hti, _⟩ := (Retriever.isTracked_spec r [t] s).2 i hres
    cases i with
    | zero => rfl
    | succ i => simp at hti

end SelfMatchLemmas

/-! ## The sweep comes before the matching -/

section SweepFirst
variable {α : Type} [LinearOrderedField α] [FloorRing α]

/-- C19, as amended: in every cycle the sweep of `gc` keeps exactly the tracks
whose timer at the start exceeds the period and hands the others to `opcDel`;
the live set the candidates are matched against consists of these survivors,
in their positions and after zero or more matched updates, followed by the
tracks admitted in this cycle; and every index `isTracked` returns designates a
survivor, which had a timer above the period at the start of the cycle, or a
track admitted earlier in the same cycle. -/
theorem gc_before_match (r : Retriever α) (l : List (MetaSkeleton α))
    (b1 : Option (List (Value α))) (opc : Nat → Option Int) :
    (r.gc l).1 = (l.filter (fun s => decide (s.timer > r.period))).map
      (fun s => { s with timer := r.fl (s.timer - r.period) }) ∧
    (r.updateModule l b1 opc).deleted =
      (l.filter (fun s => decide (s.timer ≤ r.period))).map (fun s => s.opc_id) ∧
    r.CycleShape (r.gc l).1 (r.updateModule l b1 opc).skeletons
      ((r.updateModule l b1 opc).outcomes.count .admitted) ∧
    (∀ (k i : Nat), (r.updateModule l b1 opc).outcomes[k]? = some (.tracked i) →
      i < (l.filter (fun s => decide (s.timer > r.period))).length +
        ((r.updateModule l b1 opc).outcomes.take k).count .admitted) := by
  have hgc := Retriever.gc_filter r l
  have hshape := Retriever.updateModule_shape r l b1 opc
  refine ⟨hgc.1, by rw [hshape.1, hgc.2], hshape.2.1, ?_⟩
  intro k i hk
  have := hshape.2.2 k i hk
  rw [hgc.1, List.length_map] at this
  exact this

end SweepFirst

section SweepFirstSamples

theorem sample_self_match :
    sampleAdmission.isTracked
      [sampleAdmission.opcAdd (sampleAdmission.create sampleFrameSeen) (some 5)]
      (sampleAdmission.create sampleFrameSeen) = some 0 := by
  apply Retriever.isTracked_singleton
  rw [Retriever.eligible_iff _ _ _
    (by
      show 0 < (sampleAdmission.create sampleFrameSeen).skeleton.getNumKeyPoints
      rw [(Retriever.create_state sampleAdmission sampleFrameSeen).2.2.2]
      decide),
    Retriever.meanDistance_self sampleAdmission
      (sampleAdmission.opcAdd (sampleAdmission.create sampleFrameSeen) (some 5))
      (sampleAdmission.create sampleFrameSeen) rfl
      (by intro p; simp [sampleAdmission, sampleRetriever, Vector3.sub])]
  norm_num [sampleAdmission, sampleRetriever]

theorem sample_cycle_outcomes :
    (sampleAdmission.updateModule []
      (some [.list [.list sampleFrameSeen, .list sampleFrameSeen]])
      (fun _ => some 5)).outcomes = [.admitted, .tracked 0] := by
  have h2 := Retriever.handle_tracked sampleAdmission
    [sampleAdmission.opcAdd (sampleAdmission.create sampleFrameSeen) (some 5)]
    sampleFrameSeen (some 5) 0 _ (by decide) sample_self_match rfl
  simp only [Retriever.updateModule, Retriever.gc, List.head?_cons, Value.asList,
    Retriever.handleLoop, sample_handle_admitted, h2, List.nil_append, List.cons_append]

/-- C19 as stated fails: the live set is empty at the start of the cycle, the
first candidate of the frame is admitted, and the second candidate of the same
frame is matched with that track (index 0), which had no timer at the start of
the cycle. -/
theorem gc_before_match_counterexample :
    (sampleAdmission.updateModule []
      (some [.list [.list sampleFrameSeen, .list sampleFrameSeen]])
      (fun _ => some 5)).outcomes = [.admitted, .tracked 0] ∧
    ¬ ∃ s ∈ ([] : List (MetaSkeleton ℚ)), s.timer > sampleAdmission.period :=
  ⟨sample_cycle_outcomes, fun ⟨_, hs, _⟩ => by cases hs⟩

/-- C19, as amended, at the sample cycle: the second candidate is matched with
index 0, which is below the number of survivors (none) plus the number of
admissions before it (one). -/
theorem gc_before_match_witness :
    (sampleAdmission.updateModule []
      (some [.list [.list sampleFrameSeen, .list sampleFrameSeen]])
      (fun _ => some 5)).outcomes[1]? = some (.tracked 0) ∧
    0 < (([] : List (MetaSkeleton ℚ)).filter
        (fun s => decide (s.timer > sampleAdmission.period))).length +
      ((sampleAdmission.updateModule []
        (some [.list [.list sampleFrameSeen, .list sampleFrameSeen]])
        (fun _ => some 5)).outcomes.take 1).count .admitted :=
  have h : (sampleAdmission.updateModule []
      (some [.list [.list sampleFrameSeen, .list sampleFrameSeen]])
      (fun _ => some 5)).outcomes[1]? = some (.tracked 0) := by
    rw [sample_cycle_outcomes]; rfl
  ⟨h, (gc_before_match sampleAdmission []
    (some [.list [.list sampleFrameSeen, .list sampleFrameSeen]]) (fun _ => some 5)).2.2.2
    1 0 h⟩

end SweepFirstSamples

/-! ## Eviction -/

section RunLemmas
variable {α : Type} [LinearOrderedField α] [FloorRing α]

omit [FloorRing α] in
theorem Retriever.gc_frame (r : Retriever α) (d : ImageOf α) (h : α)
    (l : List (MetaSkeleton α)) :
    ({ r with depth := d, fov_h := h } : Retriever α).gc l = r.gc l := by
  induction l with
  | nil => rfl
  | cons s l ih => simp only [Retriever.gc, ih]

theorem Retriever.cycle_deleted (r : Retriever α) (l : List (MetaSkeleton α)) (f : Frame α) :
    (r.cycle l f).deleted = (r.gc l).2 := by
  unfold Retriever.cycle
  rw [(Retriever.updateModule_shape _ l f.b1 f.opc).1, Retriever.gc_frame r f.depth f.fov_h l]

omit [LinearOrderedField α] [FloorRing α] in
theorem List.split_at_index (l : List (MetaSkeleton α)) (i : Nat) (s : MetaSkeleton α)
    (h : l[i]? = some s) : l = l.take i ++ s :: l.drop (i + 1) := by
  obtain ⟨hi, hs⟩ := List.getElem?_eq_some.mp h
  rw [← hs, ← List.drop_eq_getElem_cons hi, List.take_append_drop]

omit [FloorRing α] in
/-- One sweep, seen from the track at position `i`. -/
theorem Retriever.gc_at (r : Retriever α) (l : List (MetaSkeleton α)) (i : Nat)
    (s : MetaSkeleton α) (h : l[i]? = some s) :
    (0 < r.fl (s.timer - r.period) →
      (r.gc l).1[(r.gc (l.take i)).1.length]? =
        some { s with timer := r.fl (s.timer - r.period) } ∧
      (r.gc l).2 = (r.gc (l.take i)).2 ++ (r.gc (l.drop (i + 1))).2) ∧
    (¬ 0 < r.fl (s.timer - r.period) →
      (r.gc l).1 = (r.gc (l.eraseIdx i)).1 ∧
      (r.gc l).2 = (r.gc (l.take i)).2 ++ s.opc_id :: (r.gc (l.drop (i + 1))).2) := by
  have hl := List.split_at_index l i s h
  constructor
  · intro hpos
    have hgc : r.gc (s :: l.drop (i + 1)) =
        ({ s with timer := r.fl (s.timer - r.period) } :: (r.gc (l.drop (i + 1))).1,
          (r.gc (l.drop (i + 1))).2) := by
      simp only [Retriever.gc]
      rw [if_pos hpos]
    have : r.gc l = r.gc (l.take i ++ s :: l.drop (i + 1)) := by rw [← hl]
    rw [this, Retriever.gc_append, hgc]
    dsimp only
    refine ⟨?_, rfl⟩
    rw [List.getElem?_append_right (le_refl _), Nat.sub_self, List.getElem?_cons_zero]
  · intro hneg
    have hgc : r.gc (s :: l.drop (i + 1)) =
        ((r.gc (l.drop (i + 1))).1, s.opc_id :: (r.gc (l.drop (i + 1))).2) := by
      simp only [Retriever.gc]
      rw [if_neg hneg]
    have : r.gc l = r.gc (l.take i ++ s :: l.drop (i + 1)) := by rw [← hl]
    rw [this, Retriever.gc_append, hgc, List.eraseIdx_eq_take_drop_succ, Retriever.gc_append]
    exact ⟨rfl, rfl⟩

/-- The handling of a candidate that is not matched with position `j` leaves
the track at position `j` as it is. -/
theorem Retriever.handle_keeps (r : Retriever α) (l : List (MetaSkeleton α)) (b3 : Value α)
    (reply : Option Int) (j : Nat) (hj : j < l.length)
    (h : (r.handle l b3 reply).2 ≠ .tracked j) :
    (r.handle l b3 reply).1[j]? = l[j]? ∧ j < (r.handle l b3 reply).1.length := by
  rcases Retriever.handle_cases r l b3 reply with
    ⟨keys, i, s1, _, _, _, he⟩ | ⟨keys, _, _, _, he⟩ | he | he
  · rw [he] at h ⊢
    have hij : i ≠ j := fun hh => h (by rw [hh])
    exact ⟨List.getElem?_set_ne hij, by rw [List.length_set]; exact hj⟩
  · rw [he]
    exact ⟨List.getElem?_append_left hj, by rw [List.length_append]; omega⟩
  · rw [he]; exact ⟨rfl, hj⟩
  · rw [he]; exact ⟨rfl, hj⟩

theorem Retriever.handleLoop_mem (r : Retriever α) (opc : Nat → Option Int)
    (b2 : List (Value α)) :
    ∀ (i : Nat) (l : List (MetaSkeleton α)) (out : List Outcome) (o : Outcome),
      o ∈ out → o ∈ (r.handleLoop opc i b2 l out).2 := by
  induction b2 with
  | nil => intro i l out o ho; exact ho
  | cons b3 rest ih =>
    intro i l out o ho
    simp only [Retriever.handleLoop]
    exact ih _ _ _ o (List.mem_append_left _ ho)

/-- The handling of a frame in which no candidate is matched with position `j`
leaves the track at position `j` as it is. -/
theorem Retriever.handleLoop_keeps (r : Retriever α) (opc : Nat → Option Int) (j : Nat)
    (b2 : List (Value α)) :
    ∀ (i : Nat) (l : List (MetaSkeleton α)) (out : List Outcome), j < l.length →
      Outcome.tracked j ∉ (r.handleLoop opc i b2 l out).2 →
      (r.handleLoop opc i b2 l out).1[j]? = l[j]? := by
  induction b2 with
  | nil => intro i l out _ _; rfl
  | cons b3 rest ih =>
    intro i l out hj h
    simp only [Retriever.handleLoop] at h ⊢
    have hstep : (r.handle l b3 (opc i)).2 ≠ .tracked j := by
      intro hh
      apply h
      apply Retriever.handleLoop_mem
      rw [hh]
      exact List.mem_append_right _ (List.mem_singleton_self _)
    have hk := Retriever.handle_keeps r l b3 (opc i) j hj hstep
    rw [ih _ _ _ hk.2 h, hk.1]

theorem Retriever.updateModule_keeps (r : Retriever α) (l : List (MetaSkeleton α))
    (b1 : Option (List (Value α))) (opc : Nat → Option Int) (j : Nat)
    (hj : j < (r.gc l).1.length)
    (h : Outcome.tracked j ∉ (r.updateModule l b1 opc).outcomes) :
    (r.updateModule l b1 opc).skeletons[j]? = (r.gc l).1[j]? := by
  unfold Retriever.updateModule at h ⊢
  dsimp only at h ⊢
  split at h
  · split at h
    · split at h
      · exact Retriever.handleLoop_keeps r opc j _ 0 _ [] hj h
      · rfl
    · rfl
  · rfl

/-- What a cycle does after its sweep depends on the survivors of the sweep
only. -/
theorem Retriever.updateModule_of_swept (r : Retriever α) (l k : List (MetaSkeleton α))
    (b1 : Option (List (Value α))) (opc : Nat → Option Int) (h : (r.gc l).1 = (r.gc k).1) :
    (r.updateModule l b1 opc).skeletons = (r.updateModule k b1 opc).skeletons ∧
    (r.updateModule l b1 opc).outcomes = (r.updateModule k b1 opc).outcomes := by
  unfold Retriever.updateModule
  dsimp only
  rw [h]
  split
  · split
    · split
      · exact ⟨rfl, rfl⟩
      · exact ⟨rfl, rfl⟩
    · exact ⟨rfl, rfl⟩
  · exact ⟨rfl, rfl⟩

/-- A cycle in which the track at position `i` survives the sweep and no
candidate is matched with it. -/
theorem Retriever.cycle_survive (r : Retriever α) (l : List (MetaSkeleton α)) (f : Frame α)
    (i : Nat) (s : MetaSkeleton α) (h : l[i]? = some s)
    (hpos : 0 < r.fl (s.timer - r.period))
    (hidle : Outcome.tracked (r.gc (l.take i)).1.length ∉ (r.cycle l f).outcomes) :
    r.sweepPosition l i = some (r.gc (l.take i)).1.length ∧
    (r.cycle l f).skeletons[(r.gc (l.take i)).1.length]? =
      some { s with timer := r.fl (s.timer - r.period) } ∧
    (r.cycle l f).deleted = (r.gc (l.take i)).2 ++ (r.gc (l.drop (i + 1))).2 := by
  have hgc := (Retriever.gc_at r l i s h).1 hpos
  refine ⟨?_, ?_, ?_⟩
  · unfold Retriever.sweepPosition
    rw [h]
    dsimp only
    rw [if_pos hpos]
  · have hlt : (r.gc (l.take i)).1.length < (r.gc l).1.length := by
      by_contra hge
      rw [List.getElem?_eq_none (not_lt.mp hge)] at hgc
      exact absurd hgc.1 (by simp)
    unfold Retriever.cycle at hidle ⊢
    rw [Retriever.updateModule_keeps _ l f.b1 f.opc _
      (by rw [Retriever.gc_frame r f.depth f.fov_h l]; exact hlt) hidle,
      Retriever.gc_frame r f.depth f.fov_h l]
    exact hgc.1
  · rw [Retriever.cycle_deleted]
    exact hgc.2

/-- A cycle whose sweep evicts the track at position `i`: the sweep calls
`opcDel` for it, between the calls for the tracks before it and the calls for
the tracks after it, and the cycle goes on as it does on the live set without
the track. -/
theorem Retriever.cycle_evict (r : Retriever α) (l : List (MetaSkeleton α)) (f : Frame α)
    (i : Nat) (s : MetaSkeleton α) (h : l[i]? = some s)
    (hneg : ¬ 0 < r.fl (s.timer - r.period)) :
    r.sweepPosition l i = none ∧
    (r.cycle l f).deleted =
      (r.gc (l.take i)).2 ++ s.opc_id :: (r.gc (l.drop (i + 1))).2 ∧
    (r.cycle l f).skeletons = (r.cycle (l.eraseIdx i) f).skeletons ∧
    (r.cycle l f).outcomes = (r.cycle (l.eraseIdx i) f).outcomes := by
  have hgc := (Retriever.gc_at r l i s h).2 hneg
  refine ⟨?_, ?_, ?_, ?_⟩
  · unfold Retriever.sweepPosition
    rw [h]
    dsimp only
    rw [if_neg hneg]
  · rw [Retriever.cycle_deleted]
    exact hgc.2
  · unfold Retriever.cycle
    exact (Retriever.updateModule_of_swept _ l (l.eraseIdx i) f.b1 f.opc
      (by rw [Retriever.gc_frame r f.depth f.fov_h l,
        Retriever.gc_frame r f.depth f.fov_h (l.eraseIdx i)]; exact hgc.1)).1
  · unfold Retriever.cycle
    exact (Retriever.updateModule_of_swept _ l (l.eraseIdx i) f.b1 f.opc
      (by rw [Retriever.gc_frame r f.depth f.fov_h l,
        Retriever.gc_frame r f.depth f.fov_h (l.eraseIdx i)]; exact hgc.1)).2

omit [FloorRing α] in
theorem Retriever.timerAfter_shift (r : Retriever α) (t : α) (n : Nat) :
    r.timerAfter (r.fl (t - r.period)) n = r.timerAfter t (n + 1) := by
  induction n with
  | zero => rfl
  | succ n ih =>
    show r.fl (r.timerAfter (r.fl (t - r.period)) n - r.period) = _
    rw [ih]
    rfl

omit [FloorRing α] in
/-- In exact arithmetic the timer after `n` subtractions is `t - n*period`. -/
theorem Retriever.timerAfter_exact (r : Retriever α) (hfl : ∀ x, r.fl x = x) (t : α)
    (n : Nat) : r.timerAfter t n = t - (n : α) * r.period := by
  induction n with
  | zero => simp [Retriever.timerAfter]
  | succ n ih =>
    show r.fl (r.timerAfter t n - r.period) = _
    rw [hfl, ih]
    push_cast
    ring

omit [FloorRing α] in
theorem Retriever.timerAfter_exact_pos (r : Retriever α) (hfl : ∀ x, r.fl x = x) (t : α)
    (hp : 0 < r.period) (ht : 0 < t) (n : Nat) :
    (∀ k, 1 ≤ k → k ≤ n → 0 < r.timerAfter t k) ↔ (n : α) * r.period < t := by
  constructor
  · intro h
    rcases Nat.eq_zero_or_pos n with hn | hn
    · subst hn; simpa using ht
    · have := h n hn (le_refl _)
      rw [Retriever.timerAfter_exact r hfl] at this
      linarith
  · intro h k _ hk
    rw [Retriever.timerAfter_exact r hfl]
    have : (k : α) * r.period ≤ (n : α) * r.period :=
      mul_le_mul_of_nonneg_right (Nat.cast_le.mpr hk) (le_of_lt hp)
    linarith

/-- The run of a track that no candidate is matched with. -/
theorem Retriever.run_track (r : Retriever α) (frames : List (Frame α)) :
    ∀ (l : List (MetaSkeleton α)) (i : Nat) (s : MetaSkeleton α), l[i]? = some s →
      r.neverMatched frames l i →
      (r.positionAfter frames l i ≠ none ↔
        ∀ k, 1 ≤ k → k ≤ frames.length → 0 < r.timerAfter s.timer k) ∧
      (∀ j, r.positionAfter frames l i = some j →
        (r.liveAfter frames l)[j]? =
          some { s with timer := r.timerAfter s.timer frames.length }) ∧
      r.requests frames l i = if r.positionAfter frames l i = none then 1 else 0 := by
  induction frames with
  | nil =>
    intro l i s hi _
    refine ⟨?_, ?_, ?_⟩
    · simp only [Retriever.positionAfter, ne_eq, reduceCtorEq, not_false_eq_true,
        List.length_nil, true_iff]
      intro k hk1 hk2
      omega
    · intro j hj
      simp only [Retriever.positionAfter, Option.some.injEq] at hj
      subst hj
      exact hi
    · simp [Retriever.positionAfter, Retriever.requests]
  | cons f rest ih =>
    intro l i s hi hidle
    by_cases hpos : 0 < r.fl (s.timer - r.period)
    · have hsp : r.sweepPosition l i = some (r.gc (l.take i)).1.length := by
        unfold Retriever.sweepPosition
        rw [hi]
        dsimp only
        rw [if_pos hpos]
      simp only [Retriever.neverMatched, hsp] at hidle
      have hc := Retriever.cycle_survive r l f i s hi hpos hidle.1
      have h := ih (r.cycle l f).skeletons _ _ hc.2.1 hidle.2
      simp only [Retriever.positionAfter, Retriever.liveAfter, Retriever.requests, hsp,
        List.length_cons]
      dsimp only at h
      refine ⟨?_, ?_, ?_⟩
      · rw [h.1]
        constructor
        · intro hk k hk1 hk2
          rcases Nat.lt_or_ge 1 k with hlt | hge
          · obtain ⟨m, rfl⟩ : ∃ m, k = m + 1 := ⟨k - 1, by omega⟩
            rw [← Retriever.timerAfter_shift]
            exact hk m (by omega) (by omega)
          · have : k = 1 := by omega
            subst this
            exact hpos
        · intro hk k hk1 hk2
          rw [Retriever.timerAfter_shift]
          exact hk (k + 1) (by omega) (by omega)
      · intro j hj
        rw [h.2.1 j hj, Retriever.timerAfter_shift]
      · rw [h.2.2, hc.2.2, List.length_append]
        simp
    · have hc := Retriever.cycle_evict r l f i s hi hpos
      simp only [Retriever.positionAfter, Retriever.requests, hc.1, List.length_cons]
      refine ⟨?_, ?_, ?_⟩
      · simp only [ne_eq, not_true_eq_false, false_iff, not_forall]
        exact ⟨1, by omega, by omega, hpos⟩
      · intro j hj
        cases hj
      · rw [hc.2.1, List.length_append, List.length_cons]
        simp

theorem Retriever.liveAfter_append (r : Retriever α) (a b : List (Frame α)) :
    ∀ l : List (MetaSkeleton α), r.liveAfter (a ++ b) l = r.liveAfter b (r.liveAfter a l) := by
  induction a with
  | nil => intro l; rfl
  | cons f a ih => intro l; exact ih _

theorem Retriever.positionAfter_append (r : Retriever α) (a b : List (Frame α)) :
    ∀ (l : List (MetaSkeleton α)) (i : Nat),
      r.positionAfter (a ++ b) l i =
        (r.positionAfter a l i).bind (fun j => r.positionAfter b (r.liveAfter a l) j) := by
  induction a with
  | nil => intro l i; rfl
  | cons f a ih =>
    intro l i
    simp only [List.cons_append, Retriever.positionAfter, Retriever.liveAfter]
    cases r.sweepPosition l i with
    | none => rfl
    | some j => exact ih _ _

theorem Retriever.neverMatched_append (r : Retriever α) (a b : List (Frame α)) :
    ∀ (l : List (MetaSkeleton α)) (i : Nat),
      r.neverMatched (a ++ b) l i → r.neverMatched a l i := by
  induction a with
  | nil => intro l i _; trivial
  | cons f a ih =>
    intro l i h
    simp only [List.cons_append, Retriever.neverMatched] at h ⊢
    cases hsp : r.sweepPosition l i with
    | none => trivial
    | some j =>
      rw [hsp] at h
      exact ⟨h.1, ih _ _ h.2⟩

/-- The cycle of a run in which the sweep evicts a track that no candidate was
matched with. -/
theorem Retriever.run_evict (r : Retriever α) (before after : List (Frame α)) (f : Frame α)
    (l : List (MetaSkeleton α)) (i j : Nat) (s : MetaSkeleton α) (hi : l[i]? = some s)
    (hidle : r.neverMatched (before ++ f :: after) l i)
    (hj : r.positionAfter before l i = some j)
    (hgone : r.positionAfter (before ++ [f]) l i = none) :
    (r.cycle (r.liveAfter before l) f).deleted =
      (r.gc ((r.liveAfter before l).take j)).2 ++
        s.opc_id :: (r.gc ((r.liveAfter before l).drop (j + 1))).2 ∧
    (r.cycle (r.liveAfter before l) f).skeletons =
      (r.cycle ((r.liveAfter before l).eraseIdx j) f).skeletons ∧
    r.liveAfter (before ++ f :: after) l =
      r.liveAfter (f :: after) ((r.liveAfter before l).eraseIdx j) := by
  have hrun := Retriever.run_track r before l i s hi
    (Retriever.neverMatched_append r before (f :: after) l i hidle)
  have hL := hrun.2.1 j hj
  rw [Retriever.positionAfter_append, hj] at hgone
  simp only [Option.some_bind, Retriever.positionAfter] at hgone
  have hneg : ¬ 0 < r.fl (({ s with timer := r.timerAfter s.timer before.length } :
      MetaSkeleton α).timer - r.period) := by
    intro hpos
    unfold Retriever.sweepPosition at hgone
    rw [hL] at hgone
    dsimp only at hgone
    rw [if_pos hpos] at hgone
    cases hgone
  have hc := Retriever.cycle_evict r (r.liveAfter before l) f j _ hL hneg
  refine ⟨hc.2.1, hc.2.2.1, ?_⟩
  rw [Retriever.liveAfter_append]
  simp only [Retriever.liveAfter]
  rw [hc.2.2.1]

end RunLemmas

section RoundingLemmas

theorem log_two_eq (x : ℚ) (e : ℤ) (hx : 0 < x) (h1 : (2 : ℚ) ^ e ≤ x)
    (h2 : x < (2 : ℚ) ^ (e + 1)) : Int.log 2 x = e := by
  apply le_antisymm
  · have := (@Int.lt_zpow_iff_log_lt ℚ _ _ 2 (by norm_num) (e + 1) x hx).mp (by simpa using h2)
    omega
  · exact (@Int.zpow_le_iff_le_log ℚ _ _ 2 (by norm_num) e x hx).mp (by simpa using h1)

/-- The value of `binary64` at a positive number `x` with `2^e <= x < 2^(e+1)`. -/
theorem binary64_eq (x : ℚ) (e n : ℤ) (hx : 0 < x) (h1 : (2 : ℚ) ^ e ≤ x)
    (h2 : x < (2 : ℚ) ^ (e + 1)) (hn : roundHalfEven (x / 2 ^ (e - 52)) = n) :
    binary64 x = (n : ℚ) * 2 ^ (e - 52) := by
  unfold binary64
  rw [if_neg (ne_of_gt hx), abs_of_pos hx, log_two_eq x e hx h1 h2, hn]

theorem roundHalfEven_eq (y : ℚ) (f : ℤ) (h1 : (f : ℚ) ≤ y) (h2 : y < f + 1) :
    roundHalfEven y =
      if y - f < 1 / 2 then f else if 1 / 2 < y - f then f + 1
      else if f % 2 = 0 then f else f + 1 := by
  have : ⌊y⌋ = f := Int.floor_eq_iff.mpr ⟨h1, h2⟩
  unfold roundHalfEven
  rw [this]

/-- The double nearest to 0.1. -/
theorem sample_double_period : sampleDouble.period = 3602879701896397 / 36028797018963968 := by
  show binary64 (1 / 10) = _
  rw [binary64_eq (1 / 10) (-4) 7205759403792794 (by norm_num) (by norm_num) (by norm_num)
    (by
      rw [roundHalfEven_eq _ 7205759403792793 (by norm_num) (by norm_num)]
      norm_num)]
  norm_num

theorem Retriever.timerAfter_step {α : Type} [LinearOrderedField α] (r : Retriever α) (t : α)
    (n : Nat) : r.timerAfter t (n + 1) = r.fl (r.timerAfter t n - r.period) := rfl

theorem Retriever.timerAfter_start {α : Type} [LinearOrderedField α] (r : Retriever α)
    (t : α) : r.timerAfter t 0 = t := rfl

theorem sample_double_fl : sampleDouble.fl = binary64 := rfl

/-- The values of the timer under `timer-=period` in doubles, from 0.5 with
the period 0.1: 0.4, 0.30000000000000004, 0.20000000000000004,
0.10000000000000003 and 2.7755575615628914e-17. -/
theorem sample_double_timers :
    sampleDouble.timerAfter (1 / 2) 1 = 3602879701896397 / 9007199254740992 ∧
    sampleDouble.timerAfter (1 / 2) 2 = 1351079888211149 / 4503599627370496 ∧
    sampleDouble.timerAfter (1 / 2) 3 = 7205759403792795 / 36028797018963968 ∧
    sampleDouble.timerAfter (1 / 2) 4 = 1801439850948199 / 18014398509481984 ∧
    sampleDouble.timerAfter (1 / 2) 5 = 1 / 36028797018963968 := by
  have h1 : sampleDouble.timerAfter (1 / 2) 1 = 3602879701896397 / 9007199254740992 := by
    rw [Retriever.timerAfter_step, Retriever.timerAfter_start, sample_double_period, sample_double_fl,
      binary64_eq _ (-2) 7205759403792794 (by norm_num) (by norm_num) (by norm_num)
      (by
        rw [roundHalfEven_eq _ 7205759403792793 (by norm_num) (by norm_num)]
        norm_num)]
    norm_num
  have h2 : sampleDouble.timerAfter (1 / 2) 2 = 1351079888211149 / 4503599627370496 := by
    rw [Retriever.timerAfter_step, h1, sample_double_period, sample_double_fl,
      binary64_eq _ (-2) 5404319552844596 (by norm_num) (by norm_num) (by norm_num)
      (by
        rw [roundHalfEven_eq _ 5404319552844595 (by norm_num) (by norm_num)]
        norm_num)]
    norm_num
  have h3 : sampleDouble.timerAfter (1 / 2) 3 = 7205759403792795 / 36028797018963968 := by
    rw [Retriever.timerAfter_step, h2, sample_double_period, sample_double_fl,
      binary64_eq _ (-3) 7205759403792795 (by norm_num) (by norm_num) (by norm_num)
      (by
        rw [roundHalfEven_eq _ 7205759403792795 (by norm_num) (by norm_num)]
        norm_num)]
    norm_num
  have h4 : sampleDouble.timerAfter (1 / 2) 4 = 1801439850948199 / 18014398509481984 := by
    rw [Retriever.timerAfter_step, h3, sample_double_period, sample_double_fl,
      binary64_eq _ (-4) 7205759403792796 (by norm_num) (by norm_num) (by norm_num)
      (by
        rw [roundHalfEven_eq _ 7205759403792796 (by norm_num) (by norm_num)]
        norm_num)]
    norm_num
  have h5 : sampleDouble.timerAfter (1 / 2) 5 = 1 / 36028797018963968 := by
    rw [Retriever.timerAfter_step, h4, sample_double_period, sample_double_fl,
      binary64_eq _ (-55) 4503599627370496 (by norm_num) (by norm_num) (by norm_num)
      (by
        rw [roundHalfEven_eq _ 4503599627370496 (by norm_num) (by norm_num)]
        norm_num)]
    norm_num
  exact ⟨h1, h2, h3, h4, h5⟩

end RoundingLemmas

section IdleLemmas
variable {α : Type} [LinearOrderedField α] [FloorRing α]

/-- A cycle in which the detector port has nothing to read is the sweep alone. -/
theorem Retriever.cycle_idle (r : Retriever α) (l : List (MetaSkeleton α)) (f : Frame α)
    (hf : f.b1 = none) :
    (r.cycle l f).skeletons = (r.gc l).1 ∧ (r.cycle l f).outcomes = [] := by
  unfold Retriever.cycle Retriever.updateModule
  rw [hf]
  dsimp only
  rw [Retriever.gc_frame r f.depth f.fov_h l]
  exact ⟨rfl, rfl⟩

theorem Retriever.neverMatched_idle (r : Retriever α) (frames : List (Frame α))
    (hf : ∀ f ∈ frames, f.b1 = none) :
    ∀ (l : List (MetaSkeleton α)) (i : Nat), r.neverMatched frames l i := by
  induction frames with
  | nil => intro l i; trivial
  | cons f rest ih =>
    intro l i
    simp only [Retriever.neverMatched]
    cases r.sweepPosition l i with
    | none => trivial
    | some j =>
      refine ⟨?_, ih (fun g hg => hf g (List.mem_cons_of_mem _ hg)) _ _⟩
      rw [(Retriever.cycle_idle r l f (hf f (List.mem_cons_self _ _))).2]
      exact List.not_mem_nil _

/-- Sweeps of a live set of one track, for as long as its timer stays
positive. -/
theorem Retriever.idle_single (r : Retriever α) (f : Frame α) (hf : f.b1 = none) (n : Nat) :
    ∀ s : MetaSkeleton α, (∀ k, 1 ≤ k → k ≤ n → 0 < r.timerAfter s.timer k) →
      r.liveAfter (List.replicate n f) [s] = [{ s with timer := r.timerAfter s.timer n }] ∧
      r.positionAfter (List.replicate n f) [s] 0 = some 0 := by
  induction n with
  | zero => intro s _; exact ⟨rfl, rfl⟩
  | succ n ih =>
    intro s h
    have hpos : 0 < r.fl (s.timer - r.period) := h 1 (le_refl _) (by omega)
    have hgc : (r.gc [s]).1 = [{ s with timer := r.fl (s.timer - r.period) }] := by
      simp only [Retriever.gc]
      rw [if_pos hpos]
    have hsp : r.sweepPosition [s] 0 = some 0 := by
      unfold Retriever.sweepPosition
      simp only [List.getElem?_cons_zero]
      rw [if_pos hpos]
      rfl
    have hnext := ih { s with timer := r.fl (s.timer - r.period) } (fun k hk1 hk2 => by
      rw [Retriever.timerAfter_shift]
      exact h (k + 1) (by omega) (by omega))
    rw [List.replicate_succ]
    simp only [Retriever.liveAfter, Retriever.positionAfter, hsp]
    rw [(Retriever.cycle_idle r [s] f hf).1, hgc, hnext.1, hnext.2]
    dsimp only
    rw [Retriever.timerAfter_shift]
    exact ⟨rfl, rfl⟩

end IdleLemmas

section EvictionClaim
variable {α : Type} [LinearOrderedField α] [FloorRing α]

/-- C4, as amended: let the period `p` and the time to live `T` be positive,
and take a track whose timer is `T` and that no candidate is matched with in
the cycles of a run, whatever happens to the other tracks.  The track is still
in the live set after `n` sweeps of `gc` iff its timer stayed positive through
the `n` executions of `timer-=period`, that is `t_k > 0` for `k = 1..n`, where
`t_0 = T` and `t_k` is the double `t_(k-1) - p`; it is then the same track with
timer `t_n`.  In exact arithmetic this is `n*p < T`.  The sweeps of the run
make one `opcDel` call for the track if it is no longer in the live set and
none otherwise; the call is made in the cycle that evicts the track, with its
registry identifier, and from that cycle on the run is the run of the live set
without the track. -/
theorem ttl_eviction (r : Retriever α) (frames : List (Frame α)) (l : List (MetaSkeleton α))
    (i : Nat) (s : MetaSkeleton α) (hp : 0 < r.period) (hT : 0 < r.time_to_live)
    (hi : l[i]? = some s) (hs : s.timer = r.time_to_live)
    (hidle : r.neverMatched frames l i) :
    (r.positionAfter frames l i ≠ none ↔
      ∀ k, 1 ≤ k → k ≤ frames.length → 0 < r.timerAfter r.time_to_live k) ∧
    (∀ j, r.positionAfter frames l i = some j →
      (r.liveAfter frames l)[j]? =
        some { s with timer := r.timerAfter r.time_to_live frames.length }) ∧
    ((∀ x, r.fl x = x) →
      (r.positionAfter frames l i ≠ none ↔
        (frames.length : α) * r.period < r.time_to_live)) ∧
    r.requests frames l i = (if r.positionAfter frames l i = none then 1 else 0) ∧
    (∀ (before after : List (Frame α)) (f : Frame α) (j : Nat),
      frames = before ++ f :: after → r.positionAfter before l i = some j →
      r.positionAfter (before ++ [f]) l i = none →
      (r.cycle (r.liveAfter before l) f).deleted =
        (r.gc ((r.liveAfter before l).take j)).2 ++
          s.opc_id :: (r.gc ((r.liveAfter before l).drop (j + 1))).2 ∧
      (r.cycle (r.liveAfter before l) f).skeletons =
        (r.cycle ((r.liveAfter before l).eraseIdx j) f).skeletons ∧
      r.liveAfter frames l =
        r.liveAfter (f :: after) ((r.liveAfter before l).eraseIdx j)) := by
  have hrun := Retriever.run_track r frames l i s hi hidle
  rw [hs] at hrun
  refine ⟨hrun.1, hrun.2.1, ?_, hrun.2.2, ?_⟩
  · intro hfl
    rw [hrun.1]
    exact Retriever.timerAfter_exact_pos r hfl _ hp hT _
  · intro before after f j hsplit hj hgone
    subst hsplit
    exact Retriever.run_evict r before after f l i j s hi hidle hj hgone

end EvictionClaim

section EvictionSamples

theorem sample_slow_frame :
    ({ sampleSlow with depth := sampleBusy.depth, fov_h := sampleBusy.fov_h } : Retriever ℚ) =
      sampleSlow := rfl

/-- The live set `[sampleTrack, sampleTrackB]` after the sweep of the first cycle. -/
theorem sample_slow_sweep :
    sampleSlow.gc [sampleTrack, sampleTrackB] =
      ([{ sampleTrack with timer := 1 / 5 }, { sampleTrackB with timer := 1 / 5 }], []) := by
  simp only [Retriever.gc]
  have h1 : sampleSlow.fl (sampleTrack.timer - sampleSlow.period) = 1 / 5 := by
    show (0.5 : ℚ) - 0.3 = 1 / 5
    norm_num
  have h2 : sampleSlow.fl (sampleTrackB.timer - sampleSlow.period) = 1 / 5 := by
    show (0.5 : ℚ) - 0.3 = 1 / 5
    norm_num
  rw [h1, h2]
  norm_num

/-- The candidate with nothing usable is matched with the last track of the
live set, `sampleTrackB`. -/
theorem sample_slow_match :
    sampleSlow.isTracked
      [{ sampleTrack with timer := 1 / 5 }, { sampleTrackB with timer := 1 / 5 }]
      (sampleSlow.create sampleFrameNothing) = some 1 := by
  have hs : ∀ j, isUpdated ((sampleSlow.create sampleFrameNothing).skeleton.atIndex j) = false :=
    Retriever.create_nothing sampleSlow _ sample_frame_nothing
  have hthr : (0 : ℚ) ≤ sampleSlow.tracking_threshold := by
    show (0 : ℚ) ≤ 0.3
    norm_num
  have hN : ∀ t ∈ [({ sampleTrack with timer := 1 / 5 } : MetaSkeleton ℚ),
      { sampleTrackB with timer := 1 / 5 }], 0 < t.skeleton.getNumKeyPoints := by
    intro t ht
    simp only [List.mem_cons, List.mem_singleton, List.not_mem_nil, or_false] at ht
    rcases ht with rfl | rfl <;> decide
  obtain ⟨i, t, hi, ht⟩ := Retriever.isTracked_of_stale sampleSlow _ _ hthr (by simp) hN hs
  obtain ⟨t1, ht1, _, _, hlast⟩ := (Retriever.isTracked_spec sampleSlow _ _).2 i hi
  have hle : 1 ≤ i := by
    refine hlast 1 { sampleTrackB with timer := 1 / 5 } rfl ?_ ?_
    · rw [Retriever.eligible_iff _ _ _ (by decide), Retriever.meanDistance_of_stale _ _ _ hs]
      exact hthr
    · rw [Retriever.meanDistance_of_stale _ _ _ hs, Retriever.meanDistance_of_stale _ _ _ hs]
  have hlt : i < 2 := by
    by_contra hge
    rw [List.getElem?_eq_none (by simpa using hge)] at ht
    cases ht
  have : i = 1 := by omega
  rw [hi, this]

/-- The first cycle of the sample run: both tracks survive the sweep, and the
candidate is matched with the second one. -/
theorem sample_busy_cycle :
    (sampleSlow.cycle [sampleTrack, sampleTrackB] sampleBusy).outcomes = [.tracked 1] := by
  unfold Retriever.cycle
  rw [sample_slow_frame]
  have h := Retriever.handle_tracked sampleSlow
    [{ sampleTrack with timer := 1 / 5 }, { sampleTrackB with timer := 1 / 5 }]
    sampleFrameNothing none 1 _ (by decide) sample_slow_match rfl
  simp only [Retriever.updateModule, sample_slow_sweep, sampleBusy, List.head?_cons,
    Value.asList, Retriever.handleLoop, h, List.nil_append]

/-- C4, as amended, at the sample configuration with a period of 0.3 and exact
arithmetic, on the live set of the sample track and a second track.  In the
first cycle both tracks survive the sweep and the candidate of the frame is
matched with the second track; in the second cycle nothing is detected.  The
sample track is in the live set after the first sweep (`0.3 < 0.5`) and not
after the second (`0.6 >= 0.5`); one `opcDel` call is made for it, in the second
cycle and with its identifier. -/
theorem ttl_eviction_witness :
    (0 < sampleSlow.period ∧ 0 < sampleSlow.time_to_live ∧
      [sampleTrack, sampleTrackB][0]? = some sampleTrack ∧
      sampleTrack.timer = sampleSlow.time_to_live ∧
      sampleSlow.neverMatched [sampleBusy, sampleIdle] [sampleTrack, sampleTrackB] 0) ∧
    (sampleSlow.cycle [sampleTrack, sampleTrackB] sampleBusy).outcomes = [.tracked 1] ∧
    sampleSlow.positionAfter [sampleBusy] [sampleTrack, sampleTrackB] 0 = some 0 ∧
    sampleSlow.positionAfter [sampleBusy, sampleIdle] [sampleTrack, sampleTrackB] 0 = none ∧
    sampleSlow.requests [sampleBusy, sampleIdle] [sampleTrack, sampleTrackB] 0 = 1 ∧
    sampleTrack.opc_id ∈
      (sampleSlow.cycle (sampleSlow.liveAfter [sampleBusy] [sampleTrack, sampleTrackB])
        sampleIdle).deleted :=
  have hp : 0 < sampleSlow.period := by norm_num [sampleSlow, sampleRetriever]
  have hT : 0 < sampleSlow.time_to_live := by norm_num [sampleSlow, sampleRetriever]
  have hi : [sampleTrack, sampleTrackB][0]? = some sampleTrack := rfl
  have hs : sampleTrack.timer = sampleSlow.time_to_live := rfl
  have hsp : sampleSlow.sweepPosition [sampleTrack, sampleTrackB] 0 = some 0 := by
    have hpos : 0 < sampleSlow.fl (sampleTrack.timer - sampleSlow.period) := by
      show (0 : ℚ) < 0.5 - 0.3
      norm_num
    unfold Retriever.sweepPosition
    rw [hi]
    dsimp only
    rw [if_pos hpos]
    rfl
  have hidle : sampleSlow.neverMatched [sampleBusy, sampleIdle] [sampleTrack, sampleTrackB] 0 := by
    simp only [Retriever.neverMatched, hsp]
    refine ⟨?_, ?_⟩
    · rw [sample_busy_cycle]
      decide
    · exact Retriever.neverMatched_idle sampleSlow [sampleIdle] (by
        intro f hf
        rw [List.mem_singleton.mp hf]
        rfl) _ _
  have hone : sampleSlow.positionAfter [sampleBusy] [sampleTrack, sampleTrackB] 0 = some 0 := by
    simp only [Retriever.positionAfter, hsp]
  have h := ttl_eviction sampleSlow [sampleBusy, sampleIdle] [sampleTrack, sampleTrackB] 0
    sampleTrack hp hT hi hs hidle
  have hnone : sampleSlow.positionAfter [sampleBusy, sampleIdle]
      [sampleTrack, sampleTrackB] 0 = none := by
    by_contra hne
    have := (h.2.2.1 (fun _ => rfl)).mp hne
    norm_num [sampleSlow, sampleRetriever] at this
  ⟨⟨hp, hT, hi, hs, hidle⟩, sample_busy_cycle, hone, hnone, by rw [h.2.2.2.1, if_pos hnone],
    by
      rw [(h.2.2.2.2 [sampleBusy] [] sampleIdle 0 rfl hone hnone).1]
      exact List.mem_append_right _ (List.mem_cons_self _ _)⟩

/-- C4 as stated fails in double arithmetic: with `T = 0.5` and `p` the double
nearest to 0.1, a track with timer `T`, alone in the live set, is still in the
live set (at position 0) after 5 sweeps without detections, with the timer
`2.7755575615628914e-17` (which is `2^-55`), although `5*p >= T`; the sixth
sweep evicts it. -/
theorem ttl_eviction_counterexample :
    (0 < sampleDouble.period ∧ 0 < sampleDouble.time_to_live ∧
      sampleTrack.timer = sampleDouble.time_to_live ∧
      sampleDouble.neverMatched (List.replicate 5 sampleIdle) [sampleTrack] 0) ∧
    sampleDouble.positionAfter (List.replicate 5 sampleIdle) [sampleTrack] 0 = some 0 ∧
    sampleDouble.liveAfter (List.replicate 5 sampleIdle) [sampleTrack] =
      [{ sampleTrack with timer := 1 / 36028797018963968 }] ∧
    ¬ ((5 : ℚ) * sampleDouble.period < sampleDouble.time_to_live) ∧
    sampleDouble.liveAfter (List.replicate 6 sampleIdle) [sampleTrack] = [] := by
  have hT : sampleDouble.time_to_live = 1 / 2 := by
    show (0.5 : ℚ) = 1 / 2
    norm_num
  have hs : sampleTrack.timer = sampleDouble.time_to_live := rfl
  obtain ⟨h1, h2, h3, h4, h5⟩ := sample_double_timers
  have hlive : ∀ k, 1 ≤ k → k ≤ 5 → 0 < sampleDouble.timerAfter sampleTrack.timer k := by
    intro k hk1 hk2
    rw [hs, hT]
    interval_cases k
    · rw [h1]; norm_num
    · rw [h2]; norm_num
    · rw [h3]; norm_num
    · rw [h4]; norm_num
    · rw [h5]; norm_num
  obtain ⟨h5live, h5pos⟩ :=
    Retriever.idle_single sampleDouble sampleIdle rfl 5 sampleTrack hlive
  rw [hs, hT, h5] at h5live
  refine ⟨⟨?_, ?_, hs, ?_⟩, h5pos, h5live, ?_, ?_⟩
  · rw [sample_double_period]; norm_num
  · rw [hT]; norm_num
  · exact Retriever.neverMatched_idle _ _ (fun f hf => by
      rw [List.eq_of_mem_replicate hf]; rfl) _ _
  · rw [sample_double_period, hT]; norm_num
  · rw [show (6 : Nat) = 5 + 1 from rfl, List.replicate_succ', Retriever.liveAfter_append, h5live]
    simp only [Retriever.liveAfter]
    rw [(Retriever.cycle_idle sampleDouble _ sampleIdle rfl).1]
    have hneg : ¬ 0 < sampleDouble.fl
        (({ sampleTrack with timer := 1 / 36028797018963968 } : MetaSkeleton ℚ).timer -
          sampleDouble.period) := by
      rw [sampleDouble.fl_pos, sample_double_period]
      norm_num
    simp only [Retriever.gc]
    rw [if_neg hneg]

end EvictionSamples

end SkeletonRetriever
